import Mathlib

/-!
Conversation manager and durable store of the data-collection bot.

A shallow embedding of `conversation.go`: the per-chat state machine
(`handleCommand`, `handleMessage` and the stage handlers), the summaries
(`factsToStr`, `allUsersDataSummary`) and the file store (`Load`, `Save`).

Modelling conventions.

* A Go `string` is a Lean `String` (valid Unicode text, which is what the
  transport layer and the JSON decoder deliver).  Go compares strings by
  bytes; for valid UTF-8 this is the code-point order used by `strLess`.
* A Go `map[K]V` is the list of its entries in an iteration order.  Go leaves
  that order unspecified, so results are proved for every list.  A nil map of
  strings is `none`, an allocated one is `some entries`.
* A `*userState` is an `Option userState` (`none` is the nil pointer); a nil
  dereference makes the handler return `none`.
* Session ids are `Int`s; `isInt64` marks the range of Go's `int64`.
* The store file is represented by what `os.ReadFile` and `json.Unmarshal`
  make of it (`FileContent`).  `json.MarshalIndent` and `json.Unmarshal` are
  followed on JSON documents (`MarshalIndent`, `Unmarshal`, `readDocument`);
  a Go string that need not be valid UTF-8 is a `GoString`.  For a mapping of
  valid text with distinct labels, the file `Save` leaves is proved to be the
  decoding of the document `Save` writes (`readDocument_written`).  Each
  handler takes the outcome of the file write it may perform as a Boolean.
-/

namespace TgBot

/-! ## Strings -/

/-- Go's `unicode.IsSpace`: the Latin-1 cases and the `White_Space` table. -/
def IsSpace (r : Char) : Bool :=
  let c := r.toNat
  if c ≤ 0xFF then
    c == 0x09 || c == 0x0A || c == 0x0B || c == 0x0C || c == 0x0D || c == 0x20
      || c == 0x85 || c == 0xA0
  else
    c == 0x1680 || (0x2000 ≤ c && c ≤ 0x200A) || c == 0x2028 || c == 0x2029
      || c == 0x202F || c == 0x205F || c == 0x3000

/-- Go's `strings.TrimSpace`: drop leading and trailing white space. -/
def TrimSpace (s : String) : String :=
  ⟨((s.data.dropWhile IsSpace).reverse.dropWhile IsSpace).reverse⟩

/-- Go's `strings.Join`. -/
def Join : List String → String → String
  | [], _ => ""
  | [a], _ => a
  | a :: b :: rest, sep => a ++ sep ++ Join (b :: rest) sep

/-- Go's `strings.Contains`. -/
def Contains (s sub : String) : Prop := sub.data <:+: s.data

/-- Go's `<` on strings, on the code points of the two texts. -/
def strLess : List Char → List Char → Bool
  | _, [] => false
  | [], _ :: _ => true
  | a :: as, b :: bs =>
    if a.toNat < b.toNat then true
    else if b.toNat < a.toNat then false
    else strLess as bs

/-- The order `sort.Strings` sorts by: `a` is not after `b`. -/
def strLE (a b : String) : Prop := strLess b.data a.data = false

instance : DecidableRel strLE := fun a b =>
  inferInstanceAs (Decidable (strLess b.data a.data = false))

/-- Go's `sort.Strings`: the ascending rearrangement of the slice. -/
def sortStrings (keys : List String) : List String :=
  keys.insertionSort strLE

/-- Go's `sort.Slice(ids, func(i, j) bool { return ids[i] < ids[j] })`. -/
def sortIds (ids : List Int) : List Int :=
  ids.insertionSort (fun a b => a ≤ b)

/-! ## Integers and their decimal form -/

/-- The range of Go's `int64`. -/
def isInt64 (n : Int) : Prop := -(2 : Int) ^ 63 ≤ n ∧ n < (2 : Int) ^ 63

instance (n : Int) : Decidable (isInt64 n) :=
  inferInstanceAs (Decidable (_ ∧ _))

/-- The character of a decimal digit. -/
def digitChar (d : Nat) : Char := Char.ofNat (48 + d)

/-- Decimal digits of a natural number, most significant first. -/
def formatUintFuel : Nat → Nat → List Char
  | 0, _ => []
  | fuel + 1, n =>
    if n < 10 then [digitChar n]
    else formatUintFuel fuel (n / 10) ++ [digitChar (n % 10)]

/-- Decimal digits of a natural number (`strconv.FormatUint(n, 10)`). -/
def formatUint (n : Nat) : List Char := formatUintFuel (n + 1) n

/-- Go's `strconv.FormatInt(k, 10)`. -/
def FormatInt (k : Int) : String :=
  if k < 0 then ⟨'-' :: formatUint k.natAbs⟩ else ⟨formatUint k.natAbs⟩

/-- Value of a decimal digit character, if it is one. -/
def digitVal (c : Char) : Option Nat :=
  if 48 ≤ c.toNat ∧ c.toNat ≤ 57 then some (c.toNat - 48) else none

/-- The digit loop of `strconv.ParseUint(s, 10, 64)`; `none` is an error. -/
def parseUintLoop : List Char → Nat → Option Nat
  | [], n => some n
  | c :: cs, n =>
    match digitVal c with
    | none => none
    | some d =>
      if n ≥ (2 ^ 64 - 1) / 10 + 1 then none
      else if n * 10 + d > 2 ^ 64 - 1 then none
      else parseUintLoop cs (n * 10 + d)

/-- Go's `strconv.ParseUint(s, 10, 64)`; `none` is any error. -/
def ParseUint (s : List Char) : Option Nat :=
  match s with
  | [] => none
  | _ :: _ => parseUintLoop s 0

/-- Go's `strconv.ParseInt(s, 10, 64)`; `none` is any error. -/
def ParseInt (s : String) : Option Int :=
  match s.data with
  | [] => none
  | c :: cs =>
    let neg := c == '-'
    let rest := if c == '+' || c == '-' then cs else c :: cs
    match ParseUint rest with
    | none => none
    | some un =>
      if !neg && un ≥ 2 ^ 63 then none
      else if neg && un > 2 ^ 63 then none
      else some (if neg then -(un : Int) else (un : Int))

/-! ## Maps -/

/-- Reading `m[k]` with the comma-ok form. -/
def mapGet? {κ ν : Type} [DecidableEq κ] : List (κ × ν) → κ → Option ν
  | [], _ => none
  | (k', v) :: rest, k => if k' = k then some v else mapGet? rest k

/-- The assignment `m[k] = v`: replace the entry of `k`, or add one. -/
def mapSet {κ ν : Type} [DecidableEq κ] : List (κ × ν) → κ → ν → List (κ × ν)
  | [], k, v => [(k, v)]
  | (k', v') :: rest, k, v =>
    if k' = k then (k, v) :: rest else (k', v') :: mapSet rest k v

/-- The keys of a map, in iteration order. -/
def mapKeys {κ ν : Type} (m : List (κ × ν)) : List κ := m.map Prod.fst

/-! ## Data model -/

/-- The stage constant `stageChoosing`. -/
def stageChoosing : String := "CHOOSING"

/-- The stage constant `stageTypingReply`. -/
def stageTypingReply : String := "TYPING_REPLY"

/-- The stage constant `stageTypingKey`. -/
def stageTypingKey : String := "TYPING_CHOICE"

/-- The options shown on the keyboard, in the order of the source. -/
def mainKeyboardOptions : List String :=
  ["Age", "Favourite colour", "Number of siblings", "Something else...", "Done"]

/-- One session: `Data` is `none` for a nil map. -/
structure userState where
  Stage : String
  Data : Option (List (String × String))
  PendingKey : String
deriving DecidableEq

/-- What a handler hands back to the transport layer. -/
structure response where
  Text : String
  WithKeyboard : Bool
  RemoveKeyboard : Bool
deriving DecidableEq

/-- The session mapping `map[int64]*userState`. -/
abbrev States := List (Int × Option userState)

/-- What reading and decoding the store file gives: no file, a read error, a
text `json.Unmarshal` rejects, or the decoded `map[string]*userState`. -/
inductive FileContent where
  | missing
  | unreadable
  | malformed
  | parsed (encoded : List (String × Option userState))
deriving DecidableEq

/-- The file behind the store's path, and the snapshots `Save` was called
with (most recent first). -/
structure fileStore where
  file : FileContent
  handed : List States
deriving DecidableEq

/-- The manager: the in-memory mapping and its store. -/
structure conversationManager where
  states : States
  store : fileStore
deriving DecidableEq

/-- The two ways `Load` fails. -/
inductive LoadError where
  | read
  | corrupt
deriving DecidableEq

/-! ## The file store -/

/-- The loop of `Load`: keys that `ParseInt` rejects are skipped. -/
def loadLoop : List (String × Option userState) → States → States
  | [], states => states
  | (k, v) :: rest, states =>
    match ParseInt k with
    | none => loadLoop rest states
    | some id => loadLoop rest (mapSet states id v)

/-- The method `fileStore.Load`. -/
def Load (f : fileStore) : Except LoadError States :=
  match f.file with
  | .missing => .ok []
  | .unreadable => .error .read
  | .malformed => .error .corrupt
  | .parsed encoded => .ok (loadLoop encoded [])

/-- The loop of `Save` that re-keys the mapping by decimal strings. -/
def encodeLoop : States → List (String × Option userState) →
    List (String × Option userState)
  | [], encoded => encoded
  | (k, v) :: rest, encoded => encodeLoop rest (mapSet encoded (FormatInt k) v)

/-- The method `fileStore.Save`; `io` tells whether creating the directory,
writing the temporary file and renaming it all succeed.  The Boolean result is
`err == nil`.  A failed call leaves the target file as it was.  The file is
recorded by its decoding: the document written is `savedDocument`, and
`readDocument_written` proves that `json.Unmarshal` decodes it to the re-keyed
mapping when the sessions are valid text with distinct labels. -/
def Save (f : fileStore) (states : States) (io : Bool) : fileStore × Bool :=
  if io then
    ({ file := .parsed (encodeLoop states []), handed := states :: f.handed }, true)
  else
    ({ file := f.file, handed := states :: f.handed }, false)

/-- The constructor `newConversationManager`. -/
def newConversationManager (store : fileStore) : Except LoadError conversationManager :=
  match Load store with
  | .error e => .error e
  | .ok states => .ok { states := states, store := store }

/-! ## The document that `Save` writes and `Load` reads

`json.MarshalIndent` and `json.Unmarshal` are followed at the level of the
JSON document: the bytes of the file are represented by the JSON value they
spell.  Go writes the members of a map sorted by key; a reader that fills a
map does not see that order, and the members are kept in the order of the
map. -/

/-- One element of a Go string as a `range` loop reads it: a code point that
is validly encoded, or a byte that begins no valid encoding. -/
inductive GoUnit where
  | rune (c : Char)
  | stray (b : Nat)
deriving DecidableEq

/-- A Go string, which may hold bytes that are not valid UTF-8. -/
abbrev GoString := List GoUnit

/-- A session as Go holds it: the fields are Go strings. -/
structure goUserState where
  Stage : GoString
  Data : Option (List (GoString × GoString))
  PendingKey : GoString
deriving DecidableEq

/-- A text as a Go string. -/
def goString (s : String) : GoString := s.data.map GoUnit.rune

/-- A session of valid text as Go holds it. -/
def goState (st : userState) : goUserState :=
  { Stage := goString st.Stage,
    Data := st.Data.map (fun entries => entries.map (fun kv => (goString kv.1, goString kv.2))),
    PendingKey := goString st.PendingKey }

/-- An encoded mapping of valid text as Go holds it. -/
def goEncoded (encoded : List (String × Option userState)) :
    List (String × Option goUserState) :=
  encoded.map (fun kv => (kv.1, kv.2.map goState))

/-- The text `encoding/json` writes for a Go string: every byte that begins
no valid encoding is written as U+FFFD. -/
def jsonText (s : GoString) : String :=
  ⟨s.map (fun u => match u with
    | GoUnit.rune c => c
    | GoUnit.stray _ => Char.ofNat 0xFFFD)⟩

/-- A JSON document. -/
inductive Json where
  | null
  | bool (b : Bool)
  | number (literal : String)
  | str (s : String)
  | arr (items : List Json)
  | obj (members : List (String × Json))

/-- The JSON of a `map[string]string`: `null` for a nil map. -/
def marshalData (d : Option (List (GoString × GoString))) : Json :=
  match d with
  | none => Json.null
  | some entries => Json.obj (entries.map (fun kv => (jsonText kv.1, Json.str (jsonText kv.2))))

/-- The JSON of a `userState`, by its field tags. -/
def marshalState (st : goUserState) : Json :=
  Json.obj [("stage", Json.str (jsonText st.Stage)), ("data", marshalData st.Data),
    ("pending_key", Json.str (jsonText st.PendingKey))]

/-- Go's `json.MarshalIndent(encoded, "", "  ")` on the re-keyed mapping: a
nil pointer is written as `null`. -/
def MarshalIndent (encoded : List (String × Option goUserState)) : Json :=
  Json.obj (encoded.map (fun kv =>
    (kv.1, match kv.2 with
      | none => Json.null
      | some st => marshalState st)))

/-- Case folding of one character, as far as it can reach a letter of the
three field names: the ASCII capitals, U+017F for `s` and U+212A for `k`. -/
def foldChar (c : Char) : Char :=
  if 65 ≤ c.toNat ∧ c.toNat ≤ 90 then Char.ofNat (c.toNat + 32)
  else if c.toNat = 0x17F then Char.ofNat 115
  else if c.toNat = 0x212A then Char.ofNat 107
  else c

/-- The folded form of an object key: a key names a field when it equals
the field's tag up to case. -/
def foldName (s : String) : String := ⟨s.data.map foldChar⟩

/-- Decoding into a `string` that holds `old`: `null` has no effect; `none`
is an `UnmarshalTypeError`. -/
def decodeString (old : String) : Json → Option String
  | Json.null => some old
  | Json.str s => some s
  | _ => none

/-- Decoding the members of an object into a `map[string]string`. -/
def decodeEntries : List (String × Json) → List (String × String) →
    Option (List (String × String))
  | [], acc => some acc
  | (k, v) :: rest, acc =>
    match decodeString "" v with
    | none => none
    | some s => decodeEntries rest (mapSet acc k s)

/-- Decoding into the field `Data` that holds `old`: `null` makes it nil, an
object is added to the map already there. -/
def decodeData (old : Option (List (String × String))) : Json →
    Option (Option (List (String × String)))
  | Json.null => some none
  | Json.obj members =>
    match decodeEntries members (old.getD []) with
    | none => none
    | some entries => some (some entries)
  | _ => none

/-- Decoding the members of an object into a `userState`: a member whose key
names no field is skipped. -/
def decodeFields : List (String × Json) → userState → Option userState
  | [], st => some st
  | (k, v) :: rest, st =>
    if foldName k = "stage" then
      match decodeString st.Stage v with
      | none => none
      | some s => decodeFields rest { st with Stage := s }
    else if foldName k = "data" then
      match decodeData st.Data v with
      | none => none
      | some d => decodeFields rest { st with Data := d }
    else if foldName k = "pending_key" then
      match decodeString st.PendingKey v with
      | none => none
      | some s => decodeFields rest { st with PendingKey := s }
    else decodeFields rest st

/-- Decoding into a `*userState`: `null` gives the nil pointer, an object a
new state filled from its members. -/
def decodeState : Json → Option (Option userState)
  | Json.null => some none
  | Json.obj members =>
    match decodeFields members { Stage := "", Data := none, PendingKey := "" } with
    | none => none
    | some st => some (some st)
  | _ => none

/-- Decoding the members of the top-level object into the map. -/
def decodeMembers : List (String × Json) → List (String × Option userState) →
    Option (List (String × Option userState))
  | [], acc => some acc
  | (k, v) :: rest, acc =>
    match decodeState v with
    | none => none
    | some st => decodeMembers rest (mapSet acc k st)

/-- Go's `json.Unmarshal(data, &encoded)` on a document, `encoded` being a nil
`map[string]*userState`; `none` is an error.  The document `null` leaves the
map nil, which `Load` ranges over as an empty map. -/
def Unmarshal : Json → Option (List (String × Option userState))
  | Json.null => some []
  | Json.obj members => decodeMembers members []
  | _ => none

/-- What `Load` makes of the bytes of an existing, readable file: `none` is
a text that is not JSON. -/
def readDocument : Option Json → FileContent
  | none => FileContent.malformed
  | some doc =>
    match Unmarshal doc with
    | none => FileContent.malformed
    | some encoded => FileContent.parsed encoded

/-- The re-keying loop of `Save` on sessions as Go holds them. -/
def encodeLoopGo : List (Int × Option goUserState) → List (String × Option goUserState) →
    List (String × Option goUserState)
  | [], encoded => encoded
  | (k, v) :: rest, encoded => encodeLoopGo rest (mapSet encoded (FormatInt k) v)

/-! ## Summaries -/

/-- The entries of a possibly nil map. -/
def dataEntries (d : Option (List (String × String))) : List (String × String) :=
  d.getD []

/-- Reading `userData[k]`: the zero value when the key is absent. -/
def dataGet (d : Option (List (String × String))) (k : String) : String :=
  (mapGet? (dataEntries d) k).getD ""

/-- The function `sortedKeys`. -/
def sortedKeys (d : Option (List (String × String))) : List String :=
  sortStrings (mapKeys (dataEntries d))

/-- The function `factsToStr`. -/
def factsToStr (userData : Option (List (String × String))) : String :=
  if (dataEntries userData).length = 0 then "\n(nothing yet)\n"
  else
    let keys := sortedKeys userData
    let facts := keys.map (fun k => k ++ " - " ++ dataGet userData k)
    "\n" ++ Join facts "\n" ++ "\n"

/-- The loop of `allUsersDataSummary`; a nil state cannot be dereferenced. -/
def summaryParts (states : States) : List Int → Option (List String)
  | [] => some []
  | id :: rest =>
    match mapGet? states id with
    | some (some state) =>
      match summaryParts states rest with
      | some parts => some (("User " ++ FormatInt id ++ ":" ++ factsToStr state.Data) :: parts)
      | none => none
    | _ => none

/-- The method `allUsersDataSummary`. -/
def allUsersDataSummary (m : conversationManager) : Option String :=
  if m.states.length = 0 then some "All saved data:\n(nothing yet)\n"
  else
    let ids := sortIds (mapKeys m.states)
    match summaryParts m.states ids with
    | some parts => some ("All saved data:\n" ++ Join parts "\n")
    | none => none

/-! ## The conversation manager -/

/-- The method `ensureState`: the pointer stored for the chat, created on
first contact. -/
def ensureState (m : conversationManager) (chatID : Int) :
    Option userState × conversationManager :=
  match mapGet? m.states chatID with
  | some state => (state, m)
  | none =>
    let state : userState := { Stage := stageChoosing, Data := some [], PendingKey := "" }
    (some state, { m with states := mapSet m.states chatID (some state) })

/-- The method `saveStateLocked`; a failed `Save` is only logged. -/
def saveStateLocked (m : conversationManager) (chatID : Int) (state : userState)
    (io : Bool) : conversationManager :=
  let states := mapSet m.states chatID (some state)
  { states := states, store := (Save m.store states io).1 }

/-- The method `finishConversation`. -/
def finishConversation (m : conversationManager) (chatID : Int) (io : Bool) :
    Option (response × conversationManager) :=
  match ensureState m chatID with
  | (none, _) => none
  | (some state, m1) =>
    let summary := "I learned these facts about you:" ++ factsToStr state.Data ++ "Until next time!"
    let state1 := { state with Stage := stageChoosing, PendingKey := "" }
    some ({ Text := summary, WithKeyboard := false, RemoveKeyboard := true },
      saveStateLocked m1 chatID state1 io)

/-- The method `startConversation`. -/
def startConversation (m : conversationManager) (chatID : Int) (io : Bool) :
    Option (response × conversationManager) :=
  match ensureState m chatID with
  | (none, _) => none
  | (some state, m1) =>
    let state1 := { state with Stage := stageChoosing }
    let m2 := saveStateLocked m1 chatID state1 io
    let greeting := "Hi! My name is Doctor Botter."
    let greeting :=
      if (dataEntries state1.Data).length > 0 then
        greeting ++ (" You already told me your " ++ Join (sortedKeys state1.Data) ", "
          ++ ". Tell me more or update something.")
      else
        greeting ++ " I will hold a more complex conversation with you. Tell me something about yourself."
    some ({ Text := greeting, WithKeyboard := true, RemoveKeyboard := false }, m2)

/-- The method `handleTypingReply`. -/
def handleTypingReply (m : conversationManager) (chatID : Int) (text : String) (io : Bool) :
    Option (response × conversationManager) :=
  match ensureState m chatID with
  | (none, _) => none
  | (some state, m1) =>
    let key := state.PendingKey
    if key = "" then
      let state1 := { state with Stage := stageChoosing }
      some ({ Text := "I lost track of what we were talking about. Pick an option again.",
              WithKeyboard := true, RemoveKeyboard := false },
        saveStateLocked m1 chatID state1 io)
    else
      let data := match state.Data with
        | none => []
        | some entries => entries
      let state1 : userState :=
        { Stage := stageChoosing, Data := some (mapSet data key (TrimSpace text)),
          PendingKey := "" }
      some ({ Text := "Saved " ++ key ++ ". What would you like to do next?",
              WithKeyboard := true, RemoveKeyboard := false },
        saveStateLocked m1 chatID state1 io)

/-- The method `handleTypingKey`. -/
def handleTypingKey (m : conversationManager) (chatID : Int) (text : String) (io : Bool) :
    Option (response × conversationManager) :=
  let (state, m1) := ensureState m chatID
  let key := TrimSpace text
  if key = "" then
    some ({ Text := "Category cannot be empty. Please send a label for your data.",
            WithKeyboard := false, RemoveKeyboard := false }, m1)
  else
    match state with
    | none => none
    | some state =>
      let state1 := { state with Stage := stageTypingReply, PendingKey := key }
      some ({ Text := "Great, now tell me about " ++ key ++ ".",
              WithKeyboard := false, RemoveKeyboard := false },
        saveStateLocked m1 chatID state1 io)

/-- The method `handleChoosing`. -/
def handleChoosing (m : conversationManager) (chatID : Int) (text : String) (io : Bool) :
    Option (response × conversationManager) :=
  let (state, m1) := ensureState m chatID
  let clean := TrimSpace text
  if clean = "Something else..." then
    match state with
    | none => none
    | some state =>
      let state1 := { state with Stage := stageTypingKey }
      some ({ Text := "Tell me the category name.", WithKeyboard := false,
              RemoveKeyboard := false },
        saveStateLocked m1 chatID state1 io)
  else if clean = "Done" then finishConversation m1 chatID io
  else
    match mainKeyboardOptions.find? (fun option =>
        decide (clean = option ∧ option ≠ "Something else..." ∧ option ≠ "Done")) with
    | some option =>
      match state with
      | none => none
      | some state =>
        let state1 := { state with Stage := stageTypingReply, PendingKey := option }
        some ({ Text := "Your " ++ option ++ "? Please type it.", WithKeyboard := false,
                RemoveKeyboard := false },
          saveStateLocked m1 chatID state1 io)
    | none =>
      some ({ Text := "Please choose one of the options on the keyboard.",
              WithKeyboard := true, RemoveKeyboard := false }, m1)

/-- The method `handleMessage`. -/
def handleMessage (m : conversationManager) (chatID : Int) (text : String) (io : Bool) :
    Option (response × conversationManager) :=
  match ensureState m chatID with
  | (none, _) => none
  | (some state, m1) =>
    if state.Stage = stageTypingKey then handleTypingKey m1 chatID text io
    else if state.Stage = stageTypingReply then handleTypingReply m1 chatID text io
    else handleChoosing m1 chatID text io

/-- The method `handleCommand`. -/
def handleCommand (m : conversationManager) (chatID : Int) (command : String) (io : Bool) :
    Option (response × conversationManager) :=
  if command = "start" then startConversation m chatID io
  else if command = "cancel" ∨ command = "stop" then finishConversation m chatID io
  else if command = "show_data" then
    match ensureState m chatID with
    | (none, _) => none
    | (some state, m1) =>
      some ({ Text := "Stored facts:" ++ factsToStr state.Data, WithKeyboard := true,
              RemoveKeyboard := false }, m1)
  else if command = "show_all_data" then
    match allUsersDataSummary m with
    | none => none
    | some text => some ({ Text := text, WithKeyboard := false, RemoveKeyboard := false }, m)
  else
    some ({ Text := "Unknown command. Try /start to begin.", WithKeyboard := false,
            RemoveKeyboard := false }, m)

/-! ## Runs from the empty store -/

/-- One inbound event, with the outcome of the file write it may perform. -/
inductive Event where
  | command (chatID : Int) (command : String) (io : Bool)
  | message (chatID : Int) (text : String) (io : Bool)
deriving DecidableEq

/-- Dispatch of one event, as in the update loop of `main`. -/
def step (m : conversationManager) : Event → Option (response × conversationManager)
  | .command chatID command io => handleCommand m chatID command io
  | .message chatID text io => handleMessage m chatID text io

/-- The manager after a sequence of events, oldest first. -/
def run (m : conversationManager) : List Event → Option conversationManager
  | [] => some m
  | e :: rest =>
    match step m e with
    | none => none
    | some (_, m1) => run m1 rest

/-- The manager built on a store whose file does not exist yet. -/
def emptyManager : conversationManager :=
  { states := [], store := { file := .missing, handed := [] } }

/-- The session of a chat, when the mapping holds a non-nil state for it. -/
def session (m : conversationManager) (chatID : Int) : Option userState :=
  match mapGet? m.states chatID with
  | some (some state) => some state
  | _ => none

/-! ## Notions used in the statements -/

/-- A list that stands for a Go `map[int64]*userState`: distinct keys, all
in the range of `int64`. -/
def wellFormedStates (states : States) : Prop :=
  (mapKeys states).Nodup ∧ ∀ id ∈ mapKeys states, isInt64 id

instance (states : States) : Decidable (wellFormedStates states) :=
  inferInstanceAs (Decidable (_ ∧ _))

/-- The entries of a decoded file whose keys `ParseInt` accepts, re-keyed. -/
def decodedEntries (encoded : List (String × Option userState)) : States :=
  encoded.filterMap (fun kv => (ParseInt kv.1).map (fun id => (id, kv.2)))

/-- Two decodings of one file: `json.Unmarshal` fills a Go map, whose
iteration order is not fixed, so decoded objects agree up to the order of
their entries. -/
def sameFile : FileContent → FileContent → Prop
  | .parsed a, .parsed b => a.Perm b
  | .missing, .missing => True
  | .unreadable, .unreadable => True
  | .malformed, .malformed => True
  | _, _ => False

/-- The state a handler works on: the stored one, or the fresh state that
`ensureState` creates on first contact. -/
def current (m : conversationManager) (chatID : Int) : userState :=
  (session m chatID).getD { Stage := stageChoosing, Data := some [], PendingKey := "" }

/-- The three fixed category labels of `mainKeyboardOptions`. -/
def fixedLabels : List String := ["Age", "Favourite colour", "Number of siblings"]

/-- The text of one fact, as `factsToStr` prints it. -/
def factLine (d : Option (List (String × String))) (k : String) : String :=
  k ++ " - " ++ dataGet d k

/-- What the spec asks of a facts listing: the placeholder when there is no
fact, else one line per label, the labels in ascending order, each line
between newlines. -/
def listsFacts (d : Option (List (String × String))) (text : String) : Prop :=
  (dataEntries d = [] → text = "\n(nothing yet)\n") ∧
  (dataEntries d ≠ [] → ∃ ks : List String, ks.Sorted strLE ∧ ks.Perm (mapKeys (dataEntries d)) ∧
    text = "\n" ++ Join (ks.map (factLine d)) "\n" ++ "\n")

/-- The greeting `startConversation` builds for given data. -/
def greetingText (d : Option (List (String × String))) : String :=
  if (dataEntries d).length > 0 then
    "Hi! My name is Doctor Botter." ++ (" You already told me your "
      ++ Join (sortedKeys d) ", " ++ ". Tell me more or update something.")
  else
    "Hi! My name is Doctor Botter." ++
      " I will hold a more complex conversation with you. Tell me something about yourself."

/-- One block of the all-sessions summary: the heading of the session and
its facts listing. -/
def isUserBlock (states : States) (id : Int) (part : String) : Prop :=
  ∃ st : userState, mapGet? states id = some (some st) ∧
    part = "User " ++ FormatInt id ++ ":" ++ factsToStr st.Data ∧
    listsFacts st.Data (factsToStr st.Data)

/-- No session id is bound to a nil pointer. -/
def noNil (states : States) : Prop := ∀ p ∈ states, p.2 ≠ none

instance (states : States) : Decidable (noNil states) :=
  inferInstanceAs (Decidable (∀ p ∈ states, p.2 ≠ none))

/-- The transition table of the spec for a text message, on one session:
the state after the message, given the state before it. -/
def messageState (c : userState) (text : String) : userState :=
  if c.Stage = stageTypingKey then
    if TrimSpace text = "" then c else ⟨stageTypingReply, c.Data, TrimSpace text⟩
  else if c.Stage = stageTypingReply then
    if c.PendingKey = "" then ⟨stageChoosing, c.Data, c.PendingKey⟩
    else ⟨stageChoosing, some (mapSet (dataEntries c.Data) c.PendingKey (TrimSpace text)), ""⟩
  else if TrimSpace text = "Something else..." then ⟨stageTypingKey, c.Data, c.PendingKey⟩
  else if TrimSpace text = "Done" then ⟨stageChoosing, c.Data, ""⟩
  else if TrimSpace text ∈ fixedLabels then ⟨stageTypingReply, c.Data, TrimSpace text⟩
  else c

/-- The transition table of the spec for a command, on one session. -/
def commandState (c : userState) (command : String) : userState :=
  if command = "start" then ⟨stageChoosing, c.Data, c.PendingKey⟩
  else if command = "cancel" ∨ command = "stop" then ⟨stageChoosing, c.Data, ""⟩
  else c

/-- In the run `evs` from the empty store, chat `chatID` sent a text whose
`TrimSpace` is `k` while its session was in stage TYPING_CHOICE. -/
def sentInChoice (evs : List Event) (chatID : Int) (k : String) : Prop :=
  ∃ pre text io post mp stp,
    evs = pre ++ Event.message chatID text io :: post ∧
    run emptyManager pre = some mp ∧ session mp chatID = some stp ∧
    stp.Stage = stageTypingKey ∧ TrimSpace text = k

/-- In the run `evs` from the empty store, chat `chatID` sent the very text
`k` while its session was in stage TYPING_CHOICE. -/
def sentVerbatimInChoice (evs : List Event) (chatID : Int) (k : String) : Prop :=
  ∃ pre io post mp stp,
    evs = pre ++ Event.message chatID k io :: post ∧
    run emptyManager pre = some mp ∧ session mp chatID = some stp ∧
    stp.Stage = stageTypingKey

/-- A key that the run `evs` accounts for in chat `chatID`: a fixed label,
or the trimmed form of a text sent while in stage TYPING_CHOICE. -/
def keyOK (evs : List Event) (chatID : Int) (k : String) : Prop :=
  k ∈ fixedLabels ∨ sentInChoice evs chatID k

/-- The pending key and the stored facts of a session are accounted for. -/
def sessionOK (evs : List Event) (chatID : Int) (st : userState) : Prop :=
  (st.PendingKey = "" ∨ (st.PendingKey ≠ "" ∧ keyOK evs chatID st.PendingKey)) ∧
  ∀ k v, (k, v) ∈ dataEntries st.Data → k ≠ "" ∧ keyOK evs chatID k ∧ TrimSpace v = v

/-- The invariant of the runs from the empty store. -/
def runInvariant (evs : List Event) (m : conversationManager) : Prop :=
  noNil m.states ∧ ∀ chatID st, session m chatID = some st → sessionOK evs chatID st

/-- The state `ensureState` creates on first contact. -/
def freshState : userState := { Stage := stageChoosing, Data := some [], PendingKey := "" }

/-- The manager as `ensureState` leaves it. -/
def ensured (m : conversationManager) (chatID : Int) : conversationManager :=
  (ensureState m chatID).2

/-- The response column of the spec table for a text message, given the
state of the session before the message. -/
def messageResponse (c : userState) (text : String) : response :=
  if c.Stage = stageTypingKey then
    if TrimSpace text = "" then
      ⟨"Category cannot be empty. Please send a label for your data.", false, false⟩
    else ⟨"Great, now tell me about " ++ TrimSpace text ++ ".", false, false⟩
  else if c.Stage = stageTypingReply then
    if c.PendingKey = "" then
      ⟨"I lost track of what we were talking about. Pick an option again.", true, false⟩
    else ⟨"Saved " ++ c.PendingKey ++ ". What would you like to do next?", true, false⟩
  else if TrimSpace text = "Something else..." then
    ⟨"Tell me the category name.", false, false⟩
  else if TrimSpace text = "Done" then
    ⟨"I learned these facts about you:" ++ factsToStr c.Data ++ "Until next time!", false, true⟩
  else if TrimSpace text ∈ fixedLabels then
    ⟨"Your " ++ TrimSpace text ++ "? Please type it.", false, false⟩
  else ⟨"Please choose one of the options on the keyboard.", true, false⟩

/-- Whether a text message reaches `saveStateLocked`, given the state of the
session before the message. -/
def messageSaves (c : userState) (text : String) : Bool :=
  if c.Stage = stageTypingKey then decide (TrimSpace text ≠ "")
  else if c.Stage = stageTypingReply then true
  else decide (TrimSpace text = "Something else..." ∨ TrimSpace text = "Done" ∨
    TrimSpace text ∈ fixedLabels)

/-- The call handed a snapshot to `Save`: the snapshot is the whole resulting
mapping, and the file holds it when the write succeeds and is untouched
otherwise. -/
def persisted (m m' : conversationManager) (io : Bool) : Prop :=
  m'.store.handed = m'.states :: m.store.handed ∧
  m'.store.file = (if io then FileContent.parsed (encodeLoop m'.states []) else m.store.file)

/-- The call did not reach `Save`, and the mapping is as before or has
gained the fresh session of a chat that had none. -/
def onlyCreated (m m' : conversationManager) (chatID : Int) : Prop :=
  m'.store = m.store ∧
  (m'.states = m.states ∨
    (mapGet? m.states chatID = none ∧ m'.states = mapSet m.states chatID (some freshState)))

/-! ## The mutex and the accesses to the shared state

Each method is written once more with, next to its result, the steps it takes
in program order on the mutex `m.mu`, on the map `m.states`, on the fields of
a `*userState` (its `Data` map included) and on the store.  A deferred `Unlock`
is listed where the method returns.  A method that finds a nil state stops at
its first dereference. -/

/-- One step on the mutex or on the shared state. -/
inductive Access where
  | lock
  | unlock
  | mapRead
  | mapWrite
  | stateRead
  | stateWrite
  | save
deriving DecidableEq

/-- The method `ensureState` with its steps: `Lock`, the lookup
`m.states[chatID]`, the store `m.states[chatID] = state` when the lookup finds
nothing, and the deferred `Unlock`. -/
def ensureStateT (m : conversationManager) (chatID : Int) :
    (Option userState × conversationManager) × List Access :=
  match mapGet? m.states chatID with
  | some state => ((state, m), [Access.lock, Access.mapRead, Access.unlock])
  | none =>
    let state : userState := { Stage := stageChoosing, Data := some [], PendingKey := "" }
    ((some state, { m with states := mapSet m.states chatID (some state) }),
      [Access.lock, Access.mapRead, Access.mapWrite, Access.unlock])

/-- The method `saveStateLocked` with its steps: `Lock`, the store
`m.states[chatID] = state`, `Save`, and the deferred `Unlock`. -/
def saveStateLockedT (m : conversationManager) (chatID : Int) (state : userState)
    (io : Bool) : conversationManager × List Access :=
  let states := mapSet m.states chatID (some state)
  ({ states := states, store := (Save m.store states io).1 },
    [Access.lock, Access.mapWrite, Access.save, Access.unlock])

/-- The method `finishConversation` with its steps: `state.Data` is read for
the summary, `Stage` and `PendingKey` are assigned, then `saveStateLocked`. -/
def finishConversationT (m : conversationManager) (chatID : Int) (io : Bool) :
    Option (response × conversationManager) × List Access :=
  match ensureStateT m chatID with
  | ((none, _), t) => (none, t)
  | ((some state, m1), t) =>
    let summary := "I learned these facts about you:" ++ factsToStr state.Data ++ "Until next time!"
    let state1 := { state with Stage := stageChoosing, PendingKey := "" }
    let saved := saveStateLockedT m1 chatID state1 io
    (some ({ Text := summary, WithKeyboard := false, RemoveKeyboard := true }, saved.1),
      t ++ [Access.stateRead, Access.stateWrite, Access.stateWrite] ++ saved.2)

/-- The method `startConversation` with its steps: `Stage` is assigned,
`saveStateLocked`, then `state.Data` is read for `len` and, when it is not
empty, for `sortedKeys`. -/
def startConversationT (m : conversationManager) (chatID : Int) (io : Bool) :
    Option (response × conversationManager) × List Access :=
  match ensureStateT m chatID with
  | ((none, _), t) => (none, t)
  | ((some state, m1), t) =>
    let state1 := { state with Stage := stageChoosing }
    let saved := saveStateLockedT m1 chatID state1 io
    let greeting := "Hi! My name is Doctor Botter."
    if (dataEntries state1.Data).length > 0 then
      (some ({ Text := greeting ++ (" You already told me your "
                  ++ Join (sortedKeys state1.Data) ", "
                  ++ ". Tell me more or update something."),
               WithKeyboard := true, RemoveKeyboard := false }, saved.1),
        t ++ [Access.stateWrite] ++ saved.2 ++ [Access.stateRead, Access.stateRead])
    else
      (some ({ Text := greeting ++
                  " I will hold a more complex conversation with you. Tell me something about yourself.",
               WithKeyboard := true, RemoveKeyboard := false }, saved.1),
        t ++ [Access.stateWrite] ++ saved.2 ++ [Access.stateRead])

/-- The method `handleTypingReply` with its steps: `PendingKey` is read; when
it is empty `Stage` is assigned; otherwise `Data` is compared with nil (and
made when nil), `Data[key]`, `PendingKey` and `Stage` are assigned; then
`saveStateLocked`. -/
def handleTypingReplyT (m : conversationManager) (chatID : Int) (text : String) (io : Bool) :
    Option (response × conversationManager) × List Access :=
  match ensureStateT m chatID with
  | ((none, _), t) => (none, t)
  | ((some state, m1), t) =>
    let key := state.PendingKey
    if key = "" then
      let state1 := { state with Stage := stageChoosing }
      let saved := saveStateLockedT m1 chatID state1 io
      (some ({ Text := "I lost track of what we were talking about. Pick an option again.",
               WithKeyboard := true, RemoveKeyboard := false }, saved.1),
        t ++ [Access.stateRead, Access.stateWrite] ++ saved.2)
    else
      match state.Data with
      | none =>
        let state1 : userState :=
          { Stage := stageChoosing, Data := some (mapSet [] key (TrimSpace text)),
            PendingKey := "" }
        let saved := saveStateLockedT m1 chatID state1 io
        (some ({ Text := "Saved " ++ key ++ ". What would you like to do next?",
                 WithKeyboard := true, RemoveKeyboard := false }, saved.1),
          t ++ [Access.stateRead, Access.stateRead, Access.stateWrite,
                Access.stateWrite, Access.stateWrite, Access.stateWrite] ++ saved.2)
      | some entries =>
        let state1 : userState :=
          { Stage := stageChoosing, Data := some (mapSet entries key (TrimSpace text)),
            PendingKey := "" }
        let saved := saveStateLockedT m1 chatID state1 io
        (some ({ Text := "Saved " ++ key ++ ". What would you like to do next?",
                 WithKeyboard := true, RemoveKeyboard := false }, saved.1),
          t ++ [Access.stateRead, Access.stateRead,
                Access.stateWrite, Access.stateWrite, Access.stateWrite] ++ saved.2)

/-- The method `handleTypingKey` with its steps: `Stage` and `PendingKey` are
assigned, then `saveStateLocked`. -/
def handleTypingKeyT (m : conversationManager) (chatID : Int) (text : String) (io : Bool) :
    Option (response × conversationManager) × List Access :=
  match ensureStateT m chatID with
  | ((state, m1), t) =>
    let key := TrimSpace text
    if key = "" then
      (some ({ Text := "Category cannot be empty. Please send a label for your data.",
               WithKeyboard := false, RemoveKeyboard := false }, m1), t)
    else
      match state with
      | none => (none, t)
      | some state =>
        let state1 := { state with Stage := stageTypingReply, PendingKey := key }
        let saved := saveStateLockedT m1 chatID state1 io
        (some ({ Text := "Great, now tell me about " ++ key ++ ".",
                 WithKeyboard := false, RemoveKeyboard := false }, saved.1),
          t ++ [Access.stateWrite, Access.stateWrite] ++ saved.2)

/-- The method `handleChoosing` with its steps. -/
def handleChoosingT (m : conversationManager) (chatID : Int) (text : String) (io : Bool) :
    Option (response × conversationManager) × List Access :=
  match ensureStateT m chatID with
  | ((state, m1), t) =>
    let clean := TrimSpace text
    if clean = "Something else..." then
      match state with
      | none => (none, t)
      | some state =>
        let state1 := { state with Stage := stageTypingKey }
        let saved := saveStateLockedT m1 chatID state1 io
        (some ({ Text := "Tell me the category name.", WithKeyboard := false,
                 RemoveKeyboard := false }, saved.1),
          t ++ [Access.stateWrite] ++ saved.2)
    else if clean = "Done" then
      let finished := finishConversationT m1 chatID io
      (finished.1, t ++ finished.2)
    else
      match mainKeyboardOptions.find? (fun option =>
          decide (clean = option ∧ option ≠ "Something else..." ∧ option ≠ "Done")) with
      | some option =>
        match state with
        | none => (none, t)
        | some state =>
          let state1 := { state with Stage := stageTypingReply, PendingKey := option }
          let saved := saveStateLockedT m1 chatID state1 io
          (some ({ Text := "Your " ++ option ++ "? Please type it.", WithKeyboard := false,
                   RemoveKeyboard := false }, saved.1),
            t ++ [Access.stateWrite, Access.stateWrite] ++ saved.2)
      | none =>
        (some ({ Text := "Please choose one of the options on the keyboard.",
                 WithKeyboard := true, RemoveKeyboard := false }, m1), t)

/-- The method `handleMessage` with its steps: `ensureState`, the read of
`state.Stage`, then the handler of the stage. -/
def handleMessageT (m : conversationManager) (chatID : Int) (text : String) (io : Bool) :
    Option (response × conversationManager) × List Access :=
  match ensureStateT m chatID with
  | ((none, _), t) => (none, t)
  | ((some state, m1), t) =>
    let handled :=
      if state.Stage = stageTypingKey then handleTypingKeyT m1 chatID text io
      else if state.Stage = stageTypingReply then handleTypingReplyT m1 chatID text io
      else handleChoosingT m1 chatID text io
    (handled.1, t ++ [Access.stateRead] ++ handled.2)

/-- The loop of `allUsersDataSummary` with its steps: each id is looked up in
`m.states` and the `Data` of its state is read. -/
def summaryPartsT (states : States) : List Int → Option (List String) × List Access
  | [] => (some [], [])
  | id :: rest =>
    match mapGet? states id with
    | some (some state) =>
      let others := summaryPartsT states rest
      (match others.1 with
        | some parts =>
          some (("User " ++ FormatInt id ++ ":" ++ factsToStr state.Data) :: parts)
        | none => none,
       [Access.mapRead, Access.stateRead] ++ others.2)
    | _ => (none, [Access.mapRead])

/-- The method `allUsersDataSummary` with its steps, all between its `Lock`
and its deferred `Unlock`: `len(m.states)`, the `range` over the map, the
loop. -/
def allUsersDataSummaryT (m : conversationManager) : Option String × List Access :=
  if m.states.length = 0 then
    (some "All saved data:\n(nothing yet)\n", [Access.lock, Access.mapRead, Access.unlock])
  else
    let ids := sortIds (mapKeys m.states)
    let parts := summaryPartsT m.states ids
    (match parts.1 with
      | some parts => some ("All saved data:\n" ++ Join parts "\n")
      | none => none,
     [Access.lock, Access.mapRead, Access.mapRead] ++ parts.2 ++ [Access.unlock])

/-- The method `handleCommand` with its steps. -/
def handleCommandT (m : conversationManager) (chatID : Int) (command : String) (io : Bool) :
    Option (response × conversationManager) × List Access :=
  if command = "start" then startConversationT m chatID io
  else if command = "cancel" ∨ command = "stop" then finishConversationT m chatID io
  else if command = "show_data" then
    match ensureStateT m chatID with
    | ((none, _), t) => (none, t)
    | ((some state, m1), t) =>
      (some ({ Text := "Stored facts:" ++ factsToStr state.Data, WithKeyboard := true,
               RemoveKeyboard := false }, m1), t ++ [Access.stateRead])
  else if command = "show_all_data" then
    let summary := allUsersDataSummaryT m
    (match summary.1 with
      | none => none
      | some text => some ({ Text := text, WithKeyboard := false, RemoveKeyboard := false }, m),
     summary.2)
  else
    (some ({ Text := "Unknown command. Try /start to begin.", WithKeyboard := false,
             RemoveKeyboard := false }, m), [])

/-- Follows a list of steps from a mutex that is held or not: `none` when the
mutex is locked while held, unlocked while free, or when the map or the store
is touched while it is free; with `strict`, also when a field of a session is
touched while it is free.  Otherwise tells whether the mutex is held at the
end. -/
def lockScan (strict : Bool) : Bool → List Access → Option Bool
  | held, [] => some held
  | held, Access.lock :: rest => if held then none else lockScan strict true rest
  | held, Access.unlock :: rest => if held then lockScan strict false rest else none
  | held, Access.mapRead :: rest => if held then lockScan strict held rest else none
  | held, Access.mapWrite :: rest => if held then lockScan strict held rest else none
  | held, Access.save :: rest => if held then lockScan strict held rest else none
  | held, Access.stateRead :: rest =>
    if strict && !held then none else lockScan strict held rest
  | held, Access.stateWrite :: rest =>
    if strict && !held then none else lockScan strict held rest

/-- The steps of a list that touch the map, a session or the store while the
mutex is free, the mutex being held or not at the start. -/
def unguarded : Bool → List Access → List Access
  | _, [] => []
  | _, Access.lock :: rest => unguarded true rest
  | _, Access.unlock :: rest => unguarded false rest
  | held, a :: rest => if held then unguarded held rest else a :: unguarded held rest

/-- How many times a list of steps takes the mutex. -/
def acquisitions (steps : List Access) : Nat :=
  steps.count Access.lock

/-- The manager after `start` and the message `Age` from chat 1 on the empty
store, both writes succeeding: the session waits for the value of `Age`. -/
def awaitingAge : conversationManager :=
  { states := [(1, some ⟨"TYPING_REPLY", some [], "Age"⟩)],
    store :=
      { file := .parsed [("1", some ⟨"TYPING_REPLY", some [], "Age"⟩)],
        handed := [[(1, some ⟨"TYPING_REPLY", some [], "Age"⟩)],
          [(1, some ⟨"CHOOSING", some [], ""⟩)]] } }

/-- The chat an event comes from. -/
def eventChat : Event → Int
  | .command chatID _ _ => chatID
  | .message chatID _ _ => chatID

/-- The labels of a session are distinct; a nil pointer has none. -/
def labelsDistinct : Option userState → Bool
  | none => true
  | some st => decide (mapKeys (dataEntries st.Data)).Nodup

/-- Every stored session has distinct labels, as a Go map has. -/
def distinctLabels (states : States) : Prop :=
  ∀ p ∈ states, labelsDistinct p.2 = true

instance (states : States) : Decidable (distinctLabels states) :=
  inferInstanceAs (Decidable (∀ p ∈ states, labelsDistinct p.2 = true))

/-- A mapping of valid text as Go holds it. -/
def goStates (states : States) : List (Int × Option goUserState) :=
  states.map (fun kv => (kv.1, kv.2.map goState))

/-- The document `Save` writes for a mapping as Go holds it: the mapping is
re-keyed by `FormatInt` and handed to `json.MarshalIndent`. -/
def savedDocument (states : List (Int × Option goUserState)) : Json :=
  MarshalIndent (encodeLoopGo states [])

/-! ## Lemmas on maps -/

theorem mapGet?_mapSet_self {κ ν : Type} [DecidableEq κ] (m : List (κ × ν)) (k : κ) (v : ν) :
    mapGet? (mapSet m k v) k = some v := by
  induction m with
  | nil => simp [mapSet, mapGet?]
  | cons p rest ih =>
    obtain ⟨k', v'⟩ := p
    by_cases h : k' = k
    · simp [mapSet, mapGet?, h]
    · simp [mapSet, mapGet?, h, ih]

theorem mapGet?_mapSet_ne {κ ν : Type} [DecidableEq κ] (m : List (κ × ν)) (k k' : κ) (v : ν)
    (hne : k' ≠ k) : mapGet? (mapSet m k v) k' = mapGet? m k' := by
  induction m with
  | nil => simp [mapSet, mapGet?, Ne.symm hne]
  | cons p rest ih =>
    obtain ⟨k1, v1⟩ := p
    by_cases h : k1 = k
    · subst h
      simp [mapSet, mapGet?, Ne.symm hne]
    · by_cases h' : k1 = k'
      · subst h'
        simp [mapSet, mapGet?, h]
      · simp [mapSet, mapGet?, h, h', ih]

theorem mapGet?_isSome_iff {κ ν : Type} [DecidableEq κ] (m : List (κ × ν)) (k : κ) :
    (mapGet? m k).isSome = true ↔ k ∈ mapKeys m := by
  induction m with
  | nil => simp [mapGet?, mapKeys]
  | cons p rest ih =>
    obtain ⟨k1, v1⟩ := p
    by_cases h : k1 = k
    · simp [mapGet?, mapKeys, h]
    · have h' : ¬ k = k1 := fun e => h e.symm
      simp only [mapKeys] at ih
      simp [mapGet?, mapKeys, h, h', ih]

theorem mapGet?_eq_none_iff {κ ν : Type} [DecidableEq κ] (m : List (κ × ν)) (k : κ) :
    mapGet? m k = none ↔ k ∉ mapKeys m := by
  rw [← mapGet?_isSome_iff]
  cases mapGet? m k <;> simp

theorem mapKeys_mapSet_of_mem {κ ν : Type} [DecidableEq κ] (m : List (κ × ν)) (k : κ) (v : ν)
    (h : k ∈ mapKeys m) : mapKeys (mapSet m k v) = mapKeys m := by
  induction m with
  | nil => simp [mapKeys] at h
  | cons p rest ih =>
    obtain ⟨k1, v1⟩ := p
    by_cases h1 : k1 = k
    · simp [mapSet, mapKeys, h1]
    · have h' : ¬ k = k1 := fun e => h1 e.symm
      have hr : k ∈ mapKeys rest := by simpa [mapKeys, h'] using h
      have := ih hr
      simp only [mapKeys] at this
      simp [mapSet, mapKeys, h1, this]

theorem mapKeys_mapSet_of_not_mem {κ ν : Type} [DecidableEq κ] (m : List (κ × ν)) (k : κ)
    (v : ν) (h : k ∉ mapKeys m) : mapKeys (mapSet m k v) = mapKeys m ++ [k] := by
  induction m with
  | nil => simp [mapSet, mapKeys]
  | cons p rest ih =>
    obtain ⟨k1, v1⟩ := p
    have h1 : ¬ k1 = k := fun e => h (by simp [mapKeys, e])
    have hr : k ∉ mapKeys rest := fun e => h (by simp only [mapKeys] at e; simp [mapKeys, e])
    have := ih hr
    simp only [mapKeys] at this
    simp [mapSet, mapKeys, h1, this]

theorem mem_mapKeys_mapSet {κ ν : Type} [DecidableEq κ] (m : List (κ × ν)) (k k' : κ) (v : ν) :
    k' ∈ mapKeys (mapSet m k v) ↔ k' = k ∨ k' ∈ mapKeys m := by
  by_cases h : k ∈ mapKeys m
  · rw [mapKeys_mapSet_of_mem m k v h]
    constructor
    · exact fun a => Or.inr a
    · rintro (rfl | a)
      · exact h
      · exact a
  · rw [mapKeys_mapSet_of_not_mem m k v h]
    simp [or_comm]

theorem nodup_mapKeys_mapSet {κ ν : Type} [DecidableEq κ] (m : List (κ × ν)) (k : κ) (v : ν)
    (h : (mapKeys m).Nodup) : (mapKeys (mapSet m k v)).Nodup := by
  by_cases hk : k ∈ mapKeys m
  · rw [mapKeys_mapSet_of_mem m k v hk]; exact h
  · rw [mapKeys_mapSet_of_not_mem m k v hk]
    exact List.Nodup.append h (List.nodup_singleton k) (by simpa using hk)

/-! ## Lemmas on the manager's primitives -/

theorem ensureState_of_session (m : conversationManager) (chatID : Int) (st : userState)
    (h : session m chatID = some st) : ensureState m chatID = (some st, m) := by
  unfold session at h
  unfold ensureState
  cases hg : mapGet? m.states chatID with
  | none => simp [hg] at h
  | some p =>
    cases p with
    | none => simp [hg] at h
    | some s => simp [hg] at h; simp [h]

theorem session_saveStateLocked (m : conversationManager) (chatID : Int) (st : userState)
    (io : Bool) : session (saveStateLocked m chatID st io) chatID = some st := by
  simp [session, saveStateLocked, mapGet?_mapSet_self]

theorem session_saveStateLocked_ne (m : conversationManager) (chatID other : Int)
    (st : userState) (io : Bool) (hne : other ≠ chatID) :
    session (saveStateLocked m chatID st io) other = session m other := by
  simp [session, saveStateLocked, mapGet?_mapSet_ne _ _ _ _ hne]

theorem trimSpace_fixed (k : String)
    (hk : k ∈ ["Age", "Favourite colour", "Number of siblings"]) : TrimSpace k = k := by
  simp only [List.mem_cons, List.mem_singleton, List.not_mem_nil, or_false] at hk
  rcases hk with rfl | rfl | rfl <;> decide

theorem handleChoosing_fixed (m : conversationManager) (chatID : Int) (st : userState)
    (text : String) (io : Bool) (hs : session m chatID = some st)
    (hk : TrimSpace text ∈ ["Age", "Favourite colour", "Number of siblings"]) :
    handleChoosing m chatID text io =
      some ({ Text := "Your " ++ TrimSpace text ++ "? Please type it.", WithKeyboard := false,
              RemoveKeyboard := false },
        saveStateLocked m chatID
          { st with Stage := stageTypingReply, PendingKey := TrimSpace text } io) := by
  unfold handleChoosing
  rw [ensureState_of_session m chatID st hs]
  simp only [List.mem_cons, List.mem_singleton, List.not_mem_nil, or_false] at hk
  rcases hk with h | h | h <;> rw [h] <;> simp [mainKeyboardOptions]

theorem handleTypingReply_pending (m : conversationManager) (chatID : Int) (st : userState)
    (text : String) (io : Bool) (hs : session m chatID = some st) (hk : st.PendingKey ≠ "") :
    handleTypingReply m chatID text io =
      some ({ Text := "Saved " ++ st.PendingKey ++ ". What would you like to do next?",
              WithKeyboard := true, RemoveKeyboard := false },
        saveStateLocked m chatID
          { Stage := stageChoosing,
            Data := some (mapSet (dataEntries st.Data) st.PendingKey (TrimSpace text)),
            PendingKey := "" } io) := by
  unfold handleTypingReply
  rw [ensureState_of_session m chatID st hs]
  cases hd : st.Data <;> simp [hk, dataEntries, hd]

theorem handleMessage_choosing (m : conversationManager) (chatID : Int) (st : userState)
    (text : String) (io : Bool) (hs : session m chatID = some st)
    (h1 : st.Stage ≠ stageTypingKey) (h2 : st.Stage ≠ stageTypingReply) :
    handleMessage m chatID text io = handleChoosing m chatID text io := by
  unfold handleMessage
  rw [ensureState_of_session m chatID st hs]
  simp [h1, h2]

theorem handleMessage_typingReply (m : conversationManager) (chatID : Int) (st : userState)
    (text : String) (io : Bool) (hs : session m chatID = some st)
    (h : st.Stage = stageTypingReply) :
    handleMessage m chatID text io = handleTypingReply m chatID text io := by
  unfold handleMessage
  rw [ensureState_of_session m chatID st hs]
  have : stageTypingReply ≠ stageTypingKey := by decide
  simp [h, this]

theorem handleMessage_typingKey (m : conversationManager) (chatID : Int) (st : userState)
    (text : String) (io : Bool) (hs : session m chatID = some st)
    (h : st.Stage = stageTypingKey) :
    handleMessage m chatID text io = handleTypingKey m chatID text io := by
  unfold handleMessage
  rw [ensureState_of_session m chatID st hs]
  simp [h]

theorem fixed_ne_empty (k : String)
    (hk : k ∈ ["Age", "Favourite colour", "Number of siblings"]) : k ≠ "" := by
  simp only [List.mem_cons, List.mem_singleton, List.not_mem_nil, or_false] at hk
  rcases hk with rfl | rfl | rfl <;> decide

/-! ## C1: the fixed-category flow -/

/-- C1. For a session in stage CHOOSING, a fixed label `k` followed by a text
`v` stores `TrimSpace v` under `k`, returns to CHOOSING with an empty pending
key, keeps every other key of the data, and the second response asks for the
keyboard. Both calls return. -/
theorem C1_fixed_category_flow (m : conversationManager) (chatID : Int) (st : userState)
    (k v : String) (io1 io2 : Bool)
    (hs : session m chatID = some st) (hstage : st.Stage = stageChoosing)
    (hk : k ∈ ["Age", "Favourite colour", "Number of siblings"]) :
    ∃ r1 m1 r2 m2 st2,
      handleMessage m chatID k io1 = some (r1, m1) ∧
      handleMessage m1 chatID v io2 = some (r2, m2) ∧
      session m2 chatID = some st2 ∧
      mapGet? (dataEntries st2.Data) k = some (TrimSpace v) ∧
      dataGet st2.Data k = TrimSpace v ∧
      st2.Stage = stageChoosing ∧ st2.PendingKey = "" ∧
      (∀ k', k' ≠ k → mapGet? (dataEntries st2.Data) k' = mapGet? (dataEntries st.Data) k') ∧
      r2.WithKeyboard = true := by
  have hkt : TrimSpace k = k := trimSpace_fixed k hk
  have hk' : TrimSpace k ∈ ["Age", "Favourite colour", "Number of siblings"] := by
    rw [hkt]; exact hk
  have e1 : handleMessage m chatID k io1 = _ :=
    (handleMessage_choosing m chatID st k io1 hs (by rw [hstage]; decide)
      (by rw [hstage]; decide)).trans (handleChoosing_fixed m chatID st k io1 hs hk')
  rw [hkt] at e1
  have hs1 := session_saveStateLocked m chatID
    { st with Stage := stageTypingReply, PendingKey := k } io1
  have e2 := (handleMessage_typingReply _ chatID _ v io2 hs1 rfl).trans
    (handleTypingReply_pending _ chatID _ v io2 hs1 (fixed_ne_empty k hk))
  refine ⟨_, _, _, _, _, e1, e2, session_saveStateLocked _ _ _ _, ?_, ?_, rfl, rfl, ?_, rfl⟩
  · simp [dataEntries, mapGet?_mapSet_self]
  · simp [dataGet, dataEntries, mapGet?_mapSet_self]
  · intro k' hne
    simp only [dataEntries, Option.getD_some]
    exact mapGet?_mapSet_ne _ _ _ _ hne

/-- C1 at chat 42 in stage CHOOSING with one stored fact, label "Age". -/
theorem C1_fixed_category_flow_witness :
    ∃ r1 m1 r2 m2 st2,
      handleMessage
        { states := [(42, some ⟨"CHOOSING", some [("Favourite colour", "Red")], ""⟩)],
          store := ⟨.missing, []⟩ } 42 "Age" true = some (r1, m1) ∧
      handleMessage m1 42 " 21 " false = some (r2, m2) ∧
      session m2 42 = some st2 ∧
      mapGet? (dataEntries st2.Data) "Age" = some (TrimSpace " 21 ") ∧
      dataGet st2.Data "Age" = TrimSpace " 21 " ∧
      st2.Stage = stageChoosing ∧ st2.PendingKey = "" ∧
      (∀ k', k' ≠ "Age" → mapGet? (dataEntries st2.Data) k' =
        mapGet? (dataEntries (some [("Favourite colour", "Red")])) k') ∧
      r2.WithKeyboard = true :=
  C1_fixed_category_flow
    { states := [(42, some ⟨"CHOOSING", some [("Favourite colour", "Red")], ""⟩)],
      store := ⟨.missing, []⟩ } 42 ⟨"CHOOSING", some [("Favourite colour", "Red")], ""⟩
    "Age" " 21 " true false (by decide) (by decide) (by decide)


/-! ## Decimal round trip -/

theorem digitVal_digitChar (d : Nat) (h : d < 10) : digitVal (digitChar d) = some d := by
  interval_cases d <;> rfl

theorem digitChar_ne_plus (d : Nat) (h : d < 10) : digitChar d ≠ '+' := by
  interval_cases d <;> decide

theorem digitChar_ne_minus (d : Nat) (h : d < 10) : digitChar d ≠ '-' := by
  interval_cases d <;> decide

theorem parseUintLoop_append (xs ys : List Char) (n : Nat) :
    parseUintLoop (xs ++ ys) n = (parseUintLoop xs n).bind (parseUintLoop ys) := by
  induction xs generalizing n with
  | nil => simp [parseUintLoop]
  | cons c cs ih =>
    simp only [List.cons_append, parseUintLoop]
    cases digitVal c with
    | none => simp
    | some d =>
      simp only
      split_ifs <;> simp [ih]

theorem parseUintLoop_formatUintFuel (fuel n : Nat) (hf : n < fuel) (hn : n ≤ 2 ^ 64 - 1) :
    parseUintLoop (formatUintFuel fuel n) 0 = some n := by
  induction fuel generalizing n with
  | zero => omega
  | succ fuel ih =>
    unfold formatUintFuel
    split_ifs with h10
    · simp [parseUintLoop, digitVal_digitChar n h10]
      omega
    · have hlt : n / 10 < fuel := by omega
      have hle : n / 10 ≤ 2 ^ 64 - 1 := by omega
      rw [parseUintLoop_append, ih (n / 10) hlt hle]
      have hd : n % 10 < 10 := Nat.mod_lt _ (by decide)
      simp only [Option.some_bind, parseUintLoop, digitVal_digitChar _ hd]
      have e : n / 10 * 10 + n % 10 = n := by omega
      rw [e]
      have c1 : ¬ (n / 10 ≥ (2 ^ 64 - 1) / 10 + 1) := by omega
      have c2 : ¬ (n > 2 ^ 64 - 1) := by omega
      rw [if_neg c1, if_neg c2]

theorem formatUintFuel_head (fuel n : Nat) :
    ∃ d cs, d < 10 ∧ formatUintFuel (fuel + 1) n = digitChar d :: cs := by
  induction fuel generalizing n with
  | zero =>
    unfold formatUintFuel
    split_ifs with h
    · exact ⟨n, [], h, rfl⟩
    · exact ⟨n % 10, [], Nat.mod_lt _ (by decide), by simp [formatUintFuel]⟩
  | succ fuel ih =>
    unfold formatUintFuel
    split_ifs with h
    · exact ⟨n, [], h, rfl⟩
    · obtain ⟨d, cs, hd, e⟩ := ih (n / 10)
      exact ⟨d, cs ++ [digitChar (n % 10)], hd, by rw [e]; rfl⟩

theorem ParseUint_formatUint (n : Nat) (hn : n ≤ 2 ^ 64 - 1) :
    ParseUint (formatUint n) = some n := by
  have hp := parseUintLoop_formatUintFuel (n + 1) n (Nat.lt_succ_self n) hn
  obtain ⟨d, cs, _, e⟩ := formatUintFuel_head n n
  unfold formatUint at *
  rw [e] at hp ⊢
  simpa [ParseUint] using hp

theorem ParseInt_FormatInt (k : Int) (hk : isInt64 k) : ParseInt (FormatInt k) = some k := by
  obtain ⟨hlo, hhi⟩ := hk
  obtain ⟨d, cs, hd, e⟩ := formatUintFuel_head k.natAbs k.natAbs
  by_cases hneg : k < 0
  · have hn : k.natAbs ≤ 2 ^ 64 - 1 := by omega
    have hp := ParseUint_formatUint k.natAbs hn
    have hb : ¬ k.natAbs > 2 ^ 63 := by omega
    have hv : -(k.natAbs : Int) = k := by omega
    simp only [FormatInt, hneg, if_true, ParseInt, beq_self_eq_true, Bool.or_true, hp,
      Bool.not_true, Bool.false_and, Bool.true_and, decide_eq_true_eq, hb, if_false, hv]
    simp
  · have hn : k.natAbs ≤ 2 ^ 64 - 1 := by omega
    have hp := ParseUint_formatUint k.natAbs hn
    have hb : ¬ k.natAbs ≥ 2 ^ 63 := by omega
    have hv : (k.natAbs : Int) = k := by omega
    simp only [FormatInt, hneg, if_false, ParseInt]
    unfold formatUint at hp ⊢
    rw [e] at hp ⊢
    have e1 : (digitChar d == '+') = false := by simpa using digitChar_ne_plus d hd
    have e2 : (digitChar d == '-') = false := by simpa using digitChar_ne_minus d hd
    simp only [e1, e2, Bool.or_self, Bool.false_eq_true, if_false, hp, Bool.not_false,
      Bool.true_and, decide_eq_true_eq, hb, Bool.false_and, hv]

theorem FormatInt_injective (a b : Int) (ha : isInt64 a) (hb : isInt64 b)
    (h : FormatInt a = FormatInt b) : a = b := by
  have := ParseInt_FormatInt a ha
  rw [h, ParseInt_FormatInt b hb] at this
  exact (Option.some.inj this).symm


theorem wellFormedStates_mapSet (states : States) (id : Int) (v : Option userState)
    (hwf : wellFormedStates states) (hid : isInt64 id) :
    wellFormedStates (mapSet states id v) := by
  refine ⟨nodup_mapKeys_mapSet _ _ _ hwf.1, fun k hk => ?_⟩
  rcases (mem_mapKeys_mapSet _ _ _ _).1 hk with rfl | h
  · exact hid
  · exact hwf.2 k h

/-! ## C2: the pending key outside TYPING_REPLY -/

/-- C2. From the empty store, `start`, the label "Age" and `start` again leave
chat 1 in stage CHOOSING with the pending key "Age" still set: the restart
resets the stage and keeps the pending key, unlike `finishConversation`. -/
theorem C2_start_keeps_pending_key :
    (run emptyManager
        [.command 1 "start" true, .message 1 "Age" true, .command 1 "start" true]).bind
      (fun m => session m 1) =
        some { Stage := stageChoosing, Data := some [], PendingKey := "Age" } ∧
    stageChoosing ≠ stageTypingReply ∧ "Age" ≠ "" := by
  decide

/-! ## Store round trip -/

theorem loadLoop_eq_foldl (encoded : List (String × Option userState)) (acc : States) :
    loadLoop encoded acc =
      (decodedEntries encoded).foldl (fun s kv => mapSet s kv.1 kv.2) acc := by
  induction encoded generalizing acc with
  | nil => simp [loadLoop, decodedEntries]
  | cons p rest ih =>
    obtain ⟨k, v⟩ := p
    unfold loadLoop
    cases hp : ParseInt k with
    | none => simp [decodedEntries, hp, ih]
    | some id => simp [decodedEntries, hp, ih]

theorem foldl_mapSet_fresh {κ ν : Type} [DecidableEq κ] (l acc : List (κ × ν))
    (hnd : (mapKeys (acc ++ l)).Nodup) :
    l.foldl (fun s kv => mapSet s kv.1 kv.2) acc = acc ++ l := by
  induction l generalizing acc with
  | nil => simp
  | cons p rest ih =>
    obtain ⟨k, v⟩ := p
    have hk : k ∉ mapKeys acc := by
      intro hmem
      simp only [mapKeys, List.map_append, List.map_cons] at hnd hmem
      have := (List.nodup_append.1 hnd).2.2
      exact this hmem (List.mem_cons_self _ _) 
    have hset : mapSet acc k v = acc ++ [(k, v)] := by
      clear hnd ih
      induction acc with
      | nil => simp [mapSet]
      | cons q acc' ih' =>
        obtain ⟨k1, v1⟩ := q
        have h1 : ¬ k1 = k := fun e => hk (by simp [mapKeys, e])
        have h2 : k ∉ mapKeys acc' := fun e => hk (by
          simp only [mapKeys] at e; simp [mapKeys, e])
        simp [mapSet, h1, ih' h2]
    simp only [List.foldl_cons, hset]
    rw [ih (acc ++ [(k, v)]) (by simpa using hnd)]
    simp

theorem encodeLoop_eq_foldl (states : States) (acc : List (String × Option userState)) :
    encodeLoop states acc =
      (states.map (fun kv => (FormatInt kv.1, kv.2))).foldl
        (fun s kv => mapSet s kv.1 kv.2) acc := by
  induction states generalizing acc with
  | nil => simp [encodeLoop]
  | cons p rest ih =>
    obtain ⟨k, v⟩ := p
    simp [encodeLoop, ih]

theorem encodeLoop_wellFormed (states : States) (hwf : wellFormedStates states) :
    encodeLoop states [] = states.map (fun kv => (FormatInt kv.1, kv.2)) := by
  rw [encodeLoop_eq_foldl, foldl_mapSet_fresh]
  · simp
  · obtain ⟨hnd, hr⟩ := hwf
    simp only [List.nil_append, mapKeys, List.map_map]
    have : (Prod.fst ∘ fun kv : Int × Option userState => (FormatInt kv.1, kv.2)) =
        FormatInt ∘ Prod.fst := rfl
    rw [this, ← List.map_map]
    exact List.Nodup.map_on (fun a ha b hb e => FormatInt_injective a b (hr a ha) (hr b hb) e) hnd

theorem decodedEntries_encoded (states : States) (hr : ∀ id ∈ mapKeys states, isInt64 id) :
    decodedEntries (states.map (fun kv => (FormatInt kv.1, kv.2))) = states := by
  induction states with
  | nil => rfl
  | cons p rest ih =>
    obtain ⟨k, v⟩ := p
    have hk : isInt64 k := hr k (by simp [mapKeys])
    have hrest : ∀ id ∈ mapKeys rest, isInt64 id := fun id hid =>
      hr id (by simp only [mapKeys] at hid; simp [mapKeys, hid])
    have := ih hrest
    simp only [decodedEntries] at this ⊢
    simp [List.filterMap_cons, ParseInt_FormatInt k hk, this]

theorem mapGet?_eq_some_of_mem {κ ν : Type} [DecidableEq κ] (m : List (κ × ν)) (k : κ) (v : ν)
    (hnd : (mapKeys m).Nodup) (hmem : (k, v) ∈ m) : mapGet? m k = some v := by
  induction m with
  | nil => simp at hmem
  | cons p rest ih =>
    obtain ⟨k1, v1⟩ := p
    simp only [mapKeys, List.map_cons, List.nodup_cons] at hnd
    rcases List.mem_cons.1 hmem with e | hin
    · cases e; simp [mapGet?]
    · have hne : ¬ k1 = k := by
        intro e
        subst e
        exact hnd.1 (List.mem_map.2 ⟨(k1, v), hin, rfl⟩)
      simp [mapGet?, hne, ih hnd.2 hin]

theorem mem_of_mapGet?_eq_some {κ ν : Type} [DecidableEq κ] (m : List (κ × ν)) (k : κ) (v : ν)
    (h : mapGet? m k = some v) : (k, v) ∈ m := by
  induction m with
  | nil => simp [mapGet?] at h
  | cons p rest ih =>
    obtain ⟨k1, v1⟩ := p
    by_cases e : k1 = k
    · subst e
      simp [mapGet?] at h
      simp [h]
    · simp [mapGet?, e] at h
      exact List.mem_cons_of_mem _ (ih h)

theorem mapGet?_perm {κ ν : Type} [DecidableEq κ] (a b : List (κ × ν)) (hp : a.Perm b)
    (hnd : (mapKeys b).Nodup) (k : κ) : mapGet? a k = mapGet? b k := by
  have hnda : (mapKeys a).Nodup := (hp.map Prod.fst).nodup_iff.2 hnd
  cases hb : mapGet? b k with
  | some v =>
    exact mapGet?_eq_some_of_mem a k v hnda (hp.mem_iff.2 (mem_of_mapGet?_eq_some b k v hb))
  | none =>
    cases ha : mapGet? a k with
    | none => rfl
    | some v =>
      have := mapGet?_eq_some_of_mem b k v hnd (hp.mem_iff.1 (mem_of_mapGet?_eq_some a k v ha))
      rw [hb] at this
      exact absurd this (by simp)

theorem load_after_save (states : States) (hwf : wellFormedStates states)
    (enc : List (String × Option userState)) (hperm : enc.Perm (encodeLoop states [])) :
    (loadLoop enc []).Perm states ∧ ∀ id, mapGet? (loadLoop enc []) id = mapGet? states id := by
  rw [encodeLoop_wellFormed states hwf] at hperm
  have hd : (decodedEntries enc).Perm states := by
    have := hperm.filterMap (fun kv => (ParseInt kv.1).map (fun id => (id, kv.2)))
    have e := decodedEntries_encoded states hwf.2
    simp only [decodedEntries] at e ⊢
    rwa [e] at this
  have hnd : (mapKeys (decodedEntries enc)).Nodup := (hd.map Prod.fst).nodup_iff.2 hwf.1
  have hl : loadLoop enc [] = decodedEntries enc := by
    rw [loadLoop_eq_foldl, foldl_mapSet_fresh _ _ (by simpa using hnd)]
    simp
  rw [hl]
  exact ⟨hd, fun id => mapGet?_perm _ _ hd hwf.1 id⟩


/-! ## The order of `sort.Strings` -/

theorem strLess_cons_false (a b : Char) (as bs : List Char) :
    strLess (a :: as) (b :: bs) = false ↔
      b.toNat < a.toNat ∨ (a.toNat = b.toNat ∧ strLess as bs = false) := by
  simp only [strLess]
  split_ifs with h1 h2
  · simp; omega
  · simp [h2]
  · have : a.toNat = b.toNat := by omega
    simp [this]

theorem strLE_trans (a b c : String) (h1 : strLE a b) (h2 : strLE b c) : strLE a c := by
  unfold strLE at *
  have key : ∀ x y z : List Char, strLess y x = false → strLess z y = false →
      strLess z x = false := by
    intro x
    induction x with
    | nil => intro y z _ _; cases z <;> simp [strLess]
    | cons p ps ih =>
      intro y z h1 h2
      cases y with
      | nil => simp [strLess] at h1
      | cons q qs =>
        cases z with
        | nil => simp [strLess] at h2
        | cons r rs =>
          rw [strLess_cons_false] at h1 h2 ⊢
          rcases h1 with h1 | ⟨e1, h1⟩ <;> rcases h2 with h2 | ⟨e2, h2⟩
          · left; omega
          · left; omega
          · left; omega
          · right; exact ⟨by omega, ih qs rs h1 h2⟩
  exact key _ _ _ h1 h2

theorem strLE_total (a b : String) : strLE a b ∨ strLE b a := by
  unfold strLE
  have key : ∀ x y : List Char, strLess y x = false ∨ strLess x y = false := by
    intro x
    induction x with
    | nil => intro y; cases y <;> simp [strLess]
    | cons p ps ih =>
      intro y
      cases y with
      | nil => simp [strLess]
      | cons q qs =>
        rw [strLess_cons_false, strLess_cons_false]
        rcases Nat.lt_trichotomy p.toNat q.toNat with h | h | h
        · left; left; exact h
        · rcases ih qs with h' | h'
          · left; right; exact ⟨h.symm, h'⟩
          · right; right; exact ⟨h, h'⟩
        · right; left; exact h
  exact key _ _

theorem strLE_antisymm (a b : String) (h1 : strLE a b) (h2 : strLE b a) : a = b := by
  unfold strLE at *
  have key : ∀ x y : List Char, strLess y x = false → strLess x y = false → x = y := by
    intro x
    induction x with
    | nil => intro y; cases y <;> simp [strLess]
    | cons p ps ih =>
      intro y
      cases y with
      | nil => simp [strLess]
      | cons q qs =>
        intro h1 h2
        rw [strLess_cons_false] at h1 h2
        have hpq : p.toNat = q.toNat := by omega
        have h1 : strLess qs ps = false := by
          rcases h1 with h | h
          · omega
          · exact h.2
        have h2 : strLess ps qs = false := by
          rcases h2 with h | h
          · omega
          · exact h.2
        have : p = q := by
          apply Char.ext
          apply UInt32.ext
          simpa [Char.toNat, UInt32.toNat] using hpq
        rw [this, ih qs h1 h2]
  have := key a.data b.data h1 h2
  cases a; cases b; simp_all

theorem sortStrings_sorted (keys : List String) : (sortStrings keys).Sorted strLE :=
  @List.sorted_insertionSort String strLE _ ⟨strLE_total⟩ ⟨strLE_trans⟩ keys

theorem sortStrings_perm (keys : List String) : (sortStrings keys).Perm keys :=
  List.perm_insertionSort strLE keys

theorem sortIds_sorted (ids : List Int) : (sortIds ids).Sorted (fun a b => a ≤ b) :=
  List.sorted_insertionSort _ ids

theorem sortIds_perm (ids : List Int) : (sortIds ids).Perm ids :=
  List.perm_insertionSort _ ids

/-! ## Texts -/

theorem contains_join (parts : List String) (sep part : String) (h : part ∈ parts) :
    Contains (Join parts sep) part := by
  unfold Contains
  induction parts with
  | nil => simp at h
  | cons a rest ih =>
    cases rest with
    | nil =>
      simp only [List.mem_singleton] at h
      subst h
      exact List.infix_refl _
    | cons b rest' =>
      simp only [Join, String.data_append]
      rcases List.mem_cons.1 h with e | hin
      · subst e
        exact ⟨[], sep.data ++ (Join (b :: rest') sep).data, by simp⟩
      · obtain ⟨l, r, e⟩ := ih hin
        exact ⟨a.data ++ sep.data ++ l, r, by simp [← e]⟩

theorem contains_append_left (s t sub : String) (h : Contains s sub) : Contains (s ++ t) sub := by
  unfold Contains at *
  obtain ⟨l, r, e⟩ := h
  exact ⟨l, r ++ t.data, by simp [← e]⟩

theorem contains_append_right (s t sub : String) (h : Contains t sub) : Contains (s ++ t) sub := by
  unfold Contains at *
  obtain ⟨l, r, e⟩ := h
  exact ⟨s.data ++ l, r, by simp [← e]⟩


theorem factsToStr_listsFacts (d : Option (List (String × String))) :
    listsFacts d (factsToStr d) := by
  constructor
  · intro h
    simp [factsToStr, h]
  · intro h
    refine ⟨sortedKeys d, sortStrings_sorted _, sortStrings_perm _, ?_⟩
    have : ¬ (dataEntries d).length = 0 := by simpa using h
    simp only [factsToStr, this, if_false]
    rfl

theorem factsToStr_contains (d : Option (List (String × String))) (k v : String)
    (hnd : (mapKeys (dataEntries d)).Nodup) (hmem : (k, v) ∈ dataEntries d) :
    Contains (factsToStr d) (k ++ " - " ++ v) := by
  have hne : ¬ (dataEntries d).length = 0 := by
    intro h
    rw [List.length_eq_zero] at h
    rw [h] at hmem
    simp at hmem
  have hget : dataGet d k = v := by
    simp [dataGet, mapGet?_eq_some_of_mem _ k v hnd hmem]
  have hk : k ∈ sortedKeys d :=
    (sortStrings_perm _).mem_iff.2 (List.mem_map.2 ⟨(k, v), hmem, rfl⟩)
  simp only [factsToStr, hne, if_false]
  apply contains_append_left
  apply contains_append_right
  apply contains_join
  exact List.mem_map.2 ⟨k, hk, by rw [hget]⟩

/-! ## Handlers on a session that can be dereferenced -/

theorem ensureState_current (m : conversationManager) (chatID : Int)
    (hnil : mapGet? m.states chatID ≠ some none) :
    ∃ m0, ensureState m chatID = (some (current m chatID), m0) ∧
      session m0 chatID = some (current m chatID) ∧ m0.store = m.store ∧
      (∀ other, other ≠ chatID → mapGet? m0.states other = mapGet? m.states other) ∧
      (wellFormedStates m.states → isInt64 chatID → wellFormedStates m0.states) := by
  unfold ensureState current session
  cases hg : mapGet? m.states chatID with
  | none =>
    refine ⟨_, rfl, ?_, rfl, fun other hne => ?_, fun hwf hid => ?_⟩
    · simp [mapGet?_mapSet_self]
    · exact mapGet?_mapSet_ne _ _ _ _ hne
    · exact wellFormedStates_mapSet _ _ _ hwf hid
  | some p =>
    cases p with
    | none => exact absurd hg hnil
    | some st => exact ⟨m, rfl, by simp [hg], rfl, fun _ _ => rfl, fun hwf _ => hwf⟩

theorem finishConversation_eq (m : conversationManager) (chatID : Int) (io : Bool)
    (hnil : mapGet? m.states chatID ≠ some none) :
    ∃ m', finishConversation m chatID io =
        some ({ Text := "I learned these facts about you:" ++ factsToStr (current m chatID).Data
                  ++ "Until next time!",
                WithKeyboard := false, RemoveKeyboard := true }, m') ∧
      session m' chatID = some ⟨stageChoosing, (current m chatID).Data, ""⟩ ∧
      m'.store.handed.head? = some m'.states := by
  obtain ⟨m0, he, _, _, _, _⟩ := ensureState_current m chatID hnil
  unfold finishConversation
  rw [he]
  refine ⟨_, rfl, session_saveStateLocked _ _ _ _, ?_⟩
  cases io <;> rfl

theorem startConversation_eq (m : conversationManager) (chatID : Int) (io : Bool)
    (hnil : mapGet? m.states chatID ≠ some none) :
    ∃ m', startConversation m chatID io =
        some ({ Text := greetingText (current m chatID).Data,
                WithKeyboard := true, RemoveKeyboard := false }, m') ∧
      session m' chatID =
        some ⟨stageChoosing, (current m chatID).Data, (current m chatID).PendingKey⟩ ∧
      m'.store = (Save m.store m'.states io).1 ∧
      (∀ other, other ≠ chatID → mapGet? m'.states other = mapGet? m.states other) ∧
      (wellFormedStates m.states → isInt64 chatID → wellFormedStates m'.states) := by
  obtain ⟨m0, he, _, hst, hother, hwf0⟩ := ensureState_current m chatID hnil
  unfold startConversation
  rw [he]
  refine ⟨_, rfl, session_saveStateLocked _ _ _ _, ?_, fun other hne => ?_, fun hwf hid => ?_⟩
  · simp [saveStateLocked, hst]
  · simp only [saveStateLocked]
    rw [mapGet?_mapSet_ne _ _ _ _ hne, hother other hne]
  · exact wellFormedStates_mapSet _ _ _ (hwf0 hwf hid) hid

theorem handleChoosing_somethingElse (m : conversationManager) (chatID : Int) (st : userState)
    (text : String) (io : Bool) (hs : session m chatID = some st)
    (ht : TrimSpace text = "Something else...") :
    handleChoosing m chatID text io =
      some ({ Text := "Tell me the category name.", WithKeyboard := false,
              RemoveKeyboard := false },
        saveStateLocked m chatID { st with Stage := stageTypingKey } io) := by
  unfold handleChoosing
  rw [ensureState_of_session m chatID st hs]
  simp [ht]

theorem handleTypingKey_label (m : conversationManager) (chatID : Int) (st : userState)
    (text : String) (io : Bool) (hs : session m chatID = some st) (hne : TrimSpace text ≠ "") :
    handleTypingKey m chatID text io =
      some ({ Text := "Great, now tell me about " ++ TrimSpace text ++ ".",
              WithKeyboard := false, RemoveKeyboard := false },
        saveStateLocked m chatID
          { st with Stage := stageTypingReply, PendingKey := TrimSpace text } io) := by
  unfold handleTypingKey
  rw [ensureState_of_session m chatID st hs]
  simp [hne]

theorem handleChoosing_done (m : conversationManager) (chatID : Int) (st : userState)
    (text : String) (io : Bool) (hs : session m chatID = some st)
    (ht : TrimSpace text = "Done") :
    handleChoosing m chatID text io = finishConversation m chatID io := by
  unfold handleChoosing
  rw [ensureState_of_session m chatID st hs]
  have h2 : ("Done" : String) ≠ "Something else..." := by decide
  simp [ht, h2]

theorem wellFormedStates_saveStateLocked (m : conversationManager) (chatID : Int)
    (st : userState) (io : Bool) (hwf : wellFormedStates m.states) (hid : isInt64 chatID) :
    wellFormedStates (saveStateLocked m chatID st io).states :=
  wellFormedStates_mapSet _ _ _ hwf hid

theorem reload_after_save (m : conversationManager) (chatID : Int) (st : userState)
    (fresh : fileStore) (hwf : wellFormedStates m.states) (hid : isInt64 chatID)
    (hread : sameFile fresh.file (saveStateLocked m chatID st true).store.file) :
    ∃ reloaded, newConversationManager fresh = .ok reloaded ∧
      session reloaded chatID = some st := by
  have hwf' := wellFormedStates_saveStateLocked m chatID st true hwf hid
  simp only [saveStateLocked, Save, if_true] at hread hwf'
  cases hf : fresh.file with
  | parsed enc =>
    rw [hf] at hread
    obtain ⟨_, hg⟩ := load_after_save _ hwf' enc hread
    refine ⟨⟨loadLoop enc [], fresh⟩, by simp [newConversationManager, Load, hf], ?_⟩
    simp [session, hg chatID, mapGet?_mapSet_self]
  | missing => rw [hf] at hread; exact absurd hread (by simp [sameFile])
  | unreadable => rw [hf] at hread; exact absurd hread (by simp [sameFile])
  | malformed => rw [hf] at hread; exact absurd hread (by simp [sameFile])

/-! ## C3: the free-form category flow -/

/-- C3. For a chat whose stored pointer is not nil, `start`, then
"Something else...", then a label `L` that is not blank, then a value `v`, all
return and end with `TrimSpace v` stored under `TrimSpace L` in stage CHOOSING;
the last snapshot handed to `Save` is the final mapping, and when that last
write succeeds a manager built on a fresh store for the file finds the same
session. -/
theorem C3_free_form_flow (m : conversationManager) (chatID : Int) (L v : String)
    (io1 io2 io3 io4 : Bool)
    (hnil : mapGet? m.states chatID ≠ some none) (hL : TrimSpace L ≠ "") :
    ∃ m4 st4,
      run m [.command chatID "start" io1, .message chatID "Something else..." io2,
        .message chatID L io3, .message chatID v io4] = some m4 ∧
      session m4 chatID = some st4 ∧
      mapGet? (dataEntries st4.Data) (TrimSpace L) = some (TrimSpace v) ∧
      dataGet st4.Data (TrimSpace L) = TrimSpace v ∧
      st4.Stage = stageChoosing ∧
      m4.store.handed.head? = some m4.states ∧
      (io4 = true → wellFormedStates m.states → isInt64 chatID →
        ∀ fresh : fileStore, sameFile fresh.file m4.store.file →
          ∃ reloaded, newConversationManager fresh = .ok reloaded ∧
            session reloaded chatID = some st4) := by
  obtain ⟨m1, e1, hs1, _, _, hwf1⟩ := startConversation_eq m chatID io1 hnil
  generalize current m chatID = c at e1 hs1
  have e2 : handleMessage m1 chatID "Something else..." io2 = some (_,
      saveStateLocked m1 chatID ⟨stageTypingKey, c.Data, c.PendingKey⟩ io2) :=
    (handleMessage_choosing m1 chatID ⟨stageChoosing, c.Data, c.PendingKey⟩
      "Something else..." io2 hs1
      (by show stageChoosing ≠ stageTypingKey; decide)
      (by show stageChoosing ≠ stageTypingReply; decide)).trans
      (handleChoosing_somethingElse m1 chatID ⟨stageChoosing, c.Data, c.PendingKey⟩
        "Something else..." io2 hs1 (by decide))
  generalize hm2 : saveStateLocked m1 chatID ⟨stageTypingKey, c.Data, c.PendingKey⟩ io2 = m2
    at e2
  have hs2 : session m2 chatID = some ⟨stageTypingKey, c.Data, c.PendingKey⟩ := by
    rw [← hm2]; exact session_saveStateLocked _ _ _ _
  have e3 : handleMessage m2 chatID L io3 = some (_,
      saveStateLocked m2 chatID ⟨stageTypingReply, c.Data, TrimSpace L⟩ io3) :=
    (handleMessage_typingKey m2 chatID ⟨stageTypingKey, c.Data, c.PendingKey⟩ L io3 hs2
      rfl).trans
      (handleTypingKey_label m2 chatID ⟨stageTypingKey, c.Data, c.PendingKey⟩ L io3 hs2 hL)
  generalize hm3 : saveStateLocked m2 chatID ⟨stageTypingReply, c.Data, TrimSpace L⟩ io3 = m3
    at e3
  have hs3 : session m3 chatID = some ⟨stageTypingReply, c.Data, TrimSpace L⟩ := by
    rw [← hm3]; exact session_saveStateLocked _ _ _ _
  have e4 : handleMessage m3 chatID v io4 = some (_,
      saveStateLocked m3 chatID
        ⟨stageChoosing, some (mapSet (dataEntries c.Data) (TrimSpace L) (TrimSpace v)), ""⟩
        io4) :=
    (handleMessage_typingReply m3 chatID ⟨stageTypingReply, c.Data, TrimSpace L⟩ v io4 hs3
      rfl).trans
      (handleTypingReply_pending m3 chatID ⟨stageTypingReply, c.Data, TrimSpace L⟩ v io4 hs3
        hL)
  refine ⟨saveStateLocked m3 chatID
      ⟨stageChoosing, some (mapSet (dataEntries c.Data) (TrimSpace L) (TrimSpace v)), ""⟩ io4,
    ⟨stageChoosing, some (mapSet (dataEntries c.Data) (TrimSpace L) (TrimSpace v)), ""⟩,
    ?_, session_saveStateLocked _ _ _ _, ?_, ?_, rfl, ?_, ?_⟩
  · simp only [run, step, handleCommand, if_true, e1, e2, e3, e4]
  · simp [dataEntries, mapGet?_mapSet_self]
  · simp [dataGet, dataEntries, mapGet?_mapSet_self]
  · cases io4 <;> rfl
  · intro hio hwf hid fresh hread
    subst hio
    have hwf3 : wellFormedStates m3.states := by
      rw [← hm3, ← hm2]
      exact wellFormedStates_saveStateLocked _ _ _ _
        (wellFormedStates_saveStateLocked _ _ _ _ (hwf1 hwf hid) hid) hid
    exact reload_after_save m3 chatID _ fresh hwf3 hid hread

/-- C3 on the flow of `TestCustomCategoryPersistence`, with blanks around the
label and the value. -/
theorem C3_free_form_flow_witness :
    ∃ m4 st4,
      run emptyManager [.command 7 "start" true, .message 7 "Something else..." true,
        .message 7 " Most impressive skill " true, .message 7 "Staying calm\n" true] = some m4 ∧
      session m4 7 = some st4 ∧
      mapGet? (dataEntries st4.Data) (TrimSpace " Most impressive skill ") =
        some (TrimSpace "Staying calm\n") ∧
      dataGet st4.Data (TrimSpace " Most impressive skill ") = TrimSpace "Staying calm\n" ∧
      st4.Stage = stageChoosing ∧
      m4.store.handed.head? = some m4.states ∧
      (true = true → wellFormedStates emptyManager.states → isInt64 7 →
        ∀ fresh : fileStore, sameFile fresh.file m4.store.file →
          ∃ reloaded, newConversationManager fresh = .ok reloaded ∧
            session reloaded 7 = some st4) :=
  C3_free_form_flow emptyManager 7 " Most impressive skill " "Staying calm\n"
    true true true true (by decide) (by decide)


/-! ## C4: ending a conversation -/

theorem finishConversation_of_ensure (m m0 : conversationManager) (chatID : Int)
    (st : userState) (io : Bool) (he : ensureState m chatID = (some st, m0)) :
    finishConversation m chatID io =
      some ({ Text := "I learned these facts about you:" ++ factsToStr st.Data
                ++ "Until next time!",
              WithKeyboard := false, RemoveKeyboard := true },
        saveStateLocked m0 chatID ⟨stageChoosing, st.Data, ""⟩ io) := by
  unfold finishConversation
  rw [he]

/-- C4. For a chat whose stored pointer is not nil (or that is not stored
yet), `cancel`, `stop` and, in stage CHOOSING, the message "Done" return the
same response and manager: the keyboard is removed and not shown, the text is
the heading, the facts listing (one line per label, ascending) and the
farewell, every stored fact occurs in it, and afterwards the session is in
CHOOSING with an empty pending key and the same data. -/
theorem C4_ending_a_conversation (m : conversationManager) (chatID : Int) (io : Bool)
    (hnil : mapGet? m.states chatID ≠ some none) :
    ∃ r m',
      handleCommand m chatID "cancel" io = some (r, m') ∧
      handleCommand m chatID "stop" io = some (r, m') ∧
      ((current m chatID).Stage = stageChoosing →
        handleMessage m chatID "Done" io = some (r, m')) ∧
      r.RemoveKeyboard = true ∧ r.WithKeyboard = false ∧
      (∃ facts, listsFacts (current m chatID).Data facts ∧
        r.Text = "I learned these facts about you:" ++ facts ++ "Until next time!") ∧
      ((mapKeys (dataEntries (current m chatID).Data)).Nodup →
        ∀ k v, (k, v) ∈ dataEntries (current m chatID).Data →
          Contains r.Text (k ++ " - " ++ v)) ∧
      session m' chatID = some ⟨stageChoosing, (current m chatID).Data, ""⟩ := by
  obtain ⟨m0, he, hs0, _, _, _⟩ := ensureState_current m chatID hnil
  have hfin := finishConversation_of_ensure m m0 chatID _ io he
  have hfin0 := finishConversation_of_ensure m0 m0 chatID _ io
    (ensureState_of_session m0 chatID _ hs0)
  refine ⟨⟨"I learned these facts about you:" ++ factsToStr (current m chatID).Data
      ++ "Until next time!", false, true⟩,
    saveStateLocked m0 chatID ⟨stageChoosing, (current m chatID).Data, ""⟩ io,
    ?_, ?_, ?_, rfl, rfl, ⟨_, factsToStr_listsFacts _, rfl⟩, ?_,
    session_saveStateLocked _ _ _ _⟩
  · simp only [handleCommand]
    rw [if_neg (by decide), if_pos (by decide)]
    exact hfin
  · simp only [handleCommand]
    rw [if_neg (by decide), if_pos (by decide)]
    exact hfin
  · intro hstage
    unfold handleMessage
    rw [he]
    simp only [hstage]
    rw [if_neg (by decide), if_neg (by decide),
      handleChoosing_done m0 chatID _ "Done" io hs0 (by decide)]
    exact hfin0
  · intro hnd k v hmem
    apply contains_append_left
    apply contains_append_right
    exact factsToStr_contains _ k v hnd hmem

/-- C4 on a session in stage CHOOSING holding two facts. -/
theorem C4_ending_a_conversation_witness :
    ∃ r m',
      handleCommand ⟨[(42, some ⟨"CHOOSING", some [("Skill", "Calm"), ("Age", "21")], "Age"⟩)],
        ⟨.missing, []⟩⟩ 42 "cancel" true = some (r, m') ∧
      handleCommand ⟨[(42, some ⟨"CHOOSING", some [("Skill", "Calm"), ("Age", "21")], "Age"⟩)],
        ⟨.missing, []⟩⟩ 42 "stop" true = some (r, m') ∧
      handleMessage ⟨[(42, some ⟨"CHOOSING", some [("Skill", "Calm"), ("Age", "21")], "Age"⟩)],
        ⟨.missing, []⟩⟩ 42 "Done" true = some (r, m') ∧
      r = ⟨"I learned these facts about you:\nAge - 21\nSkill - Calm\nUntil next time!",
        false, true⟩ ∧
      session m' 42 = some ⟨"CHOOSING", some [("Skill", "Calm"), ("Age", "21")], ""⟩ := by
  obtain ⟨r, m', h1, h2, h3, _, _, _, _, h8⟩ := C4_ending_a_conversation
    ⟨[(42, some ⟨"CHOOSING", some [("Skill", "Calm"), ("Age", "21")], "Age"⟩)],
      ⟨.missing, []⟩⟩ 42 true (by decide)
  refine ⟨r, m', h1, h2, h3 (by decide), ?_, h8⟩
  have e : handleCommand
      ⟨[(42, some ⟨"CHOOSING", some [("Skill", "Calm"), ("Age", "21")], "Age"⟩)],
        ⟨.missing, []⟩⟩ 42 "cancel" true =
      some (⟨"I learned these facts about you:\nAge - 21\nSkill - Calm\nUntil next time!",
        false, true⟩,
        ⟨[(42, some ⟨"CHOOSING", some [("Skill", "Calm"), ("Age", "21")], ""⟩)],
          ⟨.parsed [("42", some ⟨"CHOOSING", some [("Skill", "Calm"), ("Age", "21")], ""⟩)],
            [[(42, some ⟨"CHOOSING", some [("Skill", "Calm"), ("Age", "21")], ""⟩)]]⟩⟩) := by
    decide
  rw [e] at h1
  exact (congrArg Prod.fst (Option.some.inj h1)).symm


/-! ## C7: the start command -/

/-- C7. For a chat whose stored pointer is not nil (or that is not stored
yet), `start` returns, sets the stage to CHOOSING and keeps the data (and the
pending key), asks for the keyboard and not for its removal; with data the
greeting lists the labels, ascending and joined by ", ", and so contains each
of them; with no data, as for a chat never seen, it is the plain greeting. -/
theorem C7_start_command (m : conversationManager) (chatID : Int) (io : Bool)
    (hnil : mapGet? m.states chatID ≠ some none) :
    ∃ r m',
      handleCommand m chatID "start" io = some (r, m') ∧
      session m' chatID =
        some ⟨stageChoosing, (current m chatID).Data, (current m chatID).PendingKey⟩ ∧
      r.WithKeyboard = true ∧ r.RemoveKeyboard = false ∧
      (dataEntries (current m chatID).Data ≠ [] →
        ∃ ks : List String, ks.Sorted strLE ∧
          ks.Perm (mapKeys (dataEntries (current m chatID).Data)) ∧
          r.Text = "Hi! My name is Doctor Botter." ++ (" You already told me your "
            ++ Join ks ", " ++ ". Tell me more or update something.") ∧
          ∀ k ∈ mapKeys (dataEntries (current m chatID).Data), Contains r.Text k) ∧
      (dataEntries (current m chatID).Data = [] →
        r.Text = "Hi! My name is Doctor Botter." ++
          " I will hold a more complex conversation with you. Tell me something about yourself.") ∧
      (mapGet? m.states chatID = none → dataEntries (current m chatID).Data = []) := by
  obtain ⟨m', e, hs, _, _, _⟩ := startConversation_eq m chatID io hnil
  refine ⟨⟨greetingText (current m chatID).Data, true, false⟩, m', ?_, hs, rfl, rfl,
    ?_, ?_, ?_⟩
  · simp only [handleCommand, if_true]
    exact e
  · intro hne
    have hpos : (dataEntries (current m chatID).Data).length > 0 :=
      List.length_pos.2 hne
    refine ⟨sortedKeys (current m chatID).Data, sortStrings_sorted _, sortStrings_perm _, ?_, ?_⟩
    · simp only [greetingText, hpos, if_true]
    · intro k hk
      simp only [greetingText, hpos, if_true]
      apply contains_append_right
      apply contains_append_left
      apply contains_append_right
      exact contains_join _ _ _ ((sortStrings_perm _).mem_iff.2 hk)
  · intro he
    simp [greetingText, he]
  · intro hnone
    simp [current, session, hnone, dataEntries]

/-- C7 on a session left in TYPING_REPLY with two facts. -/
theorem C7_start_command_witness :
    ∃ r m',
      handleCommand ⟨[(5, some ⟨"TYPING_REPLY", some [("Skill", "Calm"), ("Age", "21")], "Age"⟩)],
        ⟨.missing, []⟩⟩ 5 "start" false = some (r, m') ∧
      session m' 5 = some ⟨"CHOOSING", some [("Skill", "Calm"), ("Age", "21")], "Age"⟩ ∧
      r = ⟨"Hi! My name is Doctor Botter. You already told me your Age, Skill. Tell me more or update something.",
        true, false⟩ := by
  obtain ⟨r, m', h1, h2, _⟩ := C7_start_command
    ⟨[(5, some ⟨"TYPING_REPLY", some [("Skill", "Calm"), ("Age", "21")], "Age"⟩)],
      ⟨.missing, []⟩⟩ 5 false (by decide)
  refine ⟨r, m', h1, h2, ?_⟩
  have e : handleCommand
      ⟨[(5, some ⟨"TYPING_REPLY", some [("Skill", "Calm"), ("Age", "21")], "Age"⟩)],
        ⟨.missing, []⟩⟩ 5 "start" false =
      some (⟨"Hi! My name is Doctor Botter. You already told me your Age, Skill. Tell me more or update something.",
        true, false⟩,
        ⟨[(5, some ⟨"CHOOSING", some [("Skill", "Calm"), ("Age", "21")], "Age"⟩)],
          ⟨.missing,
            [[(5, some ⟨"CHOOSING", some [("Skill", "Calm"), ("Age", "21")], "Age"⟩)]]⟩⟩) := by
    decide
  rw [e] at h1
  exact (congrArg Prod.fst (Option.some.inj h1)).symm

/-! ## C10: the response to a category selection -/

/-- C10, as the code has it. In stage CHOOSING a text whose `TrimSpace` is a
fixed label sets the pending key to that label and the stage to TYPING_REPLY;
the response neither shows nor removes the keyboard. -/
theorem C10_category_selection (m : conversationManager) (chatID : Int) (st : userState)
    (text : String) (io : Bool)
    (hs : session m chatID = some st) (hstage : st.Stage = stageChoosing)
    (hk : TrimSpace text ∈ ["Age", "Favourite colour", "Number of siblings"]) :
    ∃ r m',
      handleMessage m chatID text io = some (r, m') ∧
      session m' chatID = some ⟨stageTypingReply, st.Data, TrimSpace text⟩ ∧
      r.WithKeyboard = false ∧ r.RemoveKeyboard = false := by
  refine ⟨_, _, (handleMessage_choosing m chatID st text io hs (by rw [hstage]; decide)
    (by rw [hstage]; decide)).trans (handleChoosing_fixed m chatID st text io hs hk),
    session_saveStateLocked _ _ _ _, rfl, rfl⟩

/-- C10 on the label "Age" sent with surrounding blanks. -/
theorem C10_category_selection_witness :
    ∃ r m',
      handleMessage ⟨[(42, some ⟨"CHOOSING", some [], ""⟩)], ⟨.missing, []⟩⟩ 42 " Age " true
        = some (r, m') ∧
      session m' 42 = some ⟨stageTypingReply, some [], TrimSpace " Age "⟩ ∧
      r.WithKeyboard = false ∧ r.RemoveKeyboard = false :=
  C10_category_selection ⟨[(42, some ⟨"CHOOSING", some [], ""⟩)], ⟨.missing, []⟩⟩ 42
    ⟨"CHOOSING", some [], ""⟩ " Age " true (by decide) (by decide) (by decide)

/-- C10, against the claim. On the flow of `TestConversationFlow` the label
"Age" is answered with `RemoveKeyboard == false`. -/
theorem C10_selection_does_not_remove_keyboard :
    (handleMessage ⟨[(42, some ⟨"CHOOSING", some [], ""⟩)], ⟨.missing, []⟩⟩ 42 "Age"
      true).map (fun p => (p.1.WithKeyboard, p.1.RemoveKeyboard)) = some (false, false) := by
  decide


/-! ## C6: the all-sessions summary -/

theorem summaryParts_blocks (states : States) (ids : List Int)
    (h : ∀ id ∈ ids, ∃ st : userState, mapGet? states id = some (some st)) :
    ∃ parts, summaryParts states ids = some parts ∧
      List.Forall₂ (isUserBlock states) ids parts := by
  induction ids with
  | nil => exact ⟨[], rfl, List.Forall₂.nil⟩
  | cons id rest ih =>
    obtain ⟨st, hst⟩ := h id (List.mem_cons_self _ _)
    obtain ⟨parts, hp, hf⟩ := ih (fun i hi => h i (List.mem_cons_of_mem _ hi))
    refine ⟨("User " ++ FormatInt id ++ ":" ++ factsToStr st.Data) :: parts, ?_,
      List.Forall₂.cons ⟨st, hst, rfl, factsToStr_listsFacts _⟩ hf⟩
    simp [summaryParts, hst, hp]

/-- C6. For a mapping with distinct ids and no nil state, the all-sessions
summary (also as the answer to `show_all_data`) is the heading followed by one
block per session joined by newlines, the blocks in strictly ascending order
of id, each block "User <id>:" and the facts of that session in ascending
label order; an empty mapping gives the placeholder. For sessions 1 {Age: 33}
and 2 {Favourite colour: Blue} the block of user 1 comes first. -/
theorem C6_all_sessions_summary (m : conversationManager) (chatID : Int) (io : Bool)
    (hnd : (mapKeys m.states).Nodup) (hnn : ∀ p ∈ m.states, p.2 ≠ none) :
    (∃ text, allUsersDataSummary m = some text ∧
      handleCommand m chatID "show_all_data" io = some (⟨text, false, false⟩, m) ∧
      (m.states = [] → text = "All saved data:\n(nothing yet)\n") ∧
      (m.states ≠ [] → ∃ ids parts,
        ids.Sorted (fun a b => a < b) ∧ ids.Perm (mapKeys m.states) ∧
        List.Forall₂ (isUserBlock m.states) ids parts ∧
        text = "All saved data:\n" ++ Join parts "\n")) ∧
    allUsersDataSummary
      ⟨[(2, some ⟨"CHOOSING", some [("Favourite colour", "Blue")], ""⟩),
        (1, some ⟨"CHOOSING", some [("Age", "33")], ""⟩)], ⟨.missing, []⟩⟩ =
      some "All saved data:\nUser 1:\nAge - 33\n\nUser 2:\nFavourite colour - Blue\n" := by
  refine ⟨?_, by decide⟩
  by_cases hemp : m.states = []
  · refine ⟨"All saved data:\n(nothing yet)\n", by simp [allUsersDataSummary, hemp], ?_,
      fun _ => rfl, fun h => absurd hemp h⟩
    simp [handleCommand, allUsersDataSummary, hemp]
  · have hlen : ¬ m.states.length = 0 := by simpa using hemp
    have hall : ∀ id ∈ sortIds (mapKeys m.states),
        ∃ st : userState, mapGet? m.states id = some (some st) := by
      intro id hid
      have hk : id ∈ mapKeys m.states := (sortIds_perm _).mem_iff.1 hid
      cases hg : mapGet? m.states id with
      | none => exact absurd hk ((mapGet?_eq_none_iff _ _).1 hg)
      | some v =>
        cases v with
        | none => exact absurd rfl (hnn _ (mem_of_mapGet?_eq_some _ _ _ hg))
        | some st => exact ⟨st, rfl⟩
    obtain ⟨parts, hp, hf⟩ := summaryParts_blocks m.states _ hall
    have hsum : allUsersDataSummary m = some ("All saved data:\n" ++ Join parts "\n") := by
      simp [allUsersDataSummary, hlen, hp]
    refine ⟨_, hsum, ?_, fun h => absurd h hemp, fun _ =>
      ⟨sortIds (mapKeys m.states), parts, ?_, sortIds_perm _, hf, rfl⟩⟩
    · simp [handleCommand, hsum]
    · exact (sortIds_sorted _).lt_of_le ((sortIds_perm _).nodup_iff.2 hnd)

/-- C6 on three sessions, one with a negative id, asked from a fourth chat. -/
theorem C6_all_sessions_summary_witness :
    ∃ text,
      handleCommand
        ⟨[(2, some ⟨"CHOOSING", some [("Favourite colour", "Blue"), ("Age", "4")], ""⟩),
          (-5, some ⟨"TYPING_REPLY", none, "Age"⟩),
          (1, some ⟨"CHOOSING", some [("Age", "33")], ""⟩)], ⟨.missing, []⟩⟩
        9 "show_all_data" true =
        some (⟨text, false, false⟩,
          ⟨[(2, some ⟨"CHOOSING", some [("Favourite colour", "Blue"), ("Age", "4")], ""⟩),
            (-5, some ⟨"TYPING_REPLY", none, "Age"⟩),
            (1, some ⟨"CHOOSING", some [("Age", "33")], ""⟩)], ⟨.missing, []⟩⟩) ∧
      text = "All saved data:\nUser -5:\n(nothing yet)\n\nUser 1:\nAge - 33\n\nUser 2:\nAge - 4\nFavourite colour - Blue\n" := by
  obtain ⟨⟨text, h1, h2, _, _⟩, _⟩ := C6_all_sessions_summary
    ⟨[(2, some ⟨"CHOOSING", some [("Favourite colour", "Blue"), ("Age", "4")], ""⟩),
      (-5, some ⟨"TYPING_REPLY", none, "Age"⟩),
      (1, some ⟨"CHOOSING", some [("Age", "33")], ""⟩)], ⟨.missing, []⟩⟩ 9 true
    (by decide) (by decide)
  refine ⟨text, h2, ?_⟩
  have e : allUsersDataSummary
      ⟨[(2, some ⟨"CHOOSING", some [("Favourite colour", "Blue"), ("Age", "4")], ""⟩),
        (-5, some ⟨"TYPING_REPLY", none, "Age"⟩),
        (1, some ⟨"CHOOSING", some [("Age", "33")], ""⟩)], ⟨.missing, []⟩⟩ =
      some "All saved data:\nUser -5:\n(nothing yet)\n\nUser 1:\nAge - 33\n\nUser 2:\nAge - 4\nFavourite colour - Blue\n" := by
    decide
  rw [e] at h1
  exact (Option.some.inj h1).symm

/-! ## The keys that `Load` keeps -/

theorem mapKeys_cons {κ ν : Type} (p : κ × ν) (l : List (κ × ν)) :
    mapKeys (p :: l) = p.1 :: mapKeys l := rfl

theorem mem_mapKeys_loadLoop (encoded : List (String × Option userState)) (acc : States)
    (n : Int) :
    n ∈ mapKeys (loadLoop encoded acc) ↔
      n ∈ mapKeys acc ∨ ∃ k ∈ mapKeys encoded, ParseInt k = some n := by
  induction encoded generalizing acc with
  | nil => simp [loadLoop, mapKeys]
  | cons p rest ih =>
    obtain ⟨k, v⟩ := p
    unfold loadLoop
    rw [mapKeys_cons]
    cases hp : ParseInt k with
    | none =>
      simp only [ih, List.mem_cons, exists_eq_or_imp, hp]
      simp
    | some id =>
      simp only [ih, mem_mapKeys_mapSet, List.mem_cons, exists_eq_or_imp, hp,
        Option.some.injEq]
      constructor
      · rintro ((h | h) | h)
        · exact Or.inr (Or.inl h.symm)
        · exact Or.inl h
        · exact Or.inr (Or.inr h)
      · rintro (h | h | h)
        · exact Or.inl (Or.inr h)
        · exact Or.inl (Or.inl h.symm)
        · exact Or.inr h

/-! ## `TrimSpace` is idempotent -/

theorem trimSpace_data (s : String) :
    (TrimSpace s).data = (s.data.dropWhile IsSpace).rdropWhile IsSpace := rfl

theorem dropWhile_rdropWhile_dropWhile (p : Char → Bool) (l : List Char) :
    ((l.dropWhile p).rdropWhile p).dropWhile p = (l.dropWhile p).rdropWhile p := by
  generalize ha : l.dropWhile p = a
  have hhead : a.dropWhile p = a := by rw [← ha, List.dropWhile_idempotent]
  obtain ⟨t, ht⟩ := List.rdropWhile_prefix p (l := a)
  cases hb : a.rdropWhile p with
  | nil => rfl
  | cons x xs =>
    rw [hb] at ht
    have hx : ¬ p x = true := by
      have h0 := List.dropWhile_eq_self_iff.1 hhead
      rw [← ht] at h0
      simpa using h0 (by simp)
    simp [List.dropWhile, hx]

theorem TrimSpace_idempotent (s : String) : TrimSpace (TrimSpace s) = TrimSpace s := by
  have h : (TrimSpace (TrimSpace s)).data = (TrimSpace s).data := by
    rw [trimSpace_data (TrimSpace s), trimSpace_data s, dropWhile_rdropWhile_dropWhile,
      List.rdropWhile_idempotent]
  exact String.ext h


/-! ## The handlers refine the transition table -/

theorem mem_mapSet {κ ν : Type} [DecidableEq κ] (m : List (κ × ν)) (k : κ) (v : ν)
    (p : κ × ν) (h : p ∈ mapSet m k v) : p = (k, v) ∨ p ∈ m := by
  induction m with
  | nil => simpa [mapSet] using h
  | cons q rest ih =>
    obtain ⟨k1, v1⟩ := q
    by_cases e : k1 = k
    · simp only [mapSet, e, if_true, List.mem_cons] at h
      rcases h with h | h
      · exact Or.inl h
      · exact Or.inr (List.mem_cons_of_mem _ h)
    · simp only [mapSet, e, if_false, List.mem_cons] at h
      rcases h with h | h
      · exact Or.inr (by simp [h])
      · rcases ih h with h' | h'
        · exact Or.inl h'
        · exact Or.inr (List.mem_cons_of_mem _ h')

theorem noNil_mapSet (states : States) (id : Int) (st : userState) (h : noNil states) :
    noNil (mapSet states id (some st)) := by
  intro p hp
  rcases mem_mapSet _ _ _ _ hp with e | hin
  · rw [e]; simp
  · exact h p hin

theorem noNil_lookup (states : States) (id : Int) (h : noNil states) :
    mapGet? states id ≠ some none :=
  fun e => h _ (mem_of_mapGet?_eq_some _ _ _ e) rfl

theorem ensureState_states (m : conversationManager) (chatID : Int)
    (hnil : mapGet? m.states chatID ≠ some none) :
    ∃ m0, ensureState m chatID = (some (current m chatID), m0) ∧
      session m0 chatID = some (current m chatID) ∧
      (∀ other, other ≠ chatID → mapGet? m0.states other = mapGet? m.states other) ∧
      (noNil m.states → noNil m0.states) := by
  unfold ensureState current session
  cases hg : mapGet? m.states chatID with
  | none =>
    refine ⟨_, rfl, ?_, fun other hne => ?_, fun hn => ?_⟩
    · simp [mapGet?_mapSet_self]
    · exact mapGet?_mapSet_ne _ _ _ _ hne
    · exact noNil_mapSet _ _ _ hn
  | some p =>
    cases p with
    | none => exact absurd hg hnil
    | some st => exact ⟨m, rfl, by simp [hg], fun _ _ => rfl, fun hn => hn⟩

theorem handleTypingKey_empty (m : conversationManager) (chatID : Int) (st : userState)
    (text : String) (io : Bool) (hs : session m chatID = some st) (he : TrimSpace text = "") :
    handleTypingKey m chatID text io =
      some ({ Text := "Category cannot be empty. Please send a label for your data.",
              WithKeyboard := false, RemoveKeyboard := false }, m) := by
  unfold handleTypingKey
  rw [ensureState_of_session m chatID st hs]
  simp [he]

theorem handleTypingReply_lost (m : conversationManager) (chatID : Int) (st : userState)
    (text : String) (io : Bool) (hs : session m chatID = some st) (hk : st.PendingKey = "") :
    handleTypingReply m chatID text io =
      some ({ Text := "I lost track of what we were talking about. Pick an option again.",
              WithKeyboard := true, RemoveKeyboard := false },
        saveStateLocked m chatID ⟨stageChoosing, st.Data, st.PendingKey⟩ io) := by
  unfold handleTypingReply
  rw [ensureState_of_session m chatID st hs]
  simp [hk]

theorem handleChoosing_other (m : conversationManager) (chatID : Int) (st : userState)
    (text : String) (io : Bool) (hs : session m chatID = some st)
    (h1 : TrimSpace text ≠ "Something else...") (h2 : TrimSpace text ≠ "Done")
    (h3 : TrimSpace text ∉ fixedLabels) :
    handleChoosing m chatID text io =
      some ({ Text := "Please choose one of the options on the keyboard.",
              WithKeyboard := true, RemoveKeyboard := false }, m) := by
  unfold handleChoosing
  rw [ensureState_of_session m chatID st hs]
  simp only [fixedLabels, List.mem_cons, List.mem_singleton, List.not_mem_nil, or_false,
    not_or] at h3
  simp [h1, h2, h3, mainKeyboardOptions]

theorem session_eq_of_lookup (m m' : conversationManager) (id : Int)
    (h : mapGet? m'.states id = mapGet? m.states id) : session m' id = session m id := by
  simp [session, h]

theorem handleMessage_effect (m : conversationManager) (chatID : Int) (text : String)
    (io : Bool) (hnil : mapGet? m.states chatID ≠ some none) :
    ∃ r m', handleMessage m chatID text io = some (r, m') ∧
      session m' chatID = some (messageState (current m chatID) text) ∧
      (∀ other, other ≠ chatID → mapGet? m'.states other = mapGet? m.states other) ∧
      (noNil m.states → noNil m'.states) := by
  obtain ⟨m0, he, hs0, hoth, hnn⟩ := ensureState_states m chatID hnil
  generalize current m chatID = c at he hs0
  have hsave : ∀ st', (∀ other, other ≠ chatID →
        mapGet? (saveStateLocked m0 chatID st' io).states other = mapGet? m.states other) ∧
      (noNil m.states → noNil (saveStateLocked m0 chatID st' io).states) := fun st' =>
    ⟨fun other hne => by
        simp only [saveStateLocked]
        rw [mapGet?_mapSet_ne _ _ _ _ hne, hoth other hne],
      fun hn => noNil_mapSet _ _ _ (hnn hn)⟩
  unfold handleMessage messageState
  rw [he]
  simp only
  by_cases hk : c.Stage = stageTypingKey
  · rw [if_pos hk, if_pos hk]
    by_cases hempty : TrimSpace text = ""
    · rw [if_pos hempty, handleTypingKey_empty m0 chatID c text io hs0 hempty]
      exact ⟨_, _, rfl, hs0, hoth, hnn⟩
    · rw [if_neg hempty, handleTypingKey_label m0 chatID c text io hs0 hempty]
      exact ⟨_, _, rfl, session_saveStateLocked _ _ _ _, (hsave _).1, (hsave _).2⟩
  · rw [if_neg hk, if_neg hk]
    by_cases hr : c.Stage = stageTypingReply
    · rw [if_pos hr, if_pos hr]
      by_cases hp : c.PendingKey = ""
      · rw [if_pos hp, handleTypingReply_lost m0 chatID c text io hs0 hp]
        exact ⟨_, _, rfl, session_saveStateLocked _ _ _ _, (hsave _).1, (hsave _).2⟩
      · rw [if_neg hp, handleTypingReply_pending m0 chatID c text io hs0 hp]
        exact ⟨_, _, rfl, session_saveStateLocked _ _ _ _, (hsave _).1, (hsave _).2⟩
    · rw [if_neg hr, if_neg hr]
      by_cases h1 : TrimSpace text = "Something else..."
      · rw [if_pos h1]
        rw [handleChoosing_somethingElse m0 chatID c text io hs0 h1]
        exact ⟨_, _, rfl, session_saveStateLocked _ _ _ _, (hsave _).1, (hsave _).2⟩
      · rw [if_neg h1]
        by_cases h2 : TrimSpace text = "Done"
        · rw [if_pos h2]
          rw [handleChoosing_done m0 chatID c text io hs0 h2,
            finishConversation_of_ensure m0 m0 chatID c io
            (ensureState_of_session m0 chatID c hs0)]
          exact ⟨_, _, rfl, session_saveStateLocked _ _ _ _, (hsave _).1, (hsave _).2⟩
        · rw [if_neg h2]
          by_cases h3 : TrimSpace text ∈ fixedLabels
          · rw [if_pos h3, handleChoosing_fixed m0 chatID c text io hs0 h3]
            exact ⟨_, _, rfl, session_saveStateLocked _ _ _ _, (hsave _).1, (hsave _).2⟩
          · rw [if_neg h3, handleChoosing_other m0 chatID c text io hs0 h1 h2 h3]
            exact ⟨_, _, rfl, hs0, hoth, hnn⟩


theorem allUsersDataSummary_total (m : conversationManager) (hnn : noNil m.states) :
    ∃ text, allUsersDataSummary m = some text := by
  by_cases hemp : m.states.length = 0
  · exact ⟨"All saved data:\n(nothing yet)\n", by simp [allUsersDataSummary, hemp]⟩
  · have hall : ∀ id ∈ sortIds (mapKeys m.states),
        ∃ st : userState, mapGet? m.states id = some (some st) := by
      intro id hid
      have hk : id ∈ mapKeys m.states := (sortIds_perm _).mem_iff.1 hid
      cases hg : mapGet? m.states id with
      | none => exact absurd hk ((mapGet?_eq_none_iff _ _).1 hg)
      | some v =>
        cases v with
        | none => exact absurd rfl (hnn _ (mem_of_mapGet?_eq_some _ _ _ hg))
        | some st => exact ⟨st, rfl⟩
    obtain ⟨parts, hp, _⟩ := summaryParts_blocks m.states _ hall
    exact ⟨"All saved data:\n" ++ Join parts "\n", by simp [allUsersDataSummary, hemp, hp]⟩

theorem handleCommand_effect (m : conversationManager) (chatID : Int) (command : String)
    (io : Bool) (hnn : noNil m.states) :
    ∃ r m', handleCommand m chatID command io = some (r, m') ∧
      noNil m'.states ∧
      (∀ other, other ≠ chatID → mapGet? m'.states other = mapGet? m.states other) ∧
      (session m' chatID = some (commandState (current m chatID) command) ∨
        session m' chatID = session m chatID) := by
  have hnil := noNil_lookup m.states chatID hnn
  obtain ⟨m0, he, hs0, hoth, hnn0⟩ := ensureState_states m chatID hnil
  have hsave : ∀ st', (∀ other, other ≠ chatID →
        mapGet? (saveStateLocked m0 chatID st' io).states other = mapGet? m.states other) ∧
      noNil (saveStateLocked m0 chatID st' io).states := fun st' =>
    ⟨fun other hne => by
        simp only [saveStateLocked]
        rw [mapGet?_mapSet_ne _ _ _ _ hne, hoth other hne],
      noNil_mapSet _ _ _ (hnn0 hnn)⟩
  unfold handleCommand commandState
  by_cases h1 : command = "start"
  · rw [if_pos h1, if_pos h1]
    unfold startConversation
    rw [he]
    exact ⟨_, _, rfl, (hsave _).2, (hsave _).1, Or.inl (session_saveStateLocked _ _ _ _)⟩
  · rw [if_neg h1, if_neg h1]
    by_cases h2 : command = "cancel" ∨ command = "stop"
    · rw [if_pos h2, if_pos h2, finishConversation_of_ensure m m0 chatID _ io he]
      exact ⟨_, _, rfl, (hsave _).2, (hsave _).1, Or.inl (session_saveStateLocked _ _ _ _)⟩
    · rw [if_neg h2, if_neg h2]
      by_cases h3 : command = "show_data"
      · rw [if_pos h3, he]
        exact ⟨_, _, rfl, hnn0 hnn, hoth, Or.inl hs0⟩
      · rw [if_neg h3]
        by_cases h4 : command = "show_all_data"
        · rw [if_pos h4]
          obtain ⟨text, ht⟩ := allUsersDataSummary_total m hnn
          rw [ht]
          exact ⟨_, _, rfl, hnn, fun _ _ => rfl, Or.inr rfl⟩
        · rw [if_neg h4]
          exact ⟨_, _, rfl, hnn, fun _ _ => rfl, Or.inr rfl⟩

theorem run_append (m : conversationManager) (xs ys : List Event) :
    run m (xs ++ ys) = (run m xs).bind (fun m1 => run m1 ys) := by
  induction xs generalizing m with
  | nil => rfl
  | cons e rest ih =>
    simp only [List.cons_append, run]
    cases step m e with
    | none => rfl
    | some p => exact ih p.2

/-! ## The invariant of the runs from the empty store -/

theorem newConversationManager_missing :
    newConversationManager { file := .missing, handed := [] } = .ok emptyManager := rfl

theorem sentInChoice_append (evs : List Event) (e : Event) (chatID : Int) (k : String)
    (h : sentInChoice evs chatID k) : sentInChoice (evs ++ [e]) chatID k := by
  obtain ⟨pre, text, io, post, mp, stp, h1, h2, h3, h4, h5⟩ := h
  exact ⟨pre, text, io, post ++ [e], mp, stp, by simp [h1], h2, h3, h4, h5⟩

theorem keyOK_append (evs : List Event) (e : Event) (chatID : Int) (k : String)
    (h : keyOK evs chatID k) : keyOK (evs ++ [e]) chatID k :=
  h.imp id (sentInChoice_append evs e chatID k)

theorem sessionOK_append (evs : List Event) (e : Event) (chatID : Int) (st : userState)
    (h : sessionOK evs chatID st) : sessionOK (evs ++ [e]) chatID st :=
  ⟨h.1.imp id (fun hp => ⟨hp.1, keyOK_append _ _ _ _ hp.2⟩),
    fun k v hkv => ⟨(h.2 k v hkv).1, keyOK_append _ _ _ _ (h.2 k v hkv).2.1, (h.2 k v hkv).2.2⟩⟩

theorem sessionOK_current (evs : List Event) (m : conversationManager) (chatID : Int)
    (h : ∀ st, session m chatID = some st → sessionOK evs chatID st) :
    sessionOK evs chatID (current m chatID) := by
  unfold current
  cases hs : session m chatID with
  | none => exact ⟨Or.inl rfl, fun k v hkv => by simp [dataEntries] at hkv⟩
  | some st => exact h st hs

theorem session_of_current_stage (m : conversationManager) (chatID : Int)
    (h : (current m chatID).Stage = stageTypingKey) :
    session m chatID = some (current m chatID) := by
  unfold current at h ⊢
  cases hs : session m chatID with
  | none => rw [hs] at h; exact absurd h (by decide)
  | some st => rfl

theorem fixedLabels_ne_empty (k : String) (h : k ∈ fixedLabels) : k ≠ "" :=
  fixed_ne_empty k h

theorem sessionOK_messageState (evs : List Event) (chatID : Int) (c : userState)
    (text : String) (io : Bool) (hc : sessionOK evs chatID c)
    (hsent : c.Stage = stageTypingKey →
      sentInChoice (evs ++ [Event.message chatID text io]) chatID (TrimSpace text)) :
    sessionOK (evs ++ [Event.message chatID text io]) chatID (messageState c text) := by
  have hc' := sessionOK_append evs (Event.message chatID text io) chatID c hc
  unfold messageState
  split_ifs with h1 h2 h3 h4 h5 h6 h7
  · exact hc'
  · exact ⟨Or.inr ⟨h2, Or.inr (hsent h1)⟩, hc'.2⟩
  · exact ⟨Or.inl h4, hc'.2⟩
  · refine ⟨Or.inl rfl, fun k v hkv => ?_⟩
    simp only [dataEntries, Option.getD_some] at hkv
    rcases mem_mapSet _ _ _ _ hkv with e | hin
    · cases e
      rcases hc'.1 with hp | hp
      · exact absurd hp h4
      · exact ⟨hp.1, hp.2, TrimSpace_idempotent text⟩
    · exact hc'.2 k v hin
  · exact ⟨hc'.1, hc'.2⟩
  · exact ⟨Or.inl rfl, hc'.2⟩
  · exact ⟨Or.inr ⟨fixedLabels_ne_empty _ h7, Or.inl h7⟩, hc'.2⟩
  · exact hc'

theorem sessionOK_commandState (evs : List Event) (chatID : Int) (c : userState)
    (command : String) (hc : sessionOK evs chatID c) :
    sessionOK evs chatID (commandState c command) := by
  unfold commandState
  split_ifs
  · exact ⟨hc.1, hc.2⟩
  · exact ⟨Or.inl rfl, hc.2⟩
  · exact hc

theorem run_invariant (evs : List Event) :
    ∃ m, run emptyManager evs = some m ∧ runInvariant evs m := by
  induction evs using List.reverseRecOn with
  | nil =>
    refine ⟨emptyManager, rfl, ?_, ?_⟩
    · intro p hp
      simp [emptyManager] at hp
    · intro chatID st hs
      simp [session, emptyManager, mapGet?] at hs
  | append_singleton evs e ih =>
    obtain ⟨m, hrun, hnn, hinv⟩ := ih
    rw [run_append, hrun]
    simp only [Option.some_bind, run]
    cases e with
    | command chatID command io =>
      obtain ⟨r, m', hstep, hnn', hoth, hself⟩ := handleCommand_effect m chatID command io hnn
      simp only [step, hstep]
      refine ⟨m', rfl, hnn', fun id st hs => ?_⟩
      apply sessionOK_append
      by_cases hid : id = chatID
      · subst hid
        rcases hself with h | h
        · rw [h] at hs
          cases hs
          exact sessionOK_commandState evs id _ command (sessionOK_current evs m id (hinv id))
        · rw [h] at hs
          exact hinv id st hs
      · rw [session_eq_of_lookup m m' id (hoth id hid)] at hs
        exact hinv id st hs
    | message chatID text io =>
      obtain ⟨r, m', hstep, hself, hoth, hnn'⟩ :=
        handleMessage_effect m chatID text io (noNil_lookup _ _ hnn)
      simp only [step, hstep]
      refine ⟨m', rfl, hnn' hnn, fun id st hs => ?_⟩
      by_cases hid : id = chatID
      · subst hid
        rw [hself] at hs
        cases hs
        apply sessionOK_messageState evs id _ text io (sessionOK_current evs m id (hinv id))
        intro hstage
        exact ⟨evs, text, io, [], m, current m id, rfl, hrun,
          session_of_current_stage m id hstage, hstage, rfl⟩
      · apply sessionOK_append
        rw [session_eq_of_lookup m m' id (hoth id hid)] at hs
        exact hinv id st hs


/-! ## C8: the integrity of the stored facts -/

/-- C8, as the code has it. Every sequence of commands and messages runs
from the empty store without a failure, and in the state it reaches no id is
bound to a nil state and every stored fact has a key that is a fixed label or
the `TrimSpace` of a text the chat sent while in stage TYPING_CHOICE; the key
is not empty and equals its own `TrimSpace`, and so does the value. -/
theorem C8_data_integrity (evs : List Event) :
    ∃ m, run emptyManager evs = some m ∧ noNil m.states ∧
      ∀ chatID st, session m chatID = some st →
        ∀ k v, (k, v) ∈ dataEntries st.Data →
          (k ∈ fixedLabels ∨ sentInChoice evs chatID k) ∧
          k ≠ "" ∧ TrimSpace k = k ∧ TrimSpace v = v := by
  obtain ⟨m, hrun, hnn, hinv⟩ := run_invariant evs
  refine ⟨m, hrun, hnn, fun chatID st hs k v hkv => ?_⟩
  obtain ⟨hne, hok, hv⟩ := (hinv chatID st hs).2 k v hkv
  refine ⟨hok, hne, ?_, hv⟩
  rcases hok with hf | ⟨_, text, _, _, _, _, _, _, _, _, htrim⟩
  · exact trimSpace_fixed k hf
  · rw [← htrim]
    exact TrimSpace_idempotent text

/-- C8, against the claim. After `start`, "Something else...", the label
" skill " and the value "x", chat 1 holds a fact under the key "skill", which
is no fixed label and is not a text that the chat sent in stage TYPING_CHOICE:
the text sent there was " skill ". -/
theorem C8_key_is_the_trimmed_text :
    (run emptyManager [.command 1 "start" true, .message 1 "Something else..." true,
        .message 1 " skill " true, .message 1 "x" true]).bind (fun m => session m 1) =
      some ⟨"CHOOSING", some [("skill", "x")], ""⟩ ∧
    "skill" ∉ fixedLabels ∧
    ¬ sentVerbatimInChoice [.command 1 "start" true, .message 1 "Something else..." true,
        .message 1 " skill " true, .message 1 "x" true] 1 "skill" := by
  refine ⟨by decide, by decide, ?_⟩
  rintro ⟨pre, io, post, _, _, h, _⟩
  have hmem : Event.message 1 "skill" io ∈
      [Event.command 1 "start" true, .message 1 "Something else..." true,
        .message 1 " skill " true, .message 1 "x" true] := by
    rw [h]; simp
  revert hmem
  cases io <;> decide


/-! ## The handlers as functions of the session state -/

theorem ensureState_eq (m : conversationManager) (chatID : Int)
    (hnil : mapGet? m.states chatID ≠ some none) :
    ensureState m chatID = (some (current m chatID), ensured m chatID) := by
  obtain ⟨m0, he, _⟩ := ensureState_states m chatID hnil
  unfold ensured
  rw [he]

theorem ensureState_nil (m : conversationManager) (chatID : Int)
    (h : mapGet? m.states chatID = some none) : ensureState m chatID = (none, m) := by
  simp [ensureState, h]

theorem session_ensured (m : conversationManager) (chatID : Int)
    (hnil : mapGet? m.states chatID ≠ some none) :
    session (ensured m chatID) chatID = some (current m chatID) := by
  obtain ⟨m0, he, hs, _⟩ := ensureState_states m chatID hnil
  unfold ensured
  rw [he]
  exact hs

theorem ensured_onlyCreated (m : conversationManager) (chatID : Int) :
    onlyCreated m (ensured m chatID) chatID := by
  unfold onlyCreated ensured ensureState
  cases hg : mapGet? m.states chatID with
  | none => exact ⟨rfl, Or.inr ⟨rfl, rfl⟩⟩
  | some p => exact ⟨rfl, Or.inl rfl⟩

theorem ensured_of_present (m : conversationManager) (chatID : Int)
    (h : mapGet? m.states chatID ≠ none) : ensured m chatID = m := by
  unfold ensured ensureState
  cases hg : mapGet? m.states chatID with
  | none => exact absurd hg h
  | some p => rfl

theorem handleMessage_refines (m : conversationManager) (chatID : Int) (text : String)
    (io : Bool) (hnil : mapGet? m.states chatID ≠ some none) :
    handleMessage m chatID text io =
      some (messageResponse (current m chatID) text,
        if messageSaves (current m chatID) text = true then
          saveStateLocked (ensured m chatID) chatID (messageState (current m chatID) text) io
        else ensured m chatID) := by
  have he := ensureState_eq m chatID hnil
  have hs0 := session_ensured m chatID hnil
  generalize current m chatID = c at he hs0
  generalize ensured m chatID = m0 at he hs0
  unfold handleMessage messageState messageResponse messageSaves
  rw [he]
  simp only
  by_cases hk : c.Stage = stageTypingKey
  · simp only [if_pos hk]
    by_cases hempty : TrimSpace text = ""
    · rw [handleTypingKey_empty m0 chatID c text io hs0 hempty]
      simp [hempty]
    · rw [handleTypingKey_label m0 chatID c text io hs0 hempty]
      simp [hempty]
  · simp only [if_neg hk]
    by_cases hr : c.Stage = stageTypingReply
    · simp only [if_pos hr]
      by_cases hp : c.PendingKey = ""
      · rw [handleTypingReply_lost m0 chatID c text io hs0 hp]
        simp [hp]
      · rw [handleTypingReply_pending m0 chatID c text io hs0 hp]
        simp [hp]
    · simp only [if_neg hr]
      by_cases h1 : TrimSpace text = "Something else..."
      · rw [handleChoosing_somethingElse m0 chatID c text io hs0 h1]
        simp [h1]
      · by_cases h2 : TrimSpace text = "Done"
        · rw [handleChoosing_done m0 chatID c text io hs0 h2,
            finishConversation_of_ensure m0 m0 chatID c io
              (ensureState_of_session m0 chatID c hs0)]
          simp [h1, h2]
        · by_cases h3 : TrimSpace text ∈ fixedLabels
          · rw [handleChoosing_fixed m0 chatID c text io hs0 h3]
            simp [h1, h2, h3]
          · rw [handleChoosing_other m0 chatID c text io hs0 h1 h2 h3]
            simp [h1, h2, h3]

theorem handleMessage_nil (m : conversationManager) (chatID : Int) (text : String)
    (io : Bool) (h : mapGet? m.states chatID = some none) :
    handleMessage m chatID text io = none := by
  simp [handleMessage, ensureState_nil m chatID h]


theorem handleCommand_start (m : conversationManager) (chatID : Int) (io : Bool)
    (hnil : mapGet? m.states chatID ≠ some none) :
    handleCommand m chatID "start" io =
      some (⟨greetingText (current m chatID).Data, true, false⟩,
        saveStateLocked (ensured m chatID) chatID
          ⟨stageChoosing, (current m chatID).Data, (current m chatID).PendingKey⟩ io) := by
  simp only [handleCommand, if_true]
  unfold startConversation
  rw [ensureState_eq m chatID hnil]
  rfl

theorem handleCommand_finish (m : conversationManager) (chatID : Int) (command : String)
    (io : Bool) (hnil : mapGet? m.states chatID ≠ some none)
    (hc : command = "cancel" ∨ command = "stop") :
    handleCommand m chatID command io =
      some (⟨"I learned these facts about you:" ++ factsToStr (current m chatID).Data
          ++ "Until next time!", false, true⟩,
        saveStateLocked (ensured m chatID) chatID
          ⟨stageChoosing, (current m chatID).Data, ""⟩ io) := by
  have h1 : command ≠ "start" := by
    rcases hc with rfl | rfl <;> decide
  unfold handleCommand
  rw [if_neg h1, if_pos hc]
  exact finishConversation_of_ensure m _ chatID _ io (ensureState_eq m chatID hnil)

theorem handleCommand_showData (m : conversationManager) (chatID : Int) (io : Bool)
    (hnil : mapGet? m.states chatID ≠ some none) :
    handleCommand m chatID "show_data" io =
      some (⟨"Stored facts:" ++ factsToStr (current m chatID).Data, true, false⟩,
        ensured m chatID) := by
  unfold handleCommand
  rw [if_neg (by decide), if_neg (by decide), if_pos rfl, ensureState_eq m chatID hnil]

theorem handleCommand_showAll (m : conversationManager) (chatID : Int) (io : Bool) :
    handleCommand m chatID "show_all_data" io =
      (allUsersDataSummary m).map (fun text => (⟨text, false, false⟩, m)) := by
  unfold handleCommand
  rw [if_neg (by decide), if_neg (by decide), if_neg (by decide), if_pos rfl]
  cases allUsersDataSummary m <;> rfl

theorem handleCommand_unknown (m : conversationManager) (chatID : Int) (command : String)
    (io : Bool) (h1 : command ≠ "start") (h2 : ¬ (command = "cancel" ∨ command = "stop"))
    (h3 : command ≠ "show_data") (h4 : command ≠ "show_all_data") :
    handleCommand m chatID command io =
      some (⟨"Unknown command. Try /start to begin.", false, false⟩, m) := by
  unfold handleCommand
  rw [if_neg h1, if_neg h2, if_neg h3, if_neg h4]

theorem handleCommand_nil (m : conversationManager) (chatID : Int) (command : String)
    (io : Bool) (h : mapGet? m.states chatID = some none)
    (hc : command = "start" ∨ command = "cancel" ∨ command = "stop" ∨ command = "show_data") :
    handleCommand m chatID command io = none := by
  rcases hc with rfl | rfl | rfl | rfl <;>
    simp [handleCommand, startConversation, finishConversation, ensureState_nil m chatID h]

/-! ## C12: a failed write changes neither the response nor the mapping -/

/-- C12. For every manager, chat, command and text, the call with a failing
`Save` and the call with a successful one either both fail or both return,
with the same response and the same in-memory mapping; on a message that
stores a fact while the write fails, the response confirms the fact, the
mapping holds it and the file is as it was. -/
theorem C12_persist_failure_is_not_fatal (m : conversationManager) (chatID : Int) :
    (∀ command,
      (handleCommand m chatID command false).map (fun p => (p.1, p.2.states)) =
        (handleCommand m chatID command true).map (fun p => (p.1, p.2.states))) ∧
    (∀ text,
      (handleMessage m chatID text false).map (fun p => (p.1, p.2.states)) =
        (handleMessage m chatID text true).map (fun p => (p.1, p.2.states))) ∧
    handleMessage ⟨[(3, some ⟨"TYPING_REPLY", some [], "Age"⟩)], ⟨.missing, []⟩⟩ 3 "21" false =
      some (⟨"Saved Age. What would you like to do next?", true, false⟩,
        ⟨[(3, some ⟨"CHOOSING", some [("Age", "21")], ""⟩)],
          ⟨.missing, [[(3, some ⟨"CHOOSING", some [("Age", "21")], ""⟩)]]⟩⟩) := by
  refine ⟨fun command => ?_, fun text => ?_, by decide⟩
  · by_cases hnil : mapGet? m.states chatID = some none
    · by_cases hc : command = "start" ∨ command = "cancel" ∨ command = "stop" ∨
          command = "show_data"
      · rw [handleCommand_nil m chatID command false hnil hc,
          handleCommand_nil m chatID command true hnil hc]
      · simp only [not_or] at hc
        by_cases h4 : command = "show_all_data"
        · subst h4
          rw [handleCommand_showAll, handleCommand_showAll]
        · rw [handleCommand_unknown m chatID command false hc.1 (not_or.2 ⟨hc.2.1, hc.2.2.1⟩)
              hc.2.2.2 h4,
            handleCommand_unknown m chatID command true hc.1 (not_or.2 ⟨hc.2.1, hc.2.2.1⟩)
              hc.2.2.2 h4]
    · by_cases h1 : command = "start"
      · subst h1
        rw [handleCommand_start m chatID false hnil, handleCommand_start m chatID true hnil]
        rfl
      · by_cases h2 : command = "cancel" ∨ command = "stop"
        · rw [handleCommand_finish m chatID command false hnil h2,
            handleCommand_finish m chatID command true hnil h2]
          rfl
        · by_cases h3 : command = "show_data"
          · subst h3
            rw [handleCommand_showData m chatID false hnil,
              handleCommand_showData m chatID true hnil]
          · by_cases h4 : command = "show_all_data"
            · subst h4
              rw [handleCommand_showAll, handleCommand_showAll]
            · rw [handleCommand_unknown m chatID command false h1 h2 h3 h4,
                handleCommand_unknown m chatID command true h1 h2 h3 h4]
  · by_cases hnil : mapGet? m.states chatID = some none
    · rw [handleMessage_nil m chatID text false hnil, handleMessage_nil m chatID text true hnil]
    · rw [handleMessage_refines m chatID text false hnil,
        handleMessage_refines m chatID text true hnil]
      by_cases hsave : messageSaves (current m chatID) text = true
      · simp only [hsave, if_true]
        rfl
      · simp only [hsave]
        rfl


/-! ## C11: which calls reach `Save` -/

theorem persisted_saveStateLocked (m : conversationManager) (chatID : Int) (st : userState)
    (io : Bool) : persisted m (saveStateLocked (ensured m chatID) chatID st io) io := by
  have hstore : (ensured m chatID).store = m.store := (ensured_onlyCreated m chatID).1
  unfold persisted saveStateLocked Save
  cases io <;> simp [hstore]

/-- C11, as the code has it. On a mapping without nil states every command
and every message returns, and either `Save` was called once with the whole
resulting mapping (which the file then holds when the write succeeds), or
`Save` was not called, the store is untouched and the mapping is as before or
has only gained the fresh session of a chat that had none. -/
theorem C11_changes_are_persisted (m : conversationManager) (chatID : Int)
    (hnn : noNil m.states) :
    (∀ command io, ∃ r m', handleCommand m chatID command io = some (r, m') ∧
      (persisted m m' io ∨ onlyCreated m m' chatID)) ∧
    (∀ text io, ∃ r m', handleMessage m chatID text io = some (r, m') ∧
      (persisted m m' io ∨ onlyCreated m m' chatID)) := by
  have hnil := noNil_lookup m.states chatID hnn
  refine ⟨fun command io => ?_, fun text io => ?_⟩
  · by_cases h1 : command = "start"
    · subst h1
      exact ⟨_, _, handleCommand_start m chatID io hnil,
        Or.inl (persisted_saveStateLocked m chatID _ io)⟩
    · by_cases h2 : command = "cancel" ∨ command = "stop"
      · exact ⟨_, _, handleCommand_finish m chatID command io hnil h2,
          Or.inl (persisted_saveStateLocked m chatID _ io)⟩
      · by_cases h3 : command = "show_data"
        · subst h3
          exact ⟨_, _, handleCommand_showData m chatID io hnil,
            Or.inr (ensured_onlyCreated m chatID)⟩
        · by_cases h4 : command = "show_all_data"
          · subst h4
            obtain ⟨text, ht⟩ := allUsersDataSummary_total m hnn
            exact ⟨⟨text, false, false⟩, m, by rw [handleCommand_showAll, ht]; rfl,
              Or.inr ⟨rfl, Or.inl rfl⟩⟩
          · exact ⟨_, _, handleCommand_unknown m chatID command io h1 h2 h3 h4,
              Or.inr ⟨rfl, Or.inl rfl⟩⟩
  · refine ⟨_, _, handleMessage_refines m chatID text io hnil, ?_⟩
    by_cases hsave : messageSaves (current m chatID) text = true
    · rw [if_pos hsave]
      exact Or.inl (persisted_saveStateLocked m chatID _ io)
    · rw [if_neg hsave]
      exact Or.inr (ensured_onlyCreated m chatID)

/-- C11 on one stored session: a message from another chat that matches no
option, and a `start` whose write fails. -/
theorem C11_changes_are_persisted_witness :
    (∀ command io, ∃ r m',
      handleCommand ⟨[(1, some ⟨"CHOOSING", some [("Age", "3")], ""⟩)], ⟨.missing, []⟩⟩ 2
        command io = some (r, m') ∧
      (persisted ⟨[(1, some ⟨"CHOOSING", some [("Age", "3")], ""⟩)], ⟨.missing, []⟩⟩ m' io ∨
        onlyCreated ⟨[(1, some ⟨"CHOOSING", some [("Age", "3")], ""⟩)], ⟨.missing, []⟩⟩ m' 2)) ∧
    (∀ text io, ∃ r m',
      handleMessage ⟨[(1, some ⟨"CHOOSING", some [("Age", "3")], ""⟩)], ⟨.missing, []⟩⟩ 2
        text io = some (r, m') ∧
      (persisted ⟨[(1, some ⟨"CHOOSING", some [("Age", "3")], ""⟩)], ⟨.missing, []⟩⟩ m' io ∨
        onlyCreated ⟨[(1, some ⟨"CHOOSING", some [("Age", "3")], ""⟩)], ⟨.missing, []⟩⟩ m' 2)) :=
  C11_changes_are_persisted
    ⟨[(1, some ⟨"CHOOSING", some [("Age", "3")], ""⟩)], ⟨.missing, []⟩⟩ 2 (by decide)

/-- C11, against the claim. From the empty store with writes that succeed,
`show_data` for chat 1 creates the session of chat 1 in memory and hands
nothing to `Save`: no snapshot was taken and the file still does not exist. -/
theorem C11_lazy_creation_is_not_saved :
    emptyManager.states = [] ∧
    handleCommand emptyManager 1 "show_data" true =
      some (⟨"Stored facts:\n(nothing yet)\n", true, false⟩,
        ⟨[(1, some ⟨"CHOOSING", some [], ""⟩)], ⟨.missing, []⟩⟩) ∧
    handleMessage emptyManager 1 "hello" true =
      some (⟨"Please choose one of the options on the keyboard.", true, false⟩,
        ⟨[(1, some ⟨"CHOOSING", some [], ""⟩)], ⟨.missing, []⟩⟩) := by
  decide

/-! ## C13: what `show_data` changes -/

/-- C13, as the code has it. For a chat whose stored pointer is not nil,
`show_data` returns and never reaches `Save`; when the chat has a session the
manager is exactly as before, and so is the text of a following
`show_all_data`; when the chat has none, the mapping gains the fresh session of
that chat and every other entry is as before. -/
theorem C13_show_data_effect (m : conversationManager) (chatID : Int) (io : Bool)
    (hnil : mapGet? m.states chatID ≠ some none) :
    ∃ r m', handleCommand m chatID "show_data" io = some (r, m') ∧
      m'.store = m.store ∧
      (mapGet? m.states chatID ≠ none →
        m' = m ∧ ∀ other io', handleCommand m' other "show_all_data" io' =
          handleCommand m other "show_all_data" io') ∧
      (mapGet? m.states chatID = none →
        m'.states = mapSet m.states chatID (some freshState) ∧
        ∀ other, other ≠ chatID → mapGet? m'.states other = mapGet? m.states other) := by
  refine ⟨_, _, handleCommand_showData m chatID io hnil, (ensured_onlyCreated m chatID).1,
    fun hpresent => ?_, fun habsent => ?_⟩
  · rw [ensured_of_present m chatID hpresent]
    exact ⟨rfl, fun _ _ => rfl⟩
  · rcases (ensured_onlyCreated m chatID).2 with h | ⟨_, h⟩
    · have hs := session_ensured m chatID hnil
      simp [session, h, habsent] at hs
    · exact ⟨h, fun other hne => by rw [h]; exact mapGet?_mapSet_ne _ _ _ _ hne⟩

/-- C13 on a manager that holds chat 1: asked by chat 1 and by chat 2. -/
theorem C13_show_data_effect_witness :
    (∃ r m', handleCommand ⟨[(1, some ⟨"TYPING_REPLY", some [("Age", "3")], "Age"⟩)],
          ⟨.missing, []⟩⟩ 1 "show_data" true = some (r, m') ∧
        m' = ⟨[(1, some ⟨"TYPING_REPLY", some [("Age", "3")], "Age"⟩)], ⟨.missing, []⟩⟩) ∧
    (∃ r m', handleCommand ⟨[(1, some ⟨"TYPING_REPLY", some [("Age", "3")], "Age"⟩)],
          ⟨.missing, []⟩⟩ 2 "show_data" true = some (r, m') ∧
        m'.states = [(1, some ⟨"TYPING_REPLY", some [("Age", "3")], "Age"⟩),
          (2, some ⟨"CHOOSING", some [], ""⟩)]) := by
  obtain ⟨r1, m1, h1, _, hp1, _⟩ := C13_show_data_effect
    ⟨[(1, some ⟨"TYPING_REPLY", some [("Age", "3")], "Age"⟩)], ⟨.missing, []⟩⟩ 1 true
    (by decide)
  obtain ⟨r2, m2, h2, _, _, ha2⟩ := C13_show_data_effect
    ⟨[(1, some ⟨"TYPING_REPLY", some [("Age", "3")], "Age"⟩)], ⟨.missing, []⟩⟩ 2 true
    (by decide)
  exact ⟨⟨r1, m1, h1, (hp1 (by decide)).1⟩, ⟨r2, m2, h2, (ha2 (by decide)).1⟩⟩

/-- C13, against the claim. On the empty mapping, `show_data` for the
never-seen chat 1 changes the mapping, and `show_all_data` answers differently
before and after it. -/
theorem C13_show_data_creates_a_session :
    (handleCommand emptyManager 1 "show_data" true).map (fun p => p.2.states) =
      some [(1, some ⟨"CHOOSING", some [], ""⟩)] ∧
    (handleCommand emptyManager 1 "show_all_data" true).map (fun p => p.1.Text) =
      some "All saved data:\n(nothing yet)\n" ∧
    ((handleCommand emptyManager 1 "show_data" true).bind
      (fun p => handleCommand p.2 1 "show_all_data" true)).map (fun p => p.1.Text) =
      some "All saved data:\nUser 1:\n(nothing yet)\n" := by
  decide

/-! ## C14: `show_data` twice -/

theorem current_of_session (m : conversationManager) (chatID : Int) (st : userState)
    (h : session m chatID = some st) : current m chatID = st := by
  simp [current, h]

/-- C14. For a chat whose stored pointer is not nil, two `show_data` calls in
a row both return the same response and leave the same manager; the session is
the one the chat had before the first call (stage, data and pending key), the
text is the heading and the facts listing, one line per label in ascending
order, every stored fact occurs in it, and the keyboard is asked for. -/
theorem C14_show_data_twice (m : conversationManager) (chatID : Int) (io1 io2 : Bool)
    (hnil : mapGet? m.states chatID ≠ some none) :
    ∃ r m1,
      handleCommand m chatID "show_data" io1 = some (r, m1) ∧
      handleCommand m1 chatID "show_data" io2 = some (r, m1) ∧
      session m1 chatID = some (current m chatID) ∧
      (∀ st, session m chatID = some st → session m1 chatID = some st) ∧
      r.WithKeyboard = true ∧
      (∃ facts, listsFacts (current m chatID).Data facts ∧ r.Text = "Stored facts:" ++ facts) ∧
      ((mapKeys (dataEntries (current m chatID).Data)).Nodup →
        ∀ k v, (k, v) ∈ dataEntries (current m chatID).Data →
          Contains r.Text (k ++ " - " ++ v)) := by
  have hs1 := session_ensured m chatID hnil
  have hnil1 : mapGet? (ensured m chatID).states chatID ≠ some none := by
    intro h
    simp [session, h] at hs1
  have hpres : mapGet? (ensured m chatID).states chatID ≠ none := by
    intro h
    simp [session, h] at hs1
  refine ⟨⟨"Stored facts:" ++ factsToStr (current m chatID).Data, true, false⟩,
    ensured m chatID, handleCommand_showData m chatID io1 hnil, ?_, hs1, ?_, rfl,
    ⟨_, factsToStr_listsFacts _, rfl⟩, ?_⟩
  · rw [handleCommand_showData (ensured m chatID) chatID io2 hnil1,
      current_of_session _ _ _ hs1, ensured_of_present _ _ hpres]
  · intro st hst
    rw [hs1, current_of_session m chatID st hst]
  · intro hnd k v hmem
    apply contains_append_right
    exact factsToStr_contains _ k v hnd hmem

/-- C14 on a session in TYPING_REPLY with two facts. -/
theorem C14_show_data_twice_witness :
    ∃ r m1,
      handleCommand ⟨[(8, some ⟨"TYPING_REPLY", some [("Skill", "Calm"), ("Age", "21")], "Age"⟩)],
        ⟨.missing, []⟩⟩ 8 "show_data" true = some (r, m1) ∧
      handleCommand m1 8 "show_data" false = some (r, m1) ∧
      session m1 8 = some ⟨"TYPING_REPLY", some [("Skill", "Calm"), ("Age", "21")], "Age"⟩ ∧
      r = ⟨"Stored facts:\nAge - 21\nSkill - Calm\n", true, false⟩ := by
  obtain ⟨r, m1, h1, h2, h3, _⟩ := C14_show_data_twice
    ⟨[(8, some ⟨"TYPING_REPLY", some [("Skill", "Calm"), ("Age", "21")], "Age"⟩)],
      ⟨.missing, []⟩⟩ 8 true false (by decide)
  refine ⟨r, m1, h1, h2, h3, ?_⟩
  have e : handleCommand
      ⟨[(8, some ⟨"TYPING_REPLY", some [("Skill", "Calm"), ("Age", "21")], "Age"⟩)],
        ⟨.missing, []⟩⟩ 8 "show_data" true =
      some (⟨"Stored facts:\nAge - 21\nSkill - Calm\n", true, false⟩,
        ⟨[(8, some ⟨"TYPING_REPLY", some [("Skill", "Calm"), ("Age", "21")], "Age"⟩)],
          ⟨.missing, []⟩⟩) := by
    decide
  rw [e] at h1
  exact (congrArg Prod.fst (Option.some.inj h1)).symm


/-! ## C15: exact matching of the labels in stage CHOOSING -/

theorem lookup_of_session (m : conversationManager) (chatID : Int) (st : userState)
    (h : session m chatID = some st) : mapGet? m.states chatID = some (some st) := by
  unfold session at h
  cases hg : mapGet? m.states chatID with
  | none => simp [hg] at h
  | some p =>
    cases p with
    | none => simp [hg] at h
    | some s => simp [hg] at h; rw [h]

/-- C15. For a session in stage CHOOSING and any text `t`, the message
returns and the session ends in TYPING_REPLY exactly when `TrimSpace t` is one
of the three fixed labels, the pending key then being that label; "Done"
resets to CHOOSING with an empty pending key and "Something else..." moves to
TYPING_CHOICE with the pending key untouched, so neither becomes the pending
key; and when `TrimSpace t` is none of the five options the manager is
unchanged and the response asks for the keyboard. -/
theorem C15_exact_label_matching (m : conversationManager) (chatID : Int) (st : userState)
    (t : String) (io : Bool)
    (hs : session m chatID = some st) (hstage : st.Stage = stageChoosing) :
    ∃ r m' st',
      handleMessage m chatID t io = some (r, m') ∧ session m' chatID = some st' ∧
      (st'.Stage = stageTypingReply ↔
        TrimSpace t ∈ ["Age", "Favourite colour", "Number of siblings"]) ∧
      (st'.Stage = stageTypingReply → st'.PendingKey = TrimSpace t ∧
        st'.PendingKey ≠ "Done" ∧ st'.PendingKey ≠ "Something else...") ∧
      (TrimSpace t = "Done" → st' = ⟨stageChoosing, st.Data, ""⟩) ∧
      (TrimSpace t = "Something else..." → st' = ⟨stageTypingKey, st.Data, st.PendingKey⟩) ∧
      (TrimSpace t ∉ mainKeyboardOptions → st' = st ∧ m' = m ∧ r.WithKeyboard = true) := by
  have hlook := lookup_of_session m chatID st hs
  have hnil : mapGet? m.states chatID ≠ some none := by rw [hlook]; simp
  have hens : ensured m chatID = m := ensured_of_present m chatID (by rw [hlook]; simp)
  have hcur := current_of_session m chatID st hs
  have href := handleMessage_refines m chatID t io hnil
  rw [hcur, hens] at href
  have hk : st.Stage ≠ stageTypingKey := by rw [hstage]; decide
  have hr : st.Stage ≠ stageTypingReply := by rw [hstage]; decide
  have hfix : fixedLabels = ["Age", "Favourite colour", "Number of siblings"] := rfl
  have n1 : stageTypingKey ≠ stageTypingReply := by decide
  have n2 : stageChoosing ≠ stageTypingReply := by decide
  by_cases h1 : TrimSpace t = "Something else..."
  · have hst : messageState st t = ⟨stageTypingKey, st.Data, st.PendingKey⟩ := by
      simp [messageState, hk, hr, h1]
    have hsv : messageSaves st t = true := by simp [messageSaves, hk, hr, h1]
    rw [hst, hsv, if_pos rfl] at href
    refine ⟨_, _, _, href, session_saveStateLocked _ _ _ _, ?_, ?_, ?_, fun _ => rfl, ?_⟩
    · rw [h1]
      constructor
      · intro h; exact absurd h n1
      · intro h; exact absurd h (by decide)
    · intro h; exact absurd h n1
    · intro h; rw [h1] at h; exact absurd h (by decide)
    · intro h; rw [h1] at h; exact absurd (by decide) h
  · by_cases h2 : TrimSpace t = "Done"
    · have hst : messageState st t = ⟨stageChoosing, st.Data, ""⟩ := by
        simp [messageState, hk, hr, h1, h2]
      have hsv : messageSaves st t = true := by simp [messageSaves, hk, hr, h2]
      rw [hst, hsv, if_pos rfl] at href
      refine ⟨_, _, _, href, session_saveStateLocked _ _ _ _, ?_, ?_, fun _ => rfl, ?_, ?_⟩
      · rw [h2]
        constructor
        · intro h; exact absurd h n2
        · intro h; exact absurd h (by decide)
      · intro h; exact absurd h n2
      · intro h; exact absurd h h1
      · intro h; rw [h2] at h; exact absurd (by decide) h
    · by_cases h3 : TrimSpace t ∈ fixedLabels
      · have hst : messageState st t = ⟨stageTypingReply, st.Data, TrimSpace t⟩ := by
          simp [messageState, hk, hr, h1, h2, h3]
        have hsv : messageSaves st t = true := by simp [messageSaves, hk, hr, h3]
        rw [hst, hsv, if_pos rfl] at href
        refine ⟨_, _, _, href, session_saveStateLocked _ _ _ _, ?_, ?_, ?_, ?_, ?_⟩
        · exact ⟨fun _ => h3, fun _ => rfl⟩
        · exact fun _ => ⟨rfl, h2, h1⟩
        · intro h; exact absurd h h2
        · intro h; exact absurd h h1
        · intro h
          refine absurd ?_ h
          simp only [fixedLabels, List.mem_cons, List.mem_singleton, List.not_mem_nil,
            or_false] at h3
          simp only [mainKeyboardOptions, List.mem_cons, List.mem_singleton,
            List.not_mem_nil, or_false]
          tauto
      · have hst : messageState st t = st := by
          simp [messageState, hk, hr, h1, h2, h3]
        have hsv : messageSaves st t = false := by simp [messageSaves, hk, hr, h1, h2, h3]
        have hresp : messageResponse st t =
            ⟨"Please choose one of the options on the keyboard.", true, false⟩ := by
          simp [messageResponse, hk, hr, h1, h2, h3]
        rw [hsv, hresp] at href
        simp only [Bool.false_eq_true, if_false] at href
        refine ⟨_, _, st, href, hs, ?_, ?_, ?_, ?_, fun _ => ⟨rfl, rfl, rfl⟩⟩
        · rw [← hfix]
          exact ⟨fun h => absurd h hr, fun h => absurd h h3⟩
        · intro h; exact absurd h hr
        · intro h; exact absurd h h2
        · intro h; exact absurd h h1

/-- C15 on the text "age", which differs from the label "Age" by case only. -/
theorem C15_exact_label_matching_witness :
    ∃ r m' st',
      handleMessage ⟨[(4, some ⟨"CHOOSING", some [], ""⟩)], ⟨.missing, []⟩⟩ 4 "age" true =
        some (r, m') ∧
      session m' 4 = some st' ∧
      st'.Stage ≠ stageTypingReply ∧
      st' = ⟨"CHOOSING", some [], ""⟩ ∧
      m' = ⟨[(4, some ⟨"CHOOSING", some [], ""⟩)], ⟨.missing, []⟩⟩ ∧
      r.WithKeyboard = true := by
  obtain ⟨r, m', st', h1, h2, h3, _, _, _, h7⟩ := C15_exact_label_matching
    ⟨[(4, some ⟨"CHOOSING", some [], ""⟩)], ⟨.missing, []⟩⟩ 4 ⟨"CHOOSING", some [], ""⟩
    "age" true (by decide) (by decide)
  obtain ⟨e1, e2, e3⟩ := h7 (by decide)
  exact ⟨r, m', st', h1, h2, fun h => absurd (h3.1 h) (by decide), e1, e2, e3⟩


/-! ## Session properties kept by every run from the empty store -/

theorem current_fresh_or_session (m : conversationManager) (chatID : Int) :
    current m chatID = freshState ∨ session m chatID = some (current m chatID) := by
  unfold current
  cases session m chatID with
  | none => exact Or.inl rfl
  | some st => exact Or.inr rfl

theorem run_sessions (P : userState → Prop) (hfresh : P freshState)
    (hmsg : ∀ c text, P c → P (messageState c text))
    (hcmd : ∀ c command, P c → P (commandState c command)) (evs : List Event) :
    ∃ m, run emptyManager evs = some m ∧ noNil m.states ∧
      ∀ chatID st, session m chatID = some st → P st := by
  induction evs using List.reverseRecOn with
  | nil =>
    refine ⟨emptyManager, rfl, ?_, ?_⟩
    · intro p hp
      simp [emptyManager] at hp
    · intro chatID st hs
      simp [session, emptyManager, mapGet?] at hs
  | append_singleton evs e ih =>
    obtain ⟨m, hrun, hnn, hinv⟩ := ih
    have hcur : ∀ id, P (current m id) := by
      intro id
      rcases current_fresh_or_session m id with h | h
      · rw [h]; exact hfresh
      · exact hinv id _ h
    rw [run_append, hrun]
    simp only [Option.some_bind, run]
    cases e with
    | command chatID command io =>
      obtain ⟨r, m', hstep, hnn', hoth, hself⟩ := handleCommand_effect m chatID command io hnn
      simp only [step, hstep]
      refine ⟨m', rfl, hnn', fun id st hs => ?_⟩
      by_cases hid : id = chatID
      · subst hid
        rcases hself with h | h
        · rw [h] at hs
          cases hs
          exact hcmd _ command (hcur id)
        · rw [h] at hs
          exact hinv id st hs
      · rw [session_eq_of_lookup m m' id (hoth id hid)] at hs
        exact hinv id st hs
    | message chatID text io =>
      obtain ⟨r, m', hstep, hself, hoth, hnn'⟩ :=
        handleMessage_effect m chatID text io (noNil_lookup _ _ hnn)
      simp only [step, hstep]
      refine ⟨m', rfl, hnn' hnn, fun id st hs => ?_⟩
      by_cases hid : id = chatID
      · subst hid
        rw [hself] at hs
        cases hs
        exact hmsg _ text (hcur id)
      · rw [session_eq_of_lookup m m' id (hoth id hid)] at hs
        exact hinv id st hs

/-! ## C17: the lost-track branch is not reached from the empty store -/

theorem typingReply_pending_messageState (c : userState) (text : String)
    (h : c.Stage = stageTypingReply → c.PendingKey ≠ "") :
    (messageState c text).Stage = stageTypingReply → (messageState c text).PendingKey ≠ "" := by
  have n1 : stageTypingKey ≠ stageTypingReply := by decide
  have n2 : stageChoosing ≠ stageTypingReply := by decide
  unfold messageState
  split_ifs with h1 h2 h3 h4 h5 h6 h7
  · exact h
  · exact fun _ => h2
  · exact fun e => absurd e n2
  · exact fun e => absurd e n2
  · exact fun e => absurd e n1
  · exact fun e => absurd e n2
  · exact fun _ => fixedLabels_ne_empty _ h7
  · exact h

theorem typingReply_pending_commandState (c : userState) (command : String)
    (h : c.Stage = stageTypingReply → c.PendingKey ≠ "") :
    (commandState c command).Stage = stageTypingReply →
      (commandState c command).PendingKey ≠ "" := by
  have n2 : stageChoosing ≠ stageTypingReply := by decide
  unfold commandState
  split_ifs
  · exact fun e => absurd e n2
  · exact fun e => absurd e n2
  · exact h

/-- C17. Every sequence of commands and messages runs from the empty store,
and in the state it reaches every session in stage TYPING_REPLY has a pending
key that is not empty; any message such a session then receives goes through
`handleTypingReply`, is answered with the "Saved" text and not with the
"lost track" one, and is stored, trimmed, under the pending key. -/
theorem C17_typing_reply_has_a_pending_key (evs : List Event) :
    ∃ m, run emptyManager evs = some m ∧
      ∀ chatID st, session m chatID = some st → st.Stage = stageTypingReply →
        st.PendingKey ≠ "" ∧
        ∀ text io, ∃ m',
          handleTypingReply m chatID text io =
            some (⟨"Saved " ++ st.PendingKey ++ ". What would you like to do next?",
              true, false⟩, m') ∧
          handleMessage m chatID text io = handleTypingReply m chatID text io ∧
          session m' chatID =
            some ⟨stageChoosing,
              some (mapSet (dataEntries st.Data) st.PendingKey (TrimSpace text)), ""⟩ := by
  obtain ⟨m, hrun, _, hinv⟩ := run_sessions
    (fun st => st.Stage = stageTypingReply → st.PendingKey ≠ "")
    (fun e => absurd e (by decide)) typingReply_pending_messageState
    typingReply_pending_commandState evs
  refine ⟨m, hrun, fun chatID st hs hstage => ⟨hinv chatID st hs hstage, fun text io => ?_⟩⟩
  exact ⟨_, handleTypingReply_pending m chatID st text io hs (hinv chatID st hs hstage),
    handleMessage_typingReply m chatID st text io hs hstage,
    session_saveStateLocked _ _ _ _⟩

/-! ## C18: the sessions of other chats -/

/-- C18. On a mapping without nil states, every message and every command of
chat `a` returns and leaves the session of any other chat `b` that is present
exactly as it was: same stage, data and pending key, and still present. -/
theorem C18_session_isolation (m : conversationManager) (a b : Int) (stb : userState)
    (hnn : noNil m.states) (hne : b ≠ a) (hb : session m b = some stb) :
    (∀ text io, ∃ r m', handleMessage m a text io = some (r, m') ∧
      session m' b = some stb ∧ mapGet? m'.states b = mapGet? m.states b) ∧
    (∀ command io, ∃ r m', handleCommand m a command io = some (r, m') ∧
      session m' b = some stb ∧ mapGet? m'.states b = mapGet? m.states b) := by
  refine ⟨fun text io => ?_, fun command io => ?_⟩
  · obtain ⟨r, m', h, _, hoth, _⟩ := handleMessage_effect m a text io (noNil_lookup _ _ hnn)
    exact ⟨r, m', h, by rw [session_eq_of_lookup m m' b (hoth b hne)]; exact hb, hoth b hne⟩
  · obtain ⟨r, m', h, _, hoth, _⟩ := handleCommand_effect m a command io hnn
    exact ⟨r, m', h, by rw [session_eq_of_lookup m m' b (hoth b hne)]; exact hb, hoth b hne⟩

/-- C18 on two stored chats, with chat 1 acting and chat 2 in TYPING_REPLY. -/
theorem C18_session_isolation_witness :
    (∀ text io, ∃ r m',
      handleMessage ⟨[(1, some ⟨"TYPING_REPLY", some [], "Age"⟩),
          (2, some ⟨"TYPING_REPLY", some [("Age", "5")], "Skill"⟩)], ⟨.missing, []⟩⟩
        1 text io = some (r, m') ∧
      session m' 2 = some ⟨"TYPING_REPLY", some [("Age", "5")], "Skill"⟩ ∧
      mapGet? m'.states 2 = mapGet?
        [(1, some (userState.mk "TYPING_REPLY" (some []) "Age")),
          (2, some ⟨"TYPING_REPLY", some [("Age", "5")], "Skill"⟩)] 2) ∧
    (∀ command io, ∃ r m',
      handleCommand ⟨[(1, some ⟨"TYPING_REPLY", some [], "Age"⟩),
          (2, some ⟨"TYPING_REPLY", some [("Age", "5")], "Skill"⟩)], ⟨.missing, []⟩⟩
        1 command io = some (r, m') ∧
      session m' 2 = some ⟨"TYPING_REPLY", some [("Age", "5")], "Skill"⟩ ∧
      mapGet? m'.states 2 = mapGet?
        [(1, some (userState.mk "TYPING_REPLY" (some []) "Age")),
          (2, some ⟨"TYPING_REPLY", some [("Age", "5")], "Skill"⟩)] 2) :=
  C18_session_isolation
    ⟨[(1, some ⟨"TYPING_REPLY", some [], "Age"⟩),
      (2, some ⟨"TYPING_REPLY", some [("Age", "5")], "Skill"⟩)], ⟨.missing, []⟩⟩
    1 2 ⟨"TYPING_REPLY", some [("Age", "5")], "Skill"⟩ (by decide) (by decide) (by decide)

/-! ## C19: a null entry of the file -/

/-- C19. The file `{"1": null}` decodes and `Load` accepts it, binding id 1
to a nil state; a manager built on it fails on a message or a command of chat
1 and on `show_all_data` from any chat. -/
theorem C19_null_entry_is_loaded_as_nil :
    Load ⟨.parsed [("1", none)], []⟩ = .ok [(1, none)] ∧
    newConversationManager ⟨.parsed [("1", none)], []⟩ =
      .ok ⟨[(1, none)], ⟨.parsed [("1", none)], []⟩⟩ ∧
    handleMessage ⟨[(1, none)], ⟨.parsed [("1", none)], []⟩⟩ 1 "Age" true = none ∧
    handleCommand ⟨[(1, none)], ⟨.parsed [("1", none)], []⟩⟩ 1 "start" true = none ∧
    handleCommand ⟨[(1, none)], ⟨.parsed [("1", none)], []⟩⟩ 2 "show_all_data" true = none ∧
    allUsersDataSummary ⟨[(1, none)], ⟨.parsed [("1", none)], []⟩⟩ = none := by
  refine ⟨rfl, rfl, ?_, ?_, ?_, ?_⟩ <;> decide


/-! ## C20: decoding of the keys -/

theorem mem_mapKeys_decodedEntries (encoded : List (String × Option userState)) (n : Int) :
    n ∈ mapKeys (decodedEntries encoded) ↔ ∃ k ∈ mapKeys encoded, ParseInt k = some n := by
  induction encoded with
  | nil => simp [decodedEntries, mapKeys]
  | cons p rest ih =>
    obtain ⟨k, v⟩ := p
    have hcons : decodedEntries ((k, v) :: rest) =
        (match ParseInt k with
          | some id => (id, v) :: decodedEntries rest
          | none => decodedEntries rest) := by
      simp only [decodedEntries, List.filterMap_cons]
      cases ParseInt k <;> rfl
    rw [hcons, mapKeys_cons]
    cases hp : ParseInt k with
    | none =>
      simp only [ih, List.mem_cons, exists_eq_or_imp, hp]
      simp
    | some id =>
      simp only [mapKeys_cons, List.mem_cons, ih, exists_eq_or_imp, hp, Option.some.injEq]
      constructor
      · rintro (h | h)
        · exact Or.inl h.symm
        · exact Or.inr h
      · rintro (h | h)
        · exact Or.inl h.symm
        · exact Or.inr h

theorem nodup_mapKeys_loadLoop (encoded : List (String × Option userState)) (acc : States)
    (h : (mapKeys acc).Nodup) : (mapKeys (loadLoop encoded acc)).Nodup := by
  induction encoded generalizing acc with
  | nil => exact h
  | cons p rest ih =>
    obtain ⟨k, v⟩ := p
    unfold loadLoop
    cases ParseInt k with
    | none => exact ih acc h
    | some id => exact ih _ (nodup_mapKeys_mapSet _ _ _ h)

theorem decoded_not_nodup (encoded : List (String × Option userState)) (k1 k2 : String)
    (n : Int) (hk : (mapKeys encoded).Nodup)
    (h1 : k1 ∈ mapKeys encoded) (h2 : k2 ∈ mapKeys encoded) (hne : k1 ≠ k2)
    (p1 : ParseInt k1 = some n) (p2 : ParseInt k2 = some n) :
    ¬ (mapKeys (decodedEntries encoded)).Nodup := by
  induction encoded with
  | nil => simp [mapKeys] at h1
  | cons p rest ih =>
    obtain ⟨k, v⟩ := p
    intro hnd
    have hcons : decodedEntries ((k, v) :: rest) =
        (match ParseInt k with
          | some id => (id, v) :: decodedEntries rest
          | none => decodedEntries rest) := by
      simp only [decodedEntries, List.filterMap_cons]
      cases ParseInt k <;> rfl
    rw [mapKeys_cons, List.nodup_cons] at hk
    rw [mapKeys_cons, List.mem_cons] at h1 h2
    rw [hcons] at hnd
    have hin : ∀ k', k' ∈ mapKeys rest → ParseInt k' = some n →
        n ∈ mapKeys (decodedEntries rest) := fun k' hk' hp' =>
      (mem_mapKeys_decodedEntries rest n).2 ⟨k', hk', hp'⟩
    rcases h1 with e1 | r1 <;> rcases h2 with e2 | r2
    · exact hne (e1.trans e2.symm)
    · have e1' : k = k1 := e1.symm
      rw [e1', p1] at hnd
      simp only [mapKeys_cons, List.nodup_cons] at hnd
      exact hnd.1 (hin k2 r2 p2)
    · have e2' : k = k2 := e2.symm
      rw [e2', p2] at hnd
      simp only [mapKeys_cons, List.nodup_cons] at hnd
      exact hnd.1 (hin k1 r1 p1)
    · have hrest : (mapKeys (decodedEntries rest)).Nodup := by
        cases hp : ParseInt k with
        | none => rw [hp] at hnd; exact hnd
        | some id =>
          rw [hp] at hnd
          simp only [mapKeys_cons, List.nodup_cons] at hnd
          exact hnd.2
      exact ih hk.2 r1 r2 hrest

theorem loadLoop_fewer (encoded : List (String × Option userState)) (k1 k2 : String)
    (n : Int) (hk : (mapKeys encoded).Nodup)
    (h1 : k1 ∈ mapKeys encoded) (h2 : k2 ∈ mapKeys encoded) (hne : k1 ≠ k2)
    (p1 : ParseInt k1 = some n) (p2 : ParseInt k2 = some n) :
    (loadLoop encoded []).length < (decodedEntries encoded).length := by
  have hnd : (mapKeys (loadLoop encoded [])).Nodup :=
    nodup_mapKeys_loadLoop encoded [] (by simp [mapKeys])
  have hsub : mapKeys (loadLoop encoded []) ⊆ mapKeys (decodedEntries encoded) := by
    intro i hi
    rw [mem_mapKeys_loadLoop] at hi
    rw [mem_mapKeys_decodedEntries]
    rcases hi with h | h
    · simp [mapKeys] at h
    · exact h
  have hsp := List.subperm_of_subset hnd hsub
  have hle := hsp.length_le
  have hlt : (mapKeys (loadLoop encoded [])).length <
      (mapKeys (decodedEntries encoded)).length := by
    rcases Nat.lt_or_ge (mapKeys (loadLoop encoded [])).length
        (mapKeys (decodedEntries encoded)).length with h | h
    · exact h
    · exact absurd ((hsp.perm_of_length_le h).nodup_iff.1 hnd)
        (decoded_not_nodup encoded k1 k2 n hk h1 h2 hne p1 p2)
  simpa [mapKeys] using hlt


/-- C20. On `int64`, `FormatInt` sends different ids to different texts and
`ParseInt` undoes it, so `Save` writes one key per session; `ParseInt` sends
"7", "+7" and "007" to the same id 7, and a decoded file in which two
different keys decode to one id loads fewer sessions than it has decodable
keys, as the file with the keys "7" and "+7" shows. -/
theorem C20_key_decoding :
    (∀ a b, isInt64 a → isInt64 b → a ≠ b → FormatInt a ≠ FormatInt b) ∧
    (∀ a, isInt64 a → ParseInt (FormatInt a) = some a) ∧
    (∀ states, wellFormedStates states →
      (encodeLoop states []).length = states.length) ∧
    ParseInt "7" = some 7 ∧ ParseInt "+7" = some 7 ∧ ParseInt "007" = some 7 ∧
    (∀ (encoded : List (String × Option userState)) k1 k2 n, (mapKeys encoded).Nodup →
      k1 ∈ mapKeys encoded → k2 ∈ mapKeys encoded → k1 ≠ k2 →
      ParseInt k1 = some n → ParseInt k2 = some n →
      (loadLoop encoded []).length < (decodedEntries encoded).length) ∧
    Load ⟨.parsed [("7", some ⟨"CHOOSING", some [("Age", "3")], ""⟩),
        ("+7", some ⟨"CHOOSING", some [("Age", "4")], ""⟩)], []⟩ =
      .ok [(7, some ⟨"CHOOSING", some [("Age", "4")], ""⟩)] := by
  refine ⟨fun a b ha hb hne h => hne (FormatInt_injective a b ha hb h),
    fun a ha => ParseInt_FormatInt a ha, fun states hwf => ?_, by decide, by decide,
    by decide, fun encoded k1 k2 n hk h1 h2 hne p1 p2 =>
      loadLoop_fewer encoded k1 k2 n hk h1 h2 hne p1 p2, rfl⟩
  rw [encodeLoop_wellFormed states hwf, List.length_map]

/-- C20 on the ids 7 and -7, on two sessions, and on the keys "7" and "007". -/
theorem C20_key_decoding_witness :
    FormatInt 7 ≠ FormatInt (-7) ∧
    ParseInt (FormatInt (-9223372036854775808)) = some (-9223372036854775808) ∧
    (encodeLoop [(7, none), (-7, some ⟨"CHOOSING", none, ""⟩)] []).length = 2 ∧
    (loadLoop [("7", some ⟨"CHOOSING", none, ""⟩), ("x", none), ("007", none)] []).length <
      (decodedEntries
        [("7", some ⟨"CHOOSING", none, ""⟩), ("x", none), ("007", none)]).length :=
  ⟨C20_key_decoding.1 7 (-7) (by decide) (by decide) (by decide),
    C20_key_decoding.2.1 (-9223372036854775808) (by decide),
    C20_key_decoding.2.2.1 [(7, none), (-7, some ⟨"CHOOSING", none, ""⟩)] (by decide),
    C20_key_decoding.2.2.2.2.2.2.1
      [("7", some ⟨"CHOOSING", none, ""⟩), ("x", none), ("007", none)] "7" "007" 7
      (by decide) (by decide) (by decide) (by decide) (by decide) (by decide)⟩


/-! ## C16: where the mutex is held -/

theorem ensureStateT_fst (m : conversationManager) (chatID : Int) :
    (ensureStateT m chatID).1 = ensureState m chatID := by
  unfold ensureStateT ensureState
  cases mapGet? m.states chatID <;> rfl

theorem saveStateLockedT_fst (m : conversationManager) (chatID : Int) (state : userState)
    (io : Bool) : (saveStateLockedT m chatID state io).1 = saveStateLocked m chatID state io :=
  rfl

theorem finishConversationT_fst (m : conversationManager) (chatID : Int) (io : Bool) :
    (finishConversationT m chatID io).1 = finishConversation m chatID io := by
  unfold finishConversationT finishConversation
  rw [← ensureStateT_fst]
  rcases ensureStateT m chatID with ⟨⟨_ | state, m1⟩, t⟩ <;> rfl

theorem startConversationT_fst (m : conversationManager) (chatID : Int) (io : Bool) :
    (startConversationT m chatID io).1 = startConversation m chatID io := by
  unfold startConversationT startConversation
  rw [← ensureStateT_fst]
  rcases ensureStateT m chatID with ⟨⟨_ | state, m1⟩, t⟩
  · rfl
  · simp only [saveStateLockedT_fst]
    split_ifs <;> rfl

theorem handleTypingReplyT_fst (m : conversationManager) (chatID : Int) (text : String)
    (io : Bool) : (handleTypingReplyT m chatID text io).1 = handleTypingReply m chatID text io := by
  unfold handleTypingReplyT handleTypingReply
  rw [← ensureStateT_fst]
  rcases ensureStateT m chatID with ⟨⟨_ | state, m1⟩, t⟩
  · rfl
  · simp only [saveStateLockedT_fst]
    split_ifs
    · rfl
    · cases state.Data <;> rfl

theorem handleTypingKeyT_fst (m : conversationManager) (chatID : Int) (text : String)
    (io : Bool) : (handleTypingKeyT m chatID text io).1 = handleTypingKey m chatID text io := by
  unfold handleTypingKeyT handleTypingKey
  rw [← ensureStateT_fst]
  rcases ensureStateT m chatID with ⟨⟨_ | state, m1⟩, t⟩ <;>
    simp only [saveStateLockedT_fst] <;> split_ifs <;> rfl

theorem handleChoosingT_fst (m : conversationManager) (chatID : Int) (text : String)
    (io : Bool) : (handleChoosingT m chatID text io).1 = handleChoosing m chatID text io := by
  unfold handleChoosingT handleChoosing
  rw [← ensureStateT_fst]
  rcases ensureStateT m chatID with ⟨⟨_ | state, m1⟩, t⟩ <;>
    simp only [saveStateLockedT_fst, finishConversationT_fst] <;> split_ifs <;>
    first
      | rfl
      | (cases mainKeyboardOptions.find? (fun option =>
          decide (TrimSpace text = option ∧ option ≠ "Something else..." ∧ option ≠ "Done"))
          <;> rfl)

theorem handleMessageT_fst (m : conversationManager) (chatID : Int) (text : String)
    (io : Bool) : (handleMessageT m chatID text io).1 = handleMessage m chatID text io := by
  unfold handleMessageT handleMessage
  rw [← ensureStateT_fst]
  rcases ensureStateT m chatID with ⟨⟨_ | state, m1⟩, t⟩
  · rfl
  · simp only
    split_ifs
    · exact handleTypingKeyT_fst _ _ _ _
    · exact handleTypingReplyT_fst _ _ _ _
    · exact handleChoosingT_fst _ _ _ _

theorem summaryPartsT_fst (states : States) (ids : List Int) :
    (summaryPartsT states ids).1 = summaryParts states ids := by
  induction ids with
  | nil => rfl
  | cons id rest ih =>
    unfold summaryPartsT summaryParts
    cases mapGet? states id with
    | none => rfl
    | some p =>
      cases p with
      | none => rfl
      | some st => simp only [ih]

theorem allUsersDataSummaryT_fst (m : conversationManager) :
    (allUsersDataSummaryT m).1 = allUsersDataSummary m := by
  unfold allUsersDataSummaryT allUsersDataSummary
  split_ifs
  · rfl
  · simp only [summaryPartsT_fst]

theorem handleCommandT_fst (m : conversationManager) (chatID : Int) (command : String)
    (io : Bool) : (handleCommandT m chatID command io).1 = handleCommand m chatID command io := by
  unfold handleCommandT handleCommand
  split_ifs
  · exact startConversationT_fst _ _ _
  · exact finishConversationT_fst _ _ _
  · rw [← ensureStateT_fst]
    rcases ensureStateT m chatID with ⟨⟨_ | state, m1⟩, t⟩ <;> rfl
  · simp only [allUsersDataSummaryT_fst]
  · rfl

theorem lockScan_append (strict held : Bool) (xs ys : List Access) :
    lockScan strict held (xs ++ ys) =
      (lockScan strict held xs).bind (fun h => lockScan strict h ys) := by
  induction xs generalizing held with
  | nil => rfl
  | cons a rest ih =>
    cases a <;> cases held <;> cases strict <;> simp [lockScan, ih]

theorem lockScan_ensureStateT (strict : Bool) (m : conversationManager) (chatID : Int) :
    lockScan strict false (ensureStateT m chatID).2 = some false := by
  unfold ensureStateT
  cases mapGet? m.states chatID <;> cases strict <;> rfl

theorem lockScan_saveStateLockedT (strict : Bool) (m : conversationManager) (chatID : Int)
    (state : userState) (io : Bool) :
    lockScan strict false (saveStateLockedT m chatID state io).2 = some false := by
  cases strict <;> rfl

theorem lockScan_summaryPartsT (strict : Bool) (states : States) (ids : List Int) :
    lockScan strict true (summaryPartsT states ids).2 = some true := by
  induction ids with
  | nil => rfl
  | cons id rest ih =>
    unfold summaryPartsT
    cases mapGet? states id with
    | none => simp [lockScan]
    | some p =>
      cases p with
      | none => simp [lockScan]
      | some st => simp [lockScan, ih]

theorem lockScan_finishConversationT (m : conversationManager) (chatID : Int) (io : Bool) :
    lockScan false false (finishConversationT m chatID io).2 = some false := by
  have ht := lockScan_ensureStateT false m chatID
  unfold finishConversationT
  rcases hE : ensureStateT m chatID with ⟨⟨_ | state, m1⟩, t⟩ <;> rw [hE] at ht
  · exact ht
  · simp only at ht
    simp [lockScan_append, ht, lockScan, saveStateLockedT]

theorem lockScan_startConversationT (m : conversationManager) (chatID : Int) (io : Bool) :
    lockScan false false (startConversationT m chatID io).2 = some false := by
  have ht := lockScan_ensureStateT false m chatID
  unfold startConversationT
  rcases hE : ensureStateT m chatID with ⟨⟨_ | state, m1⟩, t⟩ <;> rw [hE] at ht
  · exact ht
  · simp only at ht
    simp only
    split_ifs <;> simp [lockScan_append, ht, lockScan, saveStateLockedT]

theorem lockScan_handleTypingReplyT (m : conversationManager) (chatID : Int) (text : String)
    (io : Bool) : lockScan false false (handleTypingReplyT m chatID text io).2 = some false := by
  have ht := lockScan_ensureStateT false m chatID
  unfold handleTypingReplyT
  rcases hE : ensureStateT m chatID with ⟨⟨_ | state, m1⟩, t⟩ <;> rw [hE] at ht
  · exact ht
  · simp only at ht
    simp only
    split_ifs
    · simp [lockScan_append, ht, lockScan, saveStateLockedT]
    · cases state.Data <;> simp [lockScan_append, ht, lockScan, saveStateLockedT]

theorem lockScan_handleTypingKeyT (m : conversationManager) (chatID : Int) (text : String)
    (io : Bool) : lockScan false false (handleTypingKeyT m chatID text io).2 = some false := by
  have ht := lockScan_ensureStateT false m chatID
  unfold handleTypingKeyT
  rcases hE : ensureStateT m chatID with ⟨⟨_ | state, m1⟩, t⟩ <;> rw [hE] at ht <;>
    simp only at ht <;> simp only <;>
    split_ifs <;> simp [lockScan_append, ht, lockScan, saveStateLockedT]

theorem lockScan_handleChoosingT (m : conversationManager) (chatID : Int) (text : String)
    (io : Bool) : lockScan false false (handleChoosingT m chatID text io).2 = some false := by
  have ht := lockScan_ensureStateT false m chatID
  unfold handleChoosingT
  rcases hE : ensureStateT m chatID with ⟨⟨_ | state, m1⟩, t⟩ <;> rw [hE] at ht <;>
    simp only at ht <;> simp only <;>
    split_ifs <;> (try split) <;>
    simp [lockScan_append, ht, lockScan, saveStateLockedT, lockScan_finishConversationT]

theorem lockScan_allUsersDataSummaryT (m : conversationManager) :
    lockScan false false (allUsersDataSummaryT m).2 = some false := by
  unfold allUsersDataSummaryT
  split_ifs
  · rfl
  · simp [lockScan, lockScan_append, lockScan_summaryPartsT]

/-- In every `handleMessage` call the mutex is never locked while held nor
unlocked while free, every access to the map `m.states` and every `Save` is
made while it is held, and it is free when the call ends. -/
theorem handleMessage_map_and_save_guarded (m : conversationManager) (chatID : Int)
    (text : String) (io : Bool) :
    lockScan false false (handleMessageT m chatID text io).2 = some false := by
  have ht := lockScan_ensureStateT false m chatID
  unfold handleMessageT
  rcases hE : ensureStateT m chatID with ⟨⟨_ | state, m1⟩, t⟩ <;> rw [hE] at ht
  · exact ht
  · simp only at ht
    simp only
    split_ifs <;>
      simp [lockScan_append, ht, lockScan, lockScan_handleTypingKeyT,
        lockScan_handleTypingReplyT, lockScan_handleChoosingT]

/-- The same for every `handleCommand` call. -/
theorem handleCommand_map_and_save_guarded (m : conversationManager) (chatID : Int)
    (command : String) (io : Bool) :
    lockScan false false (handleCommandT m chatID command io).2 = some false := by
  have ht := lockScan_ensureStateT false m chatID
  unfold handleCommandT
  split_ifs
  · exact lockScan_startConversationT _ _ _
  · exact lockScan_finishConversationT _ _ _
  · rcases hE : ensureStateT m chatID with ⟨⟨_ | state, m1⟩, t⟩ <;> rw [hE] at ht
    · exact ht
    · simp only at ht
      simp [lockScan_append, ht, lockScan]
  · exact lockScan_allUsersDataSummaryT _
  · rfl

/-- Every `handleMessage` call that finds a state reads its `Stage` while the
mutex is free. -/
theorem handleMessage_reads_stage_unguarded (m : conversationManager) (chatID : Int)
    (text : String) (io : Bool) (h : mapGet? m.states chatID ≠ some none) :
    lockScan true false (handleMessageT m chatID text io).2 = none := by
  have ht := lockScan_ensureStateT true m chatID
  have hs : (ensureStateT m chatID).1.1 ≠ none := by
    unfold ensureStateT
    cases hg : mapGet? m.states chatID with
    | none => simp
    | some st =>
      cases st with
      | none => exact absurd hg h
      | some st => simp
  unfold handleMessageT
  rcases hE : ensureStateT m chatID with ⟨⟨_ | state, m1⟩, t⟩ <;> rw [hE] at ht hs
  · exact absurd rfl hs
  · simp only at ht
    simp [lockScan_append, ht, lockScan]

/-- C16, against the claim. From the empty store, chat 1 sends `start` and the
message `Age`; the session waits for the value.  A `handleMessage(1, "21")`
then takes the mutex three times and releases it in between: it reads `Stage`,
`PendingKey` and `Data` and assigns `Data["Age"]`, `PendingKey` and `Stage`
while the mutex is free.  A `handleCommand(1, "cancel")` that runs after the
first call has read `Stage` and before it enters `handleTypingReply` makes the
first call answer that it lost track, which neither order of the two calls
one after the other does. -/
theorem C16_calls_for_one_chat_are_not_serialized :
    run emptyManager [.command 1 "start" true, .message 1 "Age" true] = some awaitingAge ∧
    (handleMessageT awaitingAge 1 "21" true).1 = handleMessage awaitingAge 1 "21" true ∧
    (handleMessageT awaitingAge 1 "21" true).2 =
      [.lock, .mapRead, .unlock, .stateRead,
        .lock, .mapRead, .unlock, .stateRead, .stateRead,
        .stateWrite, .stateWrite, .stateWrite,
        .lock, .mapWrite, .save, .unlock] ∧
    unguarded false (handleMessageT awaitingAge 1 "21" true).2 =
      [.stateRead, .stateRead, .stateRead, .stateWrite, .stateWrite, .stateWrite] ∧
    acquisitions (handleMessageT awaitingAge 1 "21" true).2 = 3 ∧
    lockScan true false (handleMessageT awaitingAge 1 "21" true).2 = none ∧
    (ensureState awaitingAge 1).1 = some ⟨"TYPING_REPLY", some [], "Age"⟩ ∧
    ((handleCommand awaitingAge 1 "cancel" true).bind
        (fun r => handleTypingReply r.2 1 "21" true)).map (fun r => r.1.Text) =
      some "I lost track of what we were talking about. Pick an option again." ∧
    (handleMessage awaitingAge 1 "21" true).map (fun r => r.1.Text) =
      some "Saved Age. What would you like to do next?" ∧
    ((handleCommand awaitingAge 1 "cancel" true).bind
        (fun r => handleMessage r.2 1 "21" true)).map (fun r => r.1.Text) =
      some "Please choose one of the options on the keyboard." :=
  ⟨by rfl, handleMessageT_fst _ _ _ _, by rfl, by rfl, by rfl, by rfl, by rfl, by rfl, by rfl,
    by rfl⟩


/-! ## Reading back the document that `Save` writes -/

theorem jsonText_goString (s : String) : jsonText (goString s) = s := by
  apply String.ext
  simp only [jsonText, goString, List.map_map]
  have : ((fun u => match u with
      | GoUnit.rune c => c
      | GoUnit.stray _ => Char.ofNat 0xFFFD) ∘ GoUnit.rune) = id := rfl
  rw [this, List.map_id]

theorem decodeEntries_marshalled (entries acc : List (String × String)) :
    decodeEntries (entries.map (fun kv => (kv.1, Json.str kv.2))) acc =
      some (entries.foldl (fun s kv => mapSet s kv.1 kv.2) acc) := by
  induction entries generalizing acc with
  | nil => rfl
  | cons p rest ih =>
    obtain ⟨k, v⟩ := p
    simp only [List.map_cons, decodeEntries, decodeString, List.foldl_cons]
    exact ih _

theorem marshalData_goState (d : Option (List (String × String))) :
    marshalData (d.map (fun entries => entries.map (fun kv => (goString kv.1, goString kv.2)))) =
      (match d with
        | none => Json.null
        | some entries => Json.obj (entries.map (fun kv => (kv.1, Json.str kv.2)))) := by
  cases d with
  | none => rfl
  | some entries =>
    simp only [Option.map_some', marshalData, List.map_map]
    congr 1
    apply List.map_congr_left
    intro kv _
    simp [jsonText_goString]

theorem decodeData_marshalled (d : Option (List (String × String)))
    (hnd : (mapKeys (dataEntries d)).Nodup) :
    decodeData none
      (marshalData (d.map (fun entries =>
        entries.map (fun kv => (goString kv.1, goString kv.2))))) = some d := by
  rw [marshalData_goState]
  cases d with
  | none => rfl
  | some entries =>
    simp only [decodeData, Option.getD_none, decodeEntries_marshalled]
    rw [foldl_mapSet_fresh _ _ (by simpa [dataEntries] using hnd)]
    simp

theorem decodeState_marshalled (st : userState)
    (hnd : (mapKeys (dataEntries st.Data)).Nodup) :
    decodeState (marshalState (goState st)) = some (some st) := by
  have h1 : foldName "stage" = "stage" := by decide
  have h2 : ("data" : String) ≠ "stage" := by decide
  have h3 : foldName "data" = "data" := by decide
  have h4 : ("pending_key" : String) ≠ "stage" := by decide
  have h5 : ("pending_key" : String) ≠ "data" := by decide
  have h6 : foldName "pending_key" = "pending_key" := by decide
  simp only [marshalState, goState, decodeState, decodeFields, h1, h2, h3, h4, h5, h6,
    if_true, if_false, decodeString, jsonText_goString, decodeData_marshalled st.Data hnd]

theorem decodeMembers_marshalled (encoded acc : List (String × Option userState))
    (hnd : ∀ kv ∈ encoded, ∀ st, kv.2 = some st → (mapKeys (dataEntries st.Data)).Nodup) :
    decodeMembers
        ((goEncoded encoded).map (fun kv =>
          (kv.1, match kv.2 with
            | none => Json.null
            | some st => marshalState st))) acc =
      some (encoded.foldl (fun s kv => mapSet s kv.1 kv.2) acc) := by
  induction encoded generalizing acc with
  | nil => rfl
  | cons p rest ih =>
    obtain ⟨k, v⟩ := p
    have hrest : ∀ kv ∈ rest, ∀ st, kv.2 = some st →
        (mapKeys (dataEntries st.Data)).Nodup :=
      fun kv hkv => hnd kv (List.mem_cons_of_mem _ hkv)
    cases v with
    | none =>
      simp only [goEncoded, List.map_cons, Option.map_none', decodeMembers, decodeState,
        List.foldl_cons]
      exact ih _ hrest
    | some st =>
      have hst := decodeState_marshalled st (hnd (k, some st) (List.mem_cons_self _ _) st rfl)
      simp only [goEncoded, List.map_cons, Option.map_some', decodeMembers, hst,
        List.foldl_cons]
      exact ih _ hrest

theorem Unmarshal_MarshalIndent (encoded : List (String × Option userState))
    (hkeys : (mapKeys encoded).Nodup)
    (hnd : ∀ kv ∈ encoded, ∀ st, kv.2 = some st → (mapKeys (dataEntries st.Data)).Nodup) :
    Unmarshal (MarshalIndent (goEncoded encoded)) = some encoded := by
  simp only [MarshalIndent, Unmarshal]
  rw [decodeMembers_marshalled encoded [] hnd, foldl_mapSet_fresh _ _ (by simpa using hkeys)]
  simp

theorem nodup_mapKeys_encodeLoop (states : States) (acc : List (String × Option userState))
    (h : (mapKeys acc).Nodup) : (mapKeys (encodeLoop states acc)).Nodup := by
  induction states generalizing acc with
  | nil => exact h
  | cons p rest ih =>
    obtain ⟨k, v⟩ := p
    exact ih _ (nodup_mapKeys_mapSet _ _ _ h)

theorem value_of_encodeLoop (states : States) (acc : List (String × Option userState))
    (kv : String × Option userState) (h : kv ∈ encodeLoop states acc) :
    kv ∈ acc ∨ ∃ p ∈ states, p.2 = kv.2 := by
  induction states generalizing acc with
  | nil => exact Or.inl h
  | cons p rest ih =>
    obtain ⟨k, v⟩ := p
    rcases ih _ h with hin | ⟨q, hq, e⟩
    · rcases mem_mapSet _ _ _ _ hin with e | hacc
      · exact Or.inr ⟨(k, v), List.mem_cons_self _ _, by rw [e]⟩
      · exact Or.inl hacc
    · exact Or.inr ⟨q, List.mem_cons_of_mem _ hq, e⟩

theorem goEncoded_mapSet (acc : List (String × Option userState)) (k : String)
    (v : Option userState) :
    goEncoded (mapSet acc k v) = mapSet (goEncoded acc) k (v.map goState) := by
  induction acc with
  | nil => rfl
  | cons p rest ih =>
    obtain ⟨k1, v1⟩ := p
    by_cases h : k1 = k
    · simp [goEncoded, mapSet, h]
    · simp only [goEncoded] at ih
      simp [goEncoded, mapSet, h, ih]

theorem encodeLoopGo_goStates (states : States) (acc : List (String × Option userState)) :
    encodeLoopGo (goStates states) (goEncoded acc) = goEncoded (encodeLoop states acc) := by
  induction states generalizing acc with
  | nil => rfl
  | cons p rest ih =>
    obtain ⟨k, v⟩ := p
    simp only [goStates, List.map_cons, encodeLoopGo, encodeLoop]
    rw [← goEncoded_mapSet]
    exact ih _

theorem savedDocument_goStates (states : States) :
    savedDocument (goStates states) = MarshalIndent (goEncoded (encodeLoop states [])) := by
  have h := encodeLoopGo_goStates states []
  simp only [goEncoded, List.map_nil] at h
  simp only [savedDocument, h, goEncoded]

theorem readDocument_written (states : States) (hdata : distinctLabels states) :
    readDocument (some (savedDocument (goStates states))) =
      FileContent.parsed (encodeLoop states []) := by
  have hkeys := nodup_mapKeys_encodeLoop states [] (by simp [mapKeys])
  have hnd : ∀ kv ∈ encodeLoop states [], ∀ st, kv.2 = some st →
      (mapKeys (dataEntries st.Data)).Nodup := by
    intro kv hkv st hst
    rcases value_of_encodeLoop states [] kv hkv with h | ⟨p, hp, e⟩
    · simp at h
    · have := hdata p hp
      rw [e, hst] at this
      simpa [labelsDistinct] using this
  rw [savedDocument_goStates]
  simp only [readDocument, Unmarshal_MarshalIndent _ hkeys hnd]

/-! ## The mappings of the runs from the empty store are Go maps -/

theorem distinctLabels_mapSet (states : States) (id : Int) (v : Option userState)
    (h : distinctLabels states) (hv : labelsDistinct v = true) :
    distinctLabels (mapSet states id v) := by
  intro p hp
  rcases mem_mapSet _ _ _ _ hp with e | hin
  · rw [e]; exact hv
  · exact h p hin

theorem labelsDistinct_current (m : conversationManager) (chatID : Int)
    (h : distinctLabels m.states) : labelsDistinct (some (current m chatID)) = true := by
  rcases current_fresh_or_session m chatID with e | e
  · rw [e]; decide
  · have hg : mapGet? m.states chatID = some (some (current m chatID)) := by
      unfold session at e
      cases hl : mapGet? m.states chatID with
      | none => simp [hl] at e
      | some p =>
        cases p with
        | none => simp [hl] at e
        | some st => simp [hl] at e; simp [e]
    exact h _ (mem_of_mapGet?_eq_some _ _ _ hg)

theorem labelsDistinct_messageState (c : userState) (text : String)
    (h : labelsDistinct (some c) = true) :
    labelsDistinct (some (messageState c text)) = true := by
  simp only [labelsDistinct, decide_eq_true_eq] at h ⊢
  unfold messageState
  split_ifs <;>
    first
      | exact h
      | exact nodup_mapKeys_mapSet _ _ _ h

theorem labelsDistinct_commandState (c : userState) (command : String)
    (h : labelsDistinct (some c) = true) :
    labelsDistinct (some (commandState c command)) = true := by
  simp only [labelsDistinct, decide_eq_true_eq] at h ⊢
  unfold commandState
  split_ifs <;> exact h

theorem ensured_go_map (m : conversationManager) (chatID : Int) (hid : isInt64 chatID)
    (hwf : wellFormedStates m.states) (hd : distinctLabels m.states) (hnn : noNil m.states) :
    wellFormedStates (ensured m chatID).states ∧ distinctLabels (ensured m chatID).states ∧
      noNil (ensured m chatID).states := by
  rcases (ensured_onlyCreated m chatID).2 with e | ⟨_, e⟩
  · rw [e]; exact ⟨hwf, hd, hnn⟩
  · rw [e]
    exact ⟨wellFormedStates_mapSet _ _ _ hwf hid, distinctLabels_mapSet _ _ _ hd (by decide),
      noNil_mapSet _ _ _ hnn⟩

theorem saveStateLocked_go_map (m : conversationManager) (chatID : Int) (st : userState)
    (io : Bool) (hid : isInt64 chatID) (hst : labelsDistinct (some st) = true)
    (h : wellFormedStates m.states ∧ distinctLabels m.states ∧ noNil m.states) :
    wellFormedStates (saveStateLocked m chatID st io).states ∧
      distinctLabels (saveStateLocked m chatID st io).states ∧
      noNil (saveStateLocked m chatID st io).states :=
  ⟨wellFormedStates_mapSet _ _ _ h.1 hid, distinctLabels_mapSet _ _ _ h.2.1 hst,
    noNil_mapSet _ _ _ h.2.2⟩

theorem step_go_map (m : conversationManager) (e : Event) (hid : isInt64 (eventChat e))
    (hwf : wellFormedStates m.states) (hd : distinctLabels m.states) (hnn : noNil m.states) :
    ∃ r m', step m e = some (r, m') ∧
      wellFormedStates m'.states ∧ distinctLabels m'.states ∧ noNil m'.states := by
  cases e with
  | message chatID text io =>
    have hnil := noNil_lookup m.states chatID hnn
    have he := ensured_go_map m chatID hid hwf hd hnn
    have hc := labelsDistinct_current m chatID hd
    refine ⟨_, _, handleMessage_refines m chatID text io hnil, ?_⟩
    split_ifs
    · exact saveStateLocked_go_map _ _ _ _ hid (labelsDistinct_messageState _ _ hc) he
    · exact he
  | command chatID command io =>
    have hnil := noNil_lookup m.states chatID hnn
    have he := ensured_go_map m chatID hid hwf hd hnn
    have hc := labelsDistinct_current m chatID hd
    by_cases h1 : command = "start"
    · subst h1
      exact ⟨_, _, handleCommand_start m chatID io hnil,
        saveStateLocked_go_map _ _ _ _ hid hc he⟩
    · by_cases h2 : command = "cancel" ∨ command = "stop"
      · exact ⟨_, _, handleCommand_finish m chatID command io hnil h2,
          saveStateLocked_go_map _ _ _ _ hid hc he⟩
      · by_cases h3 : command = "show_data"
        · subst h3
          exact ⟨_, _, handleCommand_showData m chatID io hnil, he⟩
        · by_cases h4 : command = "show_all_data"
          · subst h4
            obtain ⟨text, ht⟩ := allUsersDataSummary_total m hnn
            refine ⟨⟨text, false, false⟩, m, ?_, hwf, hd, hnn⟩
            simp only [step, handleCommand_showAll, ht, Option.map_some']
          · exact ⟨_, _, handleCommand_unknown m chatID command io h1 h2 h3 h4, hwf, hd, hnn⟩

theorem run_go_map (m : conversationManager) (evs : List Event)
    (hids : ∀ e ∈ evs, isInt64 (eventChat e))
    (hwf : wellFormedStates m.states) (hd : distinctLabels m.states) (hnn : noNil m.states) :
    ∃ m', run m evs = some m' ∧
      wellFormedStates m'.states ∧ distinctLabels m'.states ∧ noNil m'.states := by
  induction evs generalizing m with
  | nil => exact ⟨m, rfl, hwf, hd, hnn⟩
  | cons e rest ih =>
    obtain ⟨r, m1, hstep, h1, h2, h3⟩ :=
      step_go_map m e (hids e (List.mem_cons_self _ _)) hwf hd hnn
    obtain ⟨m', hrun, h⟩ := ih m1 (fun e' he' => hids e' (List.mem_cons_of_mem _ he')) h1 h2 h3
    exact ⟨m', by simp only [run, hstep, hrun], h⟩

/-- After every run from the empty store with chat ids in `int64`, the mapping
is a Go map of Go maps, and the file `Save` leaves for it is the decoding of
the document `Save` writes. -/
theorem run_file_is_the_written_document (evs : List Event)
    (hids : ∀ e ∈ evs, isInt64 (eventChat e)) :
    ∃ m, run emptyManager evs = some m ∧
      wellFormedStates m.states ∧ distinctLabels m.states ∧
      readDocument (some (savedDocument (goStates m.states))) =
        FileContent.parsed (encodeLoop m.states []) := by
  obtain ⟨m, hrun, hwf, hd, _⟩ :=
    run_go_map emptyManager evs hids (by decide) (by decide) (by decide)
  exact ⟨m, hrun, hwf, hd, readDocument_written m.states hd⟩

/-! ## C5: the store round trip -/

/-- C5, as the code has it. For every mapping of sessions whose stage, labels,
values and pending key are valid text (ids distinct and in `int64`, labels
distinct, as in Go maps), a successful `Save` leaves the file as the decoding
of the document that `json.MarshalIndent` writes for the re-keyed mapping, and
`Load` on a fresh store that reads that document (in whatever order the decoder
lists its entries) returns the same set of ids and, for each id, the identical
state. -/
theorem C5_round_trip_of_valid_text (f fresh : fileStore) (states : States)
    (hwf : wellFormedStates states) (hdata : distinctLabels states)
    (hread : sameFile fresh.file (readDocument (some (savedDocument (goStates states))))) :
    Save f states true =
      ({ file := readDocument (some (savedDocument (goStates states))),
         handed := states :: f.handed }, true) ∧
    ∃ loaded, Load fresh = .ok loaded ∧
      (∀ id, id ∈ mapKeys loaded ↔ id ∈ mapKeys states) ∧
      (∀ id, mapGet? loaded id = mapGet? states id) ∧
      loaded.Perm states := by
  rw [readDocument_written states hdata] at hread ⊢
  refine ⟨by simp [Save], ?_⟩
  cases hf : fresh.file with
  | parsed enc =>
    rw [hf] at hread
    obtain ⟨hp, hg⟩ := load_after_save states hwf enc hread
    refine ⟨loadLoop enc [], by simp [Load, hf], fun id => ?_, hg, hp⟩
    exact (hp.map Prod.fst).mem_iff
  | missing => rw [hf] at hread; exact absurd hread (by simp [sameFile])
  | unreadable => rw [hf] at hread; exact absurd hread (by simp [sameFile])
  | malformed => rw [hf] at hread; exact absurd hread (by simp [sameFile])

/-- C5 on two sessions, one with a negative id, read back in the
other order. -/
theorem C5_round_trip_of_valid_text_witness :
    Save ⟨.missing, []⟩
        [(7, some ⟨"TYPING_REPLY", some [("Age", "21")], "Skill"⟩), (-3, some ⟨"CHOOSING", none, ""⟩)]
        true =
      ({ file := readDocument (some (savedDocument (goStates
          [(7, some ⟨"TYPING_REPLY", some [("Age", "21")], "Skill"⟩),
            (-3, some ⟨"CHOOSING", none, ""⟩)]))),
         handed := [[(7, some ⟨"TYPING_REPLY", some [("Age", "21")], "Skill"⟩),
            (-3, some ⟨"CHOOSING", none, ""⟩)]] }, true) ∧
    ∃ loaded,
      Load ⟨.parsed [("-3", some ⟨"CHOOSING", none, ""⟩),
          ("7", some ⟨"TYPING_REPLY", some [("Age", "21")], "Skill"⟩)], []⟩ = .ok loaded ∧
      (∀ id, id ∈ mapKeys loaded ↔ id ∈ mapKeys
        [(7, some (userState.mk "TYPING_REPLY" (some [("Age", "21")]) "Skill")),
          (-3, some ⟨"CHOOSING", none, ""⟩)]) ∧
      (∀ id, mapGet? loaded id = mapGet?
        [(7, some (userState.mk "TYPING_REPLY" (some [("Age", "21")]) "Skill")),
          (-3, some ⟨"CHOOSING", none, ""⟩)] id) ∧
      loaded.Perm
        [(7, some ⟨"TYPING_REPLY", some [("Age", "21")], "Skill"⟩), (-3, some ⟨"CHOOSING", none, ""⟩)] :=
  C5_round_trip_of_valid_text ⟨.missing, []⟩
    ⟨.parsed [("-3", some ⟨"CHOOSING", none, ""⟩),
      ("7", some ⟨"TYPING_REPLY", some [("Age", "21")], "Skill"⟩)], []⟩
    [(7, some ⟨"TYPING_REPLY", some [("Age", "21")], "Skill"⟩), (-3, some ⟨"CHOOSING", none, ""⟩)]
    (by decide) (by decide) (List.Perm.swap _ _ [])

/-- C5, against the claim. A session whose value holds the byte 0xFF, which is
not valid UTF-8, is written with U+FFFD in its place, and `Load` on the
document that `Save` wrote returns that other value. -/
theorem C5_invalid_bytes_are_replaced :
    Load ⟨readDocument (some (savedDocument
        [(1, some ⟨goString "CHOOSING",
          some [(goString "Age", [GoUnit.rune 'a', GoUnit.stray 255, GoUnit.rune 'b'])], []⟩)])),
      []⟩ = .ok [(1, some ⟨"CHOOSING", some [("Age", "a\uFFFDb")], ""⟩)] ∧
    goStates [(1, some ⟨"CHOOSING", some [("Age", "a\uFFFDb")], ""⟩)] ≠
      [(1, some ⟨goString "CHOOSING",
        some [(goString "Age", [GoUnit.rune 'a', GoUnit.stray 255, GoUnit.rune 'b'])], []⟩)] :=
  ⟨by rfl, by decide⟩

/-! ## C9: what `Load` tolerates -/

theorem decodeMembers_of_decoded (members : List (String × Json))
    (acc : List (String × Option userState))
    (hdec : ∀ kv ∈ members, decodeState kv.2 ≠ none) :
    ∃ encoded, decodeMembers members acc = some encoded ∧
      ∀ k, k ∈ mapKeys encoded ↔ k ∈ mapKeys acc ∨ k ∈ mapKeys members := by
  induction members generalizing acc with
  | nil => exact ⟨acc, rfl, fun k => by simp [mapKeys]⟩
  | cons p rest ih =>
    obtain ⟨k1, v1⟩ := p
    cases hv : decodeState v1 with
    | none => exact absurd hv (hdec (k1, v1) (List.mem_cons_self _ _))
    | some st =>
      obtain ⟨encoded, he, hk⟩ :=
        ih (mapSet acc k1 st) (fun kv hkv => hdec kv (List.mem_cons_of_mem _ hkv))
      refine ⟨encoded, by simp only [decodeMembers, hv, he], fun k => ?_⟩
      rw [hk, mem_mapKeys_mapSet, mapKeys_cons, List.mem_cons]
      constructor
      · rintro ((h | h) | h)
        · exact Or.inr (Or.inl h)
        · exact Or.inl h
        · exact Or.inr (Or.inr h)
      · rintro (h | h | h)
        · exact Or.inl (Or.inr h)
        · exact Or.inl (Or.inl h)
        · exact Or.inr h

theorem decodeMembers_of_undecoded (members : List (String × Json))
    (acc : List (String × Option userState))
    (hbad : ∃ kv ∈ members, decodeState kv.2 = none) :
    decodeMembers members acc = none := by
  induction members generalizing acc with
  | nil => obtain ⟨kv, hkv, _⟩ := hbad; simp at hkv
  | cons p rest ih =>
    obtain ⟨k1, v1⟩ := p
    cases hv : decodeState v1 with
    | none => simp only [decodeMembers, hv]
    | some st =>
      simp only [decodeMembers, hv]
      apply ih
      obtain ⟨kv, hkv, hnone⟩ := hbad
      rcases List.mem_cons.1 hkv with e | hrest
      · subst e; rw [hv] at hnone; cases hnone
      · exact ⟨kv, hrest, hnone⟩

/-- C9, as the code has it. With no file `Load` returns the empty mapping and no error,
and so it does on the document `null`.  On a JSON object each of whose values
`json.Unmarshal` accepts as a `*userState`, `Load` returns no error and its
result holds id `n` exactly when some key of the object is accepted by
`ParseInt(k, 10, 64)` with value `n`; the other keys are dropped. -/
theorem C9_load_of_decodable_object (members : List (String × Json)) (handed : List States)
    (hdec : ∀ kv ∈ members, decodeState kv.2 ≠ none) :
    Load ⟨.missing, handed⟩ = .ok [] ∧
    Load ⟨readDocument (some Json.null), handed⟩ = .ok [] ∧
    ∃ loaded, Load ⟨readDocument (some (Json.obj members)), handed⟩ = .ok loaded ∧
      ∀ n, n ∈ mapKeys loaded ↔ ∃ k ∈ mapKeys members, ParseInt k = some n := by
  refine ⟨rfl, rfl, ?_⟩
  obtain ⟨encoded, he, hk⟩ := decodeMembers_of_decoded members [] hdec
  refine ⟨loadLoop encoded [], by simp only [readDocument, Unmarshal, he, Load], fun n => ?_⟩
  rw [mem_mapKeys_loadLoop]
  simp [mapKeys] at hk ⊢
  constructor
  · rintro ⟨k, ⟨v, hkv⟩, hp⟩
    obtain ⟨v1, hv1⟩ := (hk k).1 ⟨v, hkv⟩
    exact ⟨k, ⟨v1, hv1⟩, hp⟩
  · rintro ⟨k, ⟨v, hkv⟩, hp⟩
    obtain ⟨v1, hv1⟩ := (hk k).2 ⟨v, hkv⟩
    exact ⟨k, ⟨v1, hv1⟩, hp⟩

/-- C9 on an object with a null value, a field name in capitals, a
member that names no field, and three keys that `ParseInt` rejects. -/
theorem C9_load_of_decodable_object_witness :
    Load ⟨.missing, []⟩ = .ok [] ∧
    Load ⟨readDocument (some Json.null), []⟩ = .ok [] ∧
    ∃ loaded, Load ⟨readDocument (some (Json.obj
        [("12", Json.obj [("STAGE", Json.str "CHOOSING"), ("extra", Json.number "5")]),
          ("1x", Json.obj []), ("", Json.null), ("9223372036854775808", Json.null),
          ("-7", Json.obj [("data", Json.obj [("Age", Json.str "3")])])])), []⟩ = .ok loaded ∧
      ∀ n, n ∈ mapKeys loaded ↔ ∃ k ∈ mapKeys
        [("12", Json.obj [("STAGE", Json.str "CHOOSING"), ("extra", Json.number "5")]),
          ("1x", Json.obj []), ("", Json.null), ("9223372036854775808", Json.null),
          ("-7", Json.obj [("data", Json.obj [("Age", Json.str "3")])])],
        ParseInt k = some n :=
  C9_load_of_decodable_object
    [("12", Json.obj [("STAGE", Json.str "CHOOSING"), ("extra", Json.number "5")]),
      ("1x", Json.obj []), ("", Json.null), ("9223372036854775808", Json.null),
      ("-7", Json.obj [("data", Json.obj [("Age", Json.str "3")])])] []
    (by simp [decodeState, decodeFields, decodeString, decodeData, decodeEntries, foldName,
      foldChar, mapSet])

/-- C9, against the claim. The file `{"1": {"stage": 5}}` parses as a JSON
object, and `Load` returns the decoding error and no mapping; so does every
object with a value that `json.Unmarshal` rejects. -/
theorem C9_object_with_a_mistyped_field :
    Load ⟨readDocument (some (Json.obj [("1", Json.obj [("stage", Json.number "5")])])), []⟩ =
      .error .corrupt ∧
    ∀ (members : List (String × Json)) (handed : List States),
      (∃ kv ∈ members, decodeState kv.2 = none) →
        Load ⟨readDocument (some (Json.obj members)), handed⟩ = .error .corrupt := by
  refine ⟨by rfl, fun members handed hbad => ?_⟩
  simp only [readDocument, Unmarshal, decodeMembers_of_undecoded members [] hbad, Load]

end TgBot
